import Mathlib

/-!
# PTRAC reader (`libmcnptools/src/ptrack/Ptrac.cpp`)

A shallow embedding of `Ptrac::ReadHistory`, `Ptrac::ReadHistoriesLegacy` and
`Ptrac::ReadHeader` together with the properties of the reader that the
specification states.

Conventions of the embedding:

* a finite `double` is its exact rational value; `int`, `int64_t` are `Int`
  with explicit range checks where the C++ conversion is only defined in range;
* the input stream is a list of scalars and line ends together with the
  `eofbit` and `failbit` of `std::ifstream`;
* a local that the C++ declares without an initialiser starts with the value
  recorded in `Locals`, which every theorem quantifies over;
* the `while` loop over the events takes a fuel argument; `Res.oof` is the
  answer of a run that needs more iterations than the fuel allows.
-/

namespace mcnptools

/-- A finite `double`, modelled by its exact rational value. -/
abbrev Dbl := ℚ

/-- Format selector `Ptrac::PtracFormat`. -/
inductive PtracFormat
  | ASC_PTRAC
  | BIN_PTRAC
  | HDF5_PTRAC
  deriving DecidableEq, Repr

/-- Modelled from the spec: one scalar of the byte source (section 2, component 1).
`asInt` is what an integer extraction of the scalar yields and `asReal` what a
floating-point extraction yields; `none` is the malformed-token condition for
that extraction. A binary word carries both readings. -/
structure Tok where
  asInt : Option Int
  asReal : Option Dbl
  deriving DecidableEq, Repr

/-- An integer literal: readable as an integer and as a double. -/
def Tok.int (v : Int) : Tok := ⟨some v, some (v : ℚ)⟩

/-- A floating-point literal that is not an integer literal. -/
def Tok.real (q : Dbl) : Tok := ⟨none, some q⟩

/-- A token that is no number at all. -/
def Tok.bad : Tok := ⟨none, none⟩

/-- Modelled from the spec: what the byte source holds, a scalar or a line end. -/
inductive Item
  | tok (t : Tok)
  | nl
  deriving DecidableEq, Repr

/-- Modelled from the spec: the byte source `m_handle` (section 2, component 1):
the input not yet consumed and the two state bits of the stream that the
decoder observes. -/
structure Stream where
  items : List Item
  eofbit : Bool
  failbit : Bool
  deriving DecidableEq, Repr

/-- The call `m_handle.good()`. -/
def Stream.good (s : Stream) : Bool := !s.eofbit && !s.failbit

/-- The call `m_handle.eof()`. -/
def Stream.eof (s : Stream) : Bool := s.eofbit

/-- The next scalar of the pending input and what follows it; leading line ends
(white space) are skipped. -/
def nextTok : List Item → Option (Tok × List Item)
  | [] => none
  | Item.nl :: rest => nextTok rest
  | Item.tok t :: rest => some (t, rest)

/-- Modelled from the spec: scalar extraction from the byte source, the common
part of the three instances of `Ptrac::ReadValue` (declared in `Ptrac.hpp`).
The first component is the value written to the destination, `none` when the
destination is left as it was. `zero` is what a failed parse stores. A
formatted extraction that runs into the end of the input sets `eofbit`; a
binary read of the last word does not. -/
def extract {α : Type} (fmt : PtracFormat) (pick : Tok → Option α) (zero : α)
    (s : Stream) : Option α × Stream :=
  if s.good then
    match nextTok s.items with
    | none => (none, { items := [], eofbit := true, failbit := true })
    | some (t, rest) =>
      match pick t with
      | some v =>
        (some v, { items := rest,
                   eofbit := decide (fmt ≠ PtracFormat.BIN_PTRAC) && rest.isEmpty,
                   failbit := false })
      | none => (some zero, { s with failbit := true })
  else (none, { s with failbit := true })

/-- Range of a signed machine integer of `w` bits. -/
def inRange (w : Nat) (v : Int) : Bool :=
  decide (-(2 : Int) ^ (w - 1) ≤ v) && decide (v < (2 : Int) ^ (w - 1))

/-- Integer reading of a scalar for a destination of `w` bits. -/
def pickInt (w : Nat) (t : Tok) : Option Int :=
  match t.asInt with
  | some v => if inRange w v then some v else none
  | none => none

/-- Modelled from the spec: `ReadValue` at type `int`. -/
def ReadValueInt (fmt : PtracFormat) (s : Stream) : Option Int × Stream :=
  extract fmt (pickInt 32) 0 s

/-- Modelled from the spec: `ReadValue` at type `int64_t`. -/
def ReadValueInt64 (fmt : PtracFormat) (s : Stream) : Option Int × Stream :=
  extract fmt (pickInt 64) 0 s

/-- Modelled from the spec: `ReadValue` at type `double`. -/
def ReadValueDouble (fmt : PtracFormat) (s : Stream) : Option Dbl × Stream :=
  extract fmt Tok.asReal 0 s

/-- Modelled from the spec: `cjsoft::stringops::getline`, which consumes the
remainder of the current line (section 4.4, step 5). -/
def getline (s : Stream) : Stream :=
  if s.good then
    match s.items.dropWhile (fun i => decide (i ≠ Item.nl)) with
    | [] => { items := [], eofbit := true, failbit := s.items.isEmpty }
    | _ :: rest => { s with items := rest }
  else { s with failbit := true }

/-- The call `m_handle.peek()`: looks at the next character without taking it. -/
def peek (s : Stream) : Stream :=
  if s.good then
    if s.items.isEmpty then { s with eofbit := true } else s
  else { s with failbit := true }

/-- Outcome of a run of the embedded code: a normal return, a thrown
`McnpToolsException`, an operation the C++ standard leaves undefined, or a run
that did not finish within the fuel. -/
inductive Res (α : Type)
  | ok (a : α)
  | exn
  | ub
  | oof
  deriving DecidableEq, Repr

namespace Ptrac

/-- Modelled from the spec: the field identifier enumeration of `Ptrac.hpp`
(section 6): identifiers of the NPS line. -/
def NPS : Int := 1
/-- Modelled from the spec: field identifier (section 6). -/
def FIRST_EVENT_TYPE : Int := 2
/-- Modelled from the spec: field identifier (section 6). -/
def NPSCELL : Int := 3
/-- Modelled from the spec: field identifier (section 6). -/
def NPSSURFACE : Int := 4
/-- Modelled from the spec: field identifier (section 6). -/
def TALLY : Int := 5
/-- Modelled from the spec: field identifier (section 6). -/
def VALUE : Int := 6
/-- Modelled from the spec: field identifier (section 6). -/
def NEXT_EVENT_TYPE : Int := 7
/-- Modelled from the spec: field identifier (section 6). -/
def NODE : Int := 10
/-- Modelled from the spec: field identifier (section 6). -/
def NSR : Int := 11
/-- Modelled from the spec: field identifier (section 6). -/
def ZAID : Int := 12
/-- Modelled from the spec: field identifier (section 6). -/
def RXN : Int := 13
/-- Modelled from the spec: field identifier (section 6). -/
def SURFACE : Int := 14
/-- Modelled from the spec: field identifier (section 6). -/
def ANGLE : Int := 15
/-- Modelled from the spec: field identifier (section 6). -/
def TERMINATION_TYPE : Int := 16
/-- Modelled from the spec: field identifier (section 6). -/
def BRANCH : Int := 17
/-- Modelled from the spec: field identifier (section 6). -/
def PARTICLE : Int := 18
/-- Modelled from the spec: field identifier (section 6). -/
def CELL : Int := 19
/-- Modelled from the spec: field identifier (section 6). -/
def MATERIAL : Int := 20
/-- Modelled from the spec: field identifier (section 6). -/
def COLLISION_NUMBER : Int := 21
/-- Modelled from the spec: field identifier (section 6). -/
def X : Int := 22
/-- Modelled from the spec: field identifier (section 6). -/
def Y : Int := 23
/-- Modelled from the spec: field identifier (section 6). -/
def Z : Int := 24
/-- Modelled from the spec: field identifier (section 6). -/
def U : Int := 25
/-- Modelled from the spec: field identifier (section 6). -/
def V : Int := 26
/-- Modelled from the spec: field identifier (section 6). -/
def W : Int := 27
/-- Modelled from the spec: field identifier (section 6). -/
def ENERGY : Int := 28
/-- Modelled from the spec: field identifier (section 6). -/
def WEIGHT : Int := 29
/-- Modelled from the spec: field identifier (section 6). -/
def TIME : Int := 30
/-- Modelled from the spec: event-kind code (section 6). -/
def SRC : Int := 1000
/-- Modelled from the spec: event-kind code (section 6). -/
def BNK : Int := 2000
/-- Modelled from the spec: event-kind code (section 6). -/
def SUR : Int := 3000
/-- Modelled from the spec: event-kind code (section 6). -/
def COL : Int := 4000
/-- Modelled from the spec: event-kind code (section 6). -/
def TER : Int := 5000
/-- Modelled from the spec: the end-of-history code (section 6). -/
def LST : Int := 9000

/-- The line tags `Ptrac::m_lines`. -/
def m_lines : List String :=
  ["nps", "src1", "src2", "bnk1", "bnk2", "sur1", "sur2", "col1", "col2", "ter1", "ter2"]

/-- The `case` labels of the `switch` over `all_data_types[i]` that store the
value in `event.m_data`, in source order. -/
def storedIds : List Int :=
  [NODE, NSR, ZAID, RXN, SURFACE, ANGLE, TERMINATION_TYPE, BRANCH, PARTICLE, CELL,
   MATERIAL, COLLISION_NUMBER, X, Y, Z, U, V, W, ENERGY, WEIGHT, TIME]

end Ptrac

/-- Record `PtracNps`, the per-history header. -/
structure PtracNps where
  m_nps : Int
  m_cell : Int
  m_surface : Int
  m_tally : Int
  m_value : Dbl
  deriving DecidableEq, Repr

/-- Record `PtracEvent`; `m_data` is the `std::map<int,double>` kept as a list of
bindings sorted by key. -/
structure PtracEvent where
  m_type : Int
  m_bnktype : Int
  m_data : List (Int × Dbl)
  deriving DecidableEq, Repr

/-- Record `PtracHistory`. -/
structure PtracHistory where
  m_nps : PtracNps
  m_events : List PtracEvent
  deriving DecidableEq, Repr

/-- The header state of a `Ptrac` object that the history decoder consults. -/
structure Ptrac where
  m_format : PtracFormat
  m_nument : String → Int
  m_datent : String → List Int

/-- The expression `m_datent[key]`. `ReadHeader` stores vectors under the tags of
`m_lines` only, and `operator[]` default-inserts an empty vector under any other
key. -/
def Ptrac.datent (p : Ptrac) (key : String) : List Int :=
  if key ∈ Ptrac.m_lines then p.m_datent key else []

/-- Initial contents of what `ReadHistory` declares without an initialiser:
`size1`, `size2`, `next_event_type`, the `tmp` of the event loop, and the two
default-constructed `PtracNps` records (the local `nps` and the member of
`hist`), whose class is declared outside the sources. -/
structure Locals where
  size1 : Int
  size2 : Int
  next_event_type : Dbl
  tmp : Dbl
  nps : PtracNps
  hist_nps : PtracNps
  deriving DecidableEq, Repr

/-- The assignment `m[k] = v` on a `std::map<int,double>`. -/
def mapSet (k : Int) (v : Dbl) : List (Int × Dbl) → List (Int × Dbl)
  | [] => [(k, v)]
  | (k1, v1) :: rest =>
    if k < k1 then (k, v) :: (k1, v1) :: rest
    else if k = k1 then (k, v) :: rest
    else (k1, v1) :: mapSet k v rest

/-- Lookup of a key in a `std::map<int,double>`. -/
def mapGet (k : Int) : List (Int × Dbl) → Option Dbl
  | [] => none
  | (k1, v1) :: rest => if k = k1 then some v1 else mapGet k rest

/-- The conversion `(int) x` of a double: truncation toward zero, defined only
when the truncated value is representable in `int`. -/
def castInt (x : Dbl) : Option Int :=
  let t := x.num.tdiv (x.den : Int)
  if inRange 32 t then some t else none

/-- The call `std::abs(i)` on an `int`, undefined for the least `int`. -/
def absInt (i : Int) : Option Int :=
  if i = -(2 : Int) ^ 31 then none else some (i.natAbs : Int)

/-- The `switch` that maps the primary event type to `typestr`. -/
def typestr (t : Int) : String :=
  if t = Ptrac.SRC then "src"
  else if t = Ptrac.BNK then "bnk"
  else if t = Ptrac.SUR then "sur"
  else if t = Ptrac.COL then "col"
  else if t = Ptrac.TER then "ter"
  else ""

/-- How the loop over the NPS line ends: `bad` is the early `return hist` taken
when the stream is no longer good after a read, `done` the normal end of the
loop with the record, the staged event code and the stream, `undef` an index
past the end of `m_datent["nps"]`. -/
inductive NpsLine
  | bad (s : Stream)
  | done (nps : PtracNps) (next_event_type : Dbl) (s : Stream)
  | undef
  deriving DecidableEq, Repr

/-- The `switch` of the NPS line on the identifier of an integer field. -/
def npsStore (f : Int) (tmp : Int) (nps : PtracNps) (next_event_type : Dbl) :
    PtracNps × Dbl :=
  if f = Ptrac.NPS then ({ nps with m_nps := tmp }, next_event_type)
  else if f = Ptrac.FIRST_EVENT_TYPE then (nps, (tmp : ℚ))
  else if f = Ptrac.NPSCELL then ({ nps with m_cell := tmp }, next_event_type)
  else if f = Ptrac.NPSSURFACE then ({ nps with m_surface := tmp }, next_event_type)
  else if f = Ptrac.TALLY then ({ nps with m_tally := tmp }, next_event_type)
  else (nps, next_event_type)

/-- The loop `for(i = 0; i < m_nument["nps"]; i++)` of `ReadHistory`: the first
argument is the number of iterations left and the second the part of
`m_datent["nps"]` from index `i` on. A read that leaves its destination alone
also leaves the stream not good (`extract_good`), so the `none` branches under
`s1.good` are never taken. -/
def npsFields (fmt : PtracFormat) : Nat → List Int → PtracNps → Dbl → Stream → NpsLine
  | 0, _, nps, next_event_type, s => NpsLine.done nps next_event_type s
  | _ + 1, [], _, _, _ => NpsLine.undef
  | n + 1, f :: layout, nps, next_event_type, s =>
    if f = Ptrac.VALUE then
      match ReadValueDouble fmt s with
      | (r, s1) =>
        if s1.good then
          match r with
          | some tmp_double =>
            npsFields fmt n layout { nps with m_value := tmp_double } next_event_type s1
          | none => npsFields fmt n layout nps next_event_type s1
        else NpsLine.bad s1
    else
      match ReadValueInt64 fmt s with
      | (r, s1) =>
        if s1.good then
          match r with
          | some tmp =>
            match npsStore f tmp nps next_event_type with
            | (nps1, next1) => npsFields fmt n layout nps1 next1 s1
          | none => npsFields fmt n layout nps next_event_type s1
        else NpsLine.bad s1

/-- The `switch` of the event loop on `all_data_types[i]`. -/
def eventStore (id : Int) (tmp : Dbl) (event : PtracEvent) (next_event_type : Dbl) :
    PtracEvent × Dbl :=
  if id = Ptrac.NEXT_EVENT_TYPE then (event, tmp)
  else if id ∈ Ptrac.storedIds then
    ({ event with m_data := mapSet id tmp event.m_data }, next_event_type)
  else (event, next_event_type)

/-- The loop `for(i = 0; i < all_data_types.size(); i++)` of `ReadHistory`;
`tmp0` is what the uninitialised `tmp` holds when the read leaves it alone. -/
def eventFields (fmt : PtracFormat) (tmp0 : Dbl) :
    List Int → PtracEvent → Dbl → Stream → PtracEvent × Dbl × Stream
  | [], event, next_event_type, s => (event, next_event_type, s)
  | id :: rest, event, next_event_type, s =>
    match ReadValueDouble fmt s with
    | (r, s1) =>
      match eventStore id (r.getD tmp0) event next_event_type with
      | (event1, next1) => eventFields fmt tmp0 rest event1 next1 s1

/-- The head of the event loop (lines 486 to 488): `none` when a conversion is
undefined, `some none` when the loop ends, `some (some (type, bnk_type))` when
an event of that type and bank type is decoded. -/
def decodeNext (next_event_type : Dbl) : Option (Option (Int × Int)) :=
  match castInt next_event_type with
  | none => none
  | some c =>
    if c = Ptrac.LST then some none
    else
      match absInt c with
      | none => none
      | some a =>
        let bnk_type := a.tmod 1000
        some (some (a - bnk_type, bnk_type))

/-- The vector `all_data_types` of an event of primary type `t`. -/
def allDataTypes (p : Ptrac) (t : Int) : List Int :=
  p.datent (typestr t ++ "1") ++ p.datent (typestr t ++ "2")

/-- State of the event loop: `size1`, `size2`, `next_event_type`, the stream. -/
structure LoopState where
  size1 : Int
  size2 : Int
  next_event_type : Dbl
  s : Stream
  deriving DecidableEq, Repr

/-- The statement `if( m_format == Ptrac::BIN_PTRAC ) ReadValue(size)`: the
content of `size` after it, `cur` being its content before, and the stream. -/
def readSize (p : Ptrac) (cur : Int) (s : Stream) : Int × Stream :=
  if p.m_format = PtracFormat.BIN_PTRAC then
    match ReadValueInt p.m_format s with
    | (r, s1) => (r.getD cur, s1)
  else (cur, s)

/-- One pass through the body of the event loop for an event of type `t` and
bank type `b` (lines 509 to 604): the decoded event and the state after it, or
the exception of a record whose byte counts differ. -/
def eventBody (p : Ptrac) (u : Locals) (t b : Int) (st : LoopState) :
    Res (PtracEvent × LoopState) :=
  match readSize p st.size1 st.s with
  | (size1, s1) =>
    match eventFields p.m_format u.tmp (allDataTypes p t)
        { m_type := t, m_bnktype := b, m_data := [] } (t : ℚ) s1 with
    | (event, next_event_type, s2) =>
      match readSize p st.size2 s2 with
      | (size2, s3) =>
        if p.m_format = PtracFormat.BIN_PTRAC ∧ size1 ≠ size2 then Res.exn
        else Res.ok (event, { size1 := size1, size2 := size2,
                              next_event_type := next_event_type, s := s3 })

/-- The loop `while( (int) next_event_type != Ptrac::LST )` of `ReadHistory`,
with the events pushed so far; at most `fuel` tests of the condition. -/
def eventLoop (p : Ptrac) (u : Locals) :
    Nat → LoopState → List PtracEvent → Res (List PtracEvent × Stream)
  | 0, _, _ => Res.oof
  | fuel + 1, st, events =>
    match decodeNext st.next_event_type with
    | none => Res.ub
    | some none => Res.ok (events, st.s)
    | some (some (t, b)) =>
      match eventBody p u t b st with
      | Res.ok (event, st1) => eventLoop p u fuel st1 (events ++ [event])
      | Res.exn => Res.exn
      | Res.ub => Res.ub
      | Res.oof => Res.oof

/-- The function `Ptrac::ReadHistory` (lines 425 to 614). -/
def ReadHistory (fuel : Nat) (p : Ptrac) (u : Locals) (s : Stream) :
    Res (PtracHistory × Stream) :=
  match readSize p u.size1 s with
  | (size1, s0) =>
    match npsFields p.m_format (p.m_nument "nps").toNat (p.datent "nps") u.nps
        u.next_event_type s0 with
    | NpsLine.undef => Res.ub
    | NpsLine.bad s1 => Res.ok ({ m_nps := u.hist_nps, m_events := [] }, s1)
    | NpsLine.done nps next_event_type s1 =>
      match readSize p u.size2 s1 with
      | (size2, s2) =>
        if p.m_format = PtracFormat.BIN_PTRAC ∧ size1 ≠ size2 then Res.exn
        else
          match eventLoop p u fuel
              { size1 := size1, size2 := size2, next_event_type := next_event_type, s := s2 }
              [] with
          | Res.ok (events, s3) =>
            Res.ok ({ m_nps := nps, m_events := events },
                    if p.m_format = PtracFormat.ASC_PTRAC then getline s3 else s3)
          | Res.exn => Res.exn
          | Res.ub => Res.ub
          | Res.oof => Res.oof

/-- The loop of `Ptrac::ReadHistoriesLegacy` (lines 619 to 628): the first
argument is the number `num - i` of iterations left, `retval` the vector built
so far. -/
def legacyLoop (fuel : Nat) (p : Ptrac) (u : Locals) :
    Nat → List PtracHistory → Stream → Res (List PtracHistory × Stream)
  | 0, retval, s => Res.ok (retval, s)
  | n + 1, retval, s =>
    let s1 := peek s
    if !s1.eof then
      match ReadHistory fuel p u s1 with
      | Res.ok (hist, s2) => legacyLoop fuel p u n (retval ++ [hist]) s2
      | Res.exn => Res.exn
      | Res.ub => Res.ub
      | Res.oof => Res.oof
    else Res.ok (retval, s1)

/-- The function `Ptrac::ReadHistoriesLegacy` (lines 616 to 631). -/
def ReadHistoriesLegacy (fuel : Nat) (p : Ptrac) (u : Locals) (num : Nat) (s : Stream) :
    Res (List PtracHistory × Stream) :=
  legacyLoop fuel p u num [] s

/-- The function `Ptrac::ReadHistories` (lines 634 to 637); `hdf5` stands for
`m_hdf5_parser->ReadHistories`, an external collaborator. -/
def ReadHistories (hdf5 : Nat → Stream → Res (List PtracHistory × Stream))
    (fuel : Nat) (p : Ptrac) (u : Locals) (num : Nat) (s : Stream) :
    Res (List PtracHistory × Stream) :=
  if p.m_format = PtracFormat.HDF5_PTRAC then hdf5 num s
  else ReadHistoriesLegacy fuel p u num s

/-! ## The header parser (`Ptrac::ReadHeader`)

The parser is embedded on the same byte source as the history decoder. The
text lines in front of the keyword entries of an ASCII header are taken as the
parser sees them (`Prologue`); a byte of a binary character array is one scalar
of the source. -/

/-- Outcome of a run of the header parser: a normal return, a thrown exception,
the abort of a failed `assert`, an operation the C++ standard leaves undefined,
or a run that does not finish (within the fuel, where a loop takes fuel). -/
inductive HRes (α : Type)
  | ok (a : α)
  | exn
  | abort
  | ub
  | oof
  deriving DecidableEq, Repr

/-- Sequencing of two steps of the header parser. -/
def HRes.bind {α β : Type} (x : HRes α) (f : α → HRes β) : HRes β :=
  match x with
  | HRes.ok a => f a
  | HRes.exn => HRes.exn
  | HRes.abort => HRes.abort
  | HRes.ub => HRes.ub
  | HRes.oof => HRes.oof

/-- The members of `Ptrac` that `ReadHeader` sets besides the two maps. -/
structure HeaderInfo where
  m_version : Int
  m_code : String
  m_codever : String
  m_loddat : String
  m_idtm : String
  m_comment : String
  deriving DecidableEq, Repr

/-- Initial contents of what `ReadHeader` reads into without an initialiser:
the member `m_version`, `size1`, `size2`, the `double tmp` of the ASCII keyword
lines and the slots of the binary `buffer`, the variables of the numbers line
(`num 0` for `nnps`, `num 1` to `num 10` for `nsrc1` to `nter2`, then `ipt`,
`single_double` and `unused`), the `tmp` of the data-type loops, and the slots
of the binary character arrays. -/
structure HeaderLocals where
  m_version : Int
  size1 : Int
  size2 : Int
  tmp : Dbl
  num : Nat → Int
  dtype : Int
  byte : Int

/-- Modelled from the spec: an integer extraction (`m_handle >> v`, or
`m_handle.read` of the bytes of `v`) into a variable of `w` bits that holds
`cur`: the content of the variable after it, and the stream. -/
def readInt (fmt : PtracFormat) (w : Nat) (cur : Int) (s : Stream) : Int × Stream :=
  match extract fmt (pickInt w) 0 s with
  | (r, s1) => (r.getD cur, s1)

/-- Modelled from the spec: `n` successive extractions into one `double`
variable that holds `cur`, each followed by a `push_back` of the variable: the
values pushed, the final content of the variable, and the stream. -/
def readDoubles (fmt : PtracFormat) : Nat → Dbl → Stream → List Dbl × Dbl × Stream
  | 0, cur, s => ([], cur, s)
  | n + 1, cur, s =>
    match extract fmt Tok.asReal 0 s with
    | (r, s1) =>
      match readDoubles fmt n (r.getD cur) s1 with
      | (vs, c, s2) => (r.getD cur :: vs, c, s2)

/-- A loop that extracts `n` doubles into a variable that is not used again. -/
def skipDoubles (fmt : PtracFormat) (n : Nat) (s : Stream) : Stream :=
  (readDoubles fmt n 0 s).2.2

/-- Modelled from the spec: extraction into `n` slots that each hold `junk`
(`m_handle.read` into an array, or a loop with a fresh variable). -/
def readBlock (fmt : PtracFormat) (junk : Dbl) : Nat → Stream → List Dbl × Stream
  | 0, s => ([], s)
  | n + 1, s =>
    match extract fmt Tok.asReal 0 s with
    | (r, s1) =>
      match readBlock fmt junk n s1 with
      | (vs, s2) => (r.getD junk :: vs, s2)

/-- Modelled from the spec: extraction into the integer variables listed, each
given by its width and initial content. -/
def readInts (fmt : PtracFormat) : List (Nat × Int) → Stream → List Int × Stream
  | [], s => ([], s)
  | (w, cur) :: vars, s =>
    match readInt fmt w cur s with
    | (v, s1) =>
      match readInts fmt vars s1 with
      | (vs, s2) => (v :: vs, s2)

/-- Modelled from the spec: `n` extractions into a fresh integer variable of `w`
bits that holds `junk`. -/
def readN (fmt : PtracFormat) (w : Nat) (junk : Int) : Nat → Stream → List Int × Stream
  | 0, s => ([], s)
  | n + 1, s =>
    match readInt fmt w junk s with
    | (v, s1) =>
      match readN fmt w junk n s1 with
      | (vs, s2) => (v :: vs, s2)

/-- The conversion `(unsigned int) x` of a double: truncation toward zero,
defined only when the truncated value is representable. -/
def castUInt (x : Dbl) : Option Nat :=
  let t := x.num.tdiv (x.den : Int)
  if 0 ≤ t ∧ t < (2 : Int) ^ 32 then some t.toNat else none

/-- The variables of the numbers line in reading order, with their widths:
`int nnps`, ten `int64_t`, then `ipt`, `single_double` and `unused[7]`. -/
def numberVars (hl : HeaderLocals) : List (Nat × Int) :=
  (32, hl.num 0) :: ((List.range 10).map (fun i => (64, hl.num (i + 1))) ++
    (List.range 9).map (fun i => (32, hl.num (i + 11))))

/-- The eleven `m_nument.insert` calls: the map that binds the tags of `m_lines`
to the first eleven numbers, in order; `operator[]` on any other key gives 0. -/
def mkNument (vals : List Int) : String → Int :=
  fun k => ((Ptrac.m_lines.zip vals).lookup k).getD 0

/-- The loops that read the data types (lines 213 to 226 and 377 to 390): for
each tag, `m_nument[tag]` identifiers, 64 bits wide for `nps` and 32 bits wide
otherwise, pushed onto `m_datent[tag]`. The counter `j` is an `unsigned int`,
so a count of `2^32` or more is never reached. -/
def readDataTypes (fmt : PtracFormat) (junk : Int) (nument : String → Int) :
    List String → (String → List Int) → Stream → HRes ((String → List Int) × Stream)
  | [], datent, s => HRes.ok (datent, s)
  | tag :: tags, datent, s =>
    if (2 : Int) ^ 32 ≤ nument tag then HRes.oof
    else
      match readN fmt (if tag = "nps" then 64 else 32) junk (nument tag).toNat s with
      | (vals, s1) =>
        readDataTypes fmt junk nument tags
          (fun k => if k = tag then datent k ++ vals else datent k) s1

/-- The call `v.insert(v.begin() + i, x)` on a vector. -/
def vecInsert (i : Nat) (x : Int) (L : List Int) : List Int :=
  L.take i ++ x :: L.drop i

/-- The loop that looks for the first position of `x` in a vector. -/
def firstIndex (x : Int) : List Int → Option Nat
  | [] => none
  | a :: L => if a = x then some 0 else (firstIndex x L).map (fun i => i + 1)

/-- The tally injection (lines 394 to 421) on the two maps. -/
def tallyInjection (p : Ptrac) : Ptrac :=
  if (5 : Int) ∈ p.m_datent "nps" then p
  else
    match firstIndex 2 (p.m_datent "nps") with
    | none => p
    | some pos =>
      { p with
        m_datent := fun k =>
          if k = "nps" then vecInsert (pos + 2) 6 (vecInsert (pos + 1) 5 (p.m_datent "nps"))
          else p.m_datent k,
        m_nument := fun k => if k = "nps" then p.m_nument "nps" + 2 else p.m_nument k }

/-- The first four lines of an ASCII header as the parser sees them: the content
of `m_version` after `m_handle >> m_version`, the words of the second line
(`none` when the line is the single blank that stands for a missing code
banner), the comment line, and the doubles that the string stream extracts
from the fourth line. -/
structure Prologue where
  m_version : Int
  line2 : Option (List String)
  m_comment : String
  line4 : List Dbl
  deriving DecidableEq, Repr

/-- The vector `line4_values`: the loop pushes at most ten values. -/
def line4Values (pro : Prologue) : List Dbl := pro.line4.take 10

/-- The parse `ss >> m_code >> m_codever >> m_loddat >> idtm1 >> idtm2` of the
second line; a missing word leaves the empty string. -/
def bannerInfo (pro : Prologue) : HeaderInfo :=
  match pro.line2 with
  | none =>
    { m_version := pro.m_version, m_code := "", m_codever := "", m_loddat := "",
      m_idtm := "", m_comment := pro.m_comment }
  | some ws =>
    { m_version := pro.m_version, m_code := ws.getD 0 "", m_codever := ws.getD 1 "",
      m_loddat := ws.getD 2 "", m_idtm := ws.getD 3 "" ++ " " ++ ws.getD 4 "",
      m_comment := pro.m_comment }

/-- The keyword lines of an ASCII header (lines 269 to 288): `nkw`, the vector
`kwent`, and the stream after them. -/
def asciiKeywords (hl : HeaderLocals) (s : Stream) : HRes (Nat × List Dbl × Stream) :=
  match extract PtracFormat.ASC_PTRAC Tok.asReal 0 s with
  | (r, s1) =>
    match castUInt (r.getD hl.tmp) with
    | none => HRes.ub
    | some nkw =>
      match readDoubles PtracFormat.ASC_PTRAC 9 (r.getD hl.tmp) s1 with
      | (kw1, tmp1, s2) =>
        if 3 ≤ nkw then
          match readDoubles PtracFormat.ASC_PTRAC 10 tmp1 s2 with
          | (kw2, _, s3) => HRes.ok (nkw, kw1 ++ kw2, s3)
        else HRes.ok (nkw, kw1, s2)

/-- The flag `has_event_filter` (line 301). -/
def has_event_filter (line4_values : List Dbl) : Bool :=
  decide (4 < line4_values.length) && decide (0 < line4_values.getD 4 0)

/-- The flag `has_filter_keyword` (line 302). -/
def has_filter_keyword (line4_values : List Dbl) : Bool :=
  decide (7 < line4_values.length) && decide (0 < line4_values.getD 7 0)

/-- The flag `has_type_filter` (lines 308 to 316). -/
def has_type_filter (kwent : List Dbl) : Bool :=
  decide (5 ≤ kwent.length) && (decide (0 < kwent.getD 3 0) && decide (0 < kwent.getD 4 0))

/-- The flag `has_tally_filter` (lines 309 to 323), which is also `has_tally`. -/
def has_tally_filter (kwent : List Dbl) : Bool :=
  (decide (5 ≤ kwent.length) && (decide (0 < kwent.getD 2 0) && decide (kwent.getD 3 0 < 0)))
    || (decide (10 ≤ kwent.length) && decide (kwent.getD 9 0 < 0))

/-- The flag `has_filter` (line 325). -/
def has_filter (line4_values kwent : List Dbl) : Bool :=
  has_event_filter line4_values || has_filter_keyword line4_values ||
    has_type_filter kwent || has_tally_filter kwent

/-- The two conditional skips of ten floats (lines 330 to 353). -/
def asciiSkip (m_code : String) (nkw : Nat) (line4_values kwent : List Dbl) (s : Stream) :
    Stream :=
  let s1 :=
    if m_code = "mcnp6" ∧ has_tally_filter kwent = true ∧ nkw < 3 then
      skipDoubles PtracFormat.ASC_PTRAC 10 s
    else s
  if has_filter line4_values kwent && has_tally_filter kwent then s1
  else if has_filter line4_values kwent then skipDoubles PtracFormat.ASC_PTRAC 10 s1
  else s1

/-- The numbers line and the data types of an ASCII header (lines 355 to 390):
the two maps as read from the file. -/
def asciiTables (hl : HeaderLocals) (s : Stream) : HRes (Ptrac × Stream) :=
  match readInts PtracFormat.ASC_PTRAC (numberVars hl) s with
  | (nums, s1) =>
    match readDataTypes PtracFormat.ASC_PTRAC hl.dtype (mkNument nums) Ptrac.m_lines
        (fun _ => []) s1 with
    | HRes.ok (datent, s2) =>
      HRes.ok ({ m_format := PtracFormat.ASC_PTRAC, m_nument := mkNument nums,
                 m_datent := datent }, s2)
    | HRes.exn => HRes.exn
    | HRes.abort => HRes.abort
    | HRes.ub => HRes.ub
    | HRes.oof => HRes.oof

/-- The ASCII branch of `ReadHeader` up to the tally injection: the flag
`has_tally`, the members read, the two maps as read from the file, and the
stream. -/
def asciiRaw (hl : HeaderLocals) (pro : Prologue) (s : Stream) :
    HRes (Bool × HeaderInfo × Ptrac × Stream) :=
  match asciiKeywords hl s with
  | HRes.ok (nkw, kwent, s1) =>
    match asciiTables hl
        (asciiSkip (bannerInfo pro).m_code nkw (line4Values pro) kwent s1) with
    | HRes.ok (p, s2) => HRes.ok (has_tally_filter kwent, bannerInfo pro, p, s2)
    | HRes.exn => HRes.exn
    | HRes.abort => HRes.abort
    | HRes.ub => HRes.ub
    | HRes.oof => HRes.oof
  | HRes.exn => HRes.exn
  | HRes.abort => HRes.abort
  | HRes.ub => HRes.ub
  | HRes.oof => HRes.oof

/-- The ASCII branch of `Ptrac::ReadHeader` (lines 237 to 422). -/
def ReadHeaderAscii (hl : HeaderLocals) (pro : Prologue) (s : Stream) :
    HRes (HeaderInfo × Ptrac × Stream) :=
  match asciiRaw hl pro s with
  | HRes.ok (has_tally, info, p, s1) =>
    HRes.ok (info, if has_tally then tallyInjection p else p, s1)
  | HRes.exn => HRes.exn
  | HRes.abort => HRes.abort
  | HRes.ub => HRes.ub
  | HRes.oof => HRes.oof

/-- The variables `size1`, `size2` and the stream between two records of a
binary header. -/
structure BinState where
  size1 : Int
  size2 : Int
  s : Stream
  deriving DecidableEq, Repr

/-- The string made of the bytes of a character array. -/
def bytesToString (bs : List Int) : String :=
  String.mk (bs.map (fun b => Char.ofNat (b % 256).toNat))

/-- The version record of a binary header (lines 46 to 69): the content of
`m_version` and the state after the record; `fsize` is the file size. -/
def binVersionRecord (hl : HeaderLocals) (fsize : Int) (s : Stream) : HRes (Int × BinState) :=
  match readInt PtracFormat.BIN_PTRAC 32 hl.size1 s with
  | (size1, s1) =>
    if fsize ≤ size1 ∨ size1 ≠ 4 then HRes.exn
    else
      match readInt PtracFormat.BIN_PTRAC 32 hl.m_version s1 with
      | (m_version, s2) =>
        match readInt PtracFormat.BIN_PTRAC 32 hl.size2 s2 with
        | (size2, s3) =>
          if size1 ≠ size2 ∨ m_version ≠ -1 then HRes.exn
          else HRes.ok (m_version, { size1 := size1, size2 := size2, s := s3 })

/-- The code record of a binary header (lines 71 to 91): `m_code`, `m_codever`,
`m_loddat`, the trimmed `m_idtm`, and the state after the record. -/
def binCodeRecord (hl : HeaderLocals) (st : BinState) :
    HRes ((String × String × String × String) × BinState) :=
  match readInt PtracFormat.BIN_PTRAC 32 st.size1 st.s with
  | (size1, s1) =>
    match readN PtracFormat.BIN_PTRAC 8 hl.byte 8 s1 with
    | (code, s2) =>
      match readN PtracFormat.BIN_PTRAC 8 hl.byte 5 s2 with
      | (ver, s3) =>
        match readN PtracFormat.BIN_PTRAC 8 hl.byte 8 s3 with
        | (loddat, s4) =>
          match readN PtracFormat.BIN_PTRAC 8 hl.byte 19 s4 with
          | (idtm, s5) =>
            match readInt PtracFormat.BIN_PTRAC 32 st.size2 s5 with
            | (size2, s6) =>
              if size1 ≠ size2 then HRes.exn
              else
                HRes.ok ((bytesToString code, bytesToString ver, bytesToString loddat,
                          (bytesToString idtm).trim),
                         { size1 := size1, size2 := size2, s := s6 })

/-- The comment record of a binary header (lines 93 to 106). `assertOn` says
whether `assert` is compiled in; `resize` with a negative count throws, and
fills the string with zero bytes otherwise. -/
def binCommentRecord (assertOn : Bool) (st : BinState) : HRes (String × BinState) :=
  match readInt PtracFormat.BIN_PTRAC 32 st.size1 st.s with
  | (size1, s1) =>
    if assertOn = true ∧ ¬ (size1 = 80 ∨ size1 = 128) then HRes.abort
    else if size1 < 0 then HRes.exn
    else
      match readN PtracFormat.BIN_PTRAC 8 0 size1.toNat s1 with
      | (comment, s2) =>
        match readInt PtracFormat.BIN_PTRAC 32 st.size2 s2 with
        | (size2, s3) =>
          if size1 ≠ size2 then HRes.exn
          else HRes.ok (bytesToString comment, { size1 := size1, size2 := size2, s := s3 })

/-- The loop that counts the keyword groups of `kwent` (lines 127 to 133); the
index `i` is an `unsigned int` and wraps. At most `fuel` tests of the
condition. -/
def carveLoop (kwent : List Dbl) : Nat → Nat → Nat → HRes Nat
  | 0, _, _ => HRes.oof
  | fuel + 1, i, nkwcnt =>
    if i < kwent.length then
      match castUInt (kwent.getD i 0) with
      | none => HRes.ub
      | some num_ent => carveLoop kwent fuel ((i + (num_ent + 1) % 2 ^ 32) % 2 ^ 32) (nkwcnt + 1)
    else HRes.ok nkwcnt

/-- The loop `while (! done)` over the keyword records of a binary header
(lines 109 to 145): `first` says whether `kwlinecnt` is about to become 1. The
group count uses the fuel `cfuel`; at most `fuel` records are read. -/
def binKeywordRecords (hl : HeaderLocals) (cfuel : Nat) :
    Nat → Bool → Nat → List Dbl → BinState → HRes (Nat × List Dbl × BinState)
  | 0, _, _, _, _ => HRes.oof
  | fuel + 1, first, nkw, kwent, st =>
    match readInt PtracFormat.BIN_PTRAC 32 st.size1 st.s with
    | (size1, s1) =>
      match readBlock PtracFormat.BIN_PTRAC hl.tmp 10 s1 with
      | (buffer, s2) =>
        match (if first then castUInt (buffer.getD 0 0) else some nkw) with
        | none => HRes.ub
        | some nkw1 =>
          match carveLoop (kwent ++ (if first then buffer.drop 1 else buffer)) cfuel 0 0 with
          | HRes.ok nkwcnt =>
            match readInt PtracFormat.BIN_PTRAC 32 st.size2 s2 with
            | (size2, s3) =>
              if size1 ≠ size2 then HRes.exn
              else if nkw1 ≤ nkwcnt then
                HRes.ok (nkw1, kwent ++ (if first then buffer.drop 1 else buffer),
                         { size1 := size1, size2 := size2, s := s3 })
              else
                binKeywordRecords hl cfuel fuel false nkw1
                  (kwent ++ (if first then buffer.drop 1 else buffer))
                  { size1 := size1, size2 := size2, s := s3 }
          | HRes.exn => HRes.exn
          | HRes.abort => HRes.abort
          | HRes.ub => HRes.ub
          | HRes.oof => HRes.oof

/-- The numbers record of a binary header (lines 147 to 185): the map
`m_nument` and the state after the record. -/
def binNumbersRecord (hl : HeaderLocals) (st : BinState) : HRes ((String → Int) × BinState) :=
  match readInt PtracFormat.BIN_PTRAC 32 st.size1 st.s with
  | (size1, s1) =>
    match readInts PtracFormat.BIN_PTRAC (numberVars hl) s1 with
    | (nums, s2) =>
      match readInt PtracFormat.BIN_PTRAC 32 st.size2 s2 with
      | (size2, s3) =>
        if size1 ≠ size2 then HRes.exn
        else HRes.ok (mkNument nums, { size1 := size1, size2 := size2, s := s3 })

/-- The flag `is_filtered_bin` (line 196): the detection is disabled. -/
def is_filtered_bin : Bool := false

/-- The skip of the filter-parameters record (lines 198 to 208), taken when
`is_filtered_bin` holds; its two byte counts are read into variables of their
own and are not compared. -/
def binFilterRecord (st : BinState) : BinState :=
  if is_filtered_bin = true then
    { st with
      s := (readInt PtracFormat.BIN_PTRAC 32 0
        (skipDoubles PtracFormat.BIN_PTRAC 10
          (readInt PtracFormat.BIN_PTRAC 32 0 st.s).2)).2 }
  else st

/-- The data-types record of a binary header (lines 210 to 234). -/
def binTypesRecord (hl : HeaderLocals) (nument : String → Int) (st : BinState) :
    HRes ((String → List Int) × BinState) :=
  match readInt PtracFormat.BIN_PTRAC 32 st.size1 st.s with
  | (size1, s1) =>
    match readDataTypes PtracFormat.BIN_PTRAC hl.dtype nument Ptrac.m_lines (fun _ => []) s1 with
    | HRes.ok (datent, s2) =>
      match readInt PtracFormat.BIN_PTRAC 32 st.size2 s2 with
      | (size2, s3) =>
        if size1 ≠ size2 then HRes.exn
        else HRes.ok (datent, { size1 := size1, size2 := size2, s := s3 })
    | HRes.exn => HRes.exn
    | HRes.abort => HRes.abort
    | HRes.ub => HRes.ub
    | HRes.oof => HRes.oof

/-- The binary branch of `Ptrac::ReadHeader` (lines 45 to 236). -/
def ReadHeaderBinary (fuel : Nat) (assertOn : Bool) (hl : HeaderLocals) (fsize : Int)
    (s : Stream) : HRes (HeaderInfo × Ptrac × Stream) :=
  (binVersionRecord hl fsize s).bind fun (m_version, st1) =>
  (binCodeRecord hl st1).bind fun (code, st2) =>
  (binCommentRecord assertOn st2).bind fun (m_comment, st3) =>
  (binKeywordRecords hl fuel fuel true 0 [] st3).bind fun (_, _, st4) =>
  (binNumbersRecord hl st4).bind fun (nument, st5) =>
  (binTypesRecord hl nument (binFilterRecord st5)).bind fun (datent, st6) =>
  HRes.ok ({ m_version := m_version, m_code := code.1, m_codever := code.2.1,
             m_loddat := code.2.2.1, m_idtm := code.2.2.2, m_comment := m_comment },
           { m_format := PtracFormat.BIN_PTRAC, m_nument := nument, m_datent := datent },
           st6.s)

/-- The function `Ptrac::ReadHeader` (lines 44 to 423), called by the
constructor for the ASCII and binary formats. -/
def ReadHeader (fuel : Nat) (assertOn : Bool) (hl : HeaderLocals) (fmt : PtracFormat)
    (fsize : Int) (pro : Prologue) (s : Stream) : HRes (HeaderInfo × Ptrac × Stream) :=
  if fmt = PtracFormat.BIN_PTRAC then ReadHeaderBinary fuel assertOn hl fsize s
  else ReadHeaderAscii hl pro s

/-! ## Auxiliary notions used to state the properties -/

/-- The five primary event types that have a layout in the header. -/
def primaryTypes : List Int := [Ptrac.SRC, Ptrac.BNK, Ptrac.SUR, Ptrac.COL, Ptrac.TER]

/-- The event types that occur in a history `ReadHistory` returns. -/
def returnedTypes : List Int := primaryTypes ++ [Ptrac.LST]

/-- The first `n` scalars of the pending input, in order, and the input that
follows the last of them; `none` when the input holds fewer than `n`. -/
def takeToks : Nat → List Item → Option (List Tok × List Item)
  | 0, items => some ([], items)
  | n + 1, items =>
    match nextTok items with
    | none => none
    | some (t, r) =>
      match takeToks n r with
      | none => none
      | some (ts, rest) => some (t :: ts, rest)

/-- A scalar is well formed for an NPS field: a double for `VALUE`, an integer
that fits 64 bits for every other identifier. -/
def npsWellFormed (f : Int) (t : Tok) : Prop :=
  if f = Ptrac.VALUE then t.asReal ≠ none else pickInt 64 t ≠ none

/-- The NPS record and staged event code after the field `f` has been read from
the well-formed scalar `t`. -/
def npsAssign (f : Int) (t : Tok) (nps : PtracNps) (next_event_type : Dbl) : PtracNps × Dbl :=
  if f = Ptrac.VALUE then ({ nps with m_value := t.asReal.getD 0 }, next_event_type)
  else npsStore f ((pickInt 64 t).getD 0) nps next_event_type

/-- The NPS record and staged event code after a whole line of fields. -/
def npsAssignAll : List Int → List Tok → PtracNps → Dbl → PtracNps × Dbl
  | f :: L, t :: ts, nps, nx => npsAssignAll L ts (npsAssign f t nps nx).1 (npsAssign f t nps nx).2
  | _, _, nps, nx => (nps, nx)

/-- The content of the variable that the NPS identifier `f` names, as a
rational: a member of the record, or the staged event code for identifier 2. -/
def npsView (f : Int) (x : PtracNps × Dbl) : Dbl :=
  if f = Ptrac.NPS then (x.1.m_nps : ℚ)
  else if f = Ptrac.FIRST_EVENT_TYPE then x.2
  else if f = Ptrac.NPSCELL then (x.1.m_cell : ℚ)
  else if f = Ptrac.NPSSURFACE then (x.1.m_surface : ℚ)
  else if f = Ptrac.TALLY then (x.1.m_tally : ℚ)
  else if f = Ptrac.VALUE then x.1.m_value
  else 0

/-- The value of a scalar read for the NPS identifier `f`, as a rational. -/
def tokView (f : Int) (t : Tok) : Dbl :=
  if f = Ptrac.VALUE then t.asReal.getD 0 else (((pickInt 64 t).getD 0 : Int) : ℚ)

/-- The identifiers that the NPS line assigns to a variable. -/
def npsIds : List Int :=
  [Ptrac.NPS, Ptrac.FIRST_EVENT_TYPE, Ptrac.NPSCELL, Ptrac.NPSSURFACE, Ptrac.TALLY, Ptrac.VALUE]

/-- The event and next-event code after a whole record of fields has been read
from well-formed scalars. -/
def eventAssignAll : List Int → List Tok → PtracEvent → Dbl → PtracEvent × Dbl
  | id :: L, t :: ts, ev, nx =>
    eventAssignAll L ts (eventStore id (t.asReal.getD 0) ev nx).1
      (eventStore id (t.asReal.getD 0) ev nx).2
  | _, _, ev, nx => (ev, nx)

/-- The content of what the event identifier `id` names: the next-event code for
`NEXT_EVENT_TYPE`, the binding of `id` in `m_data` otherwise. -/
def eventView (id : Int) (x : PtracEvent × Dbl) : Option Dbl :=
  if id = Ptrac.NEXT_EVENT_TYPE then some x.2 else mapGet id x.1.m_data

/-- The histories `hs` are, in order, the results of successive calls of
`ReadHistory` that start at stream `s`, each call made after a `peek` that did
not find the end of the file, and the last of them leaves the stream `s3`. -/
inductive Successive (fuel : Nat) (p : Ptrac) (u : Locals) :
    Stream → List PtracHistory → Stream → Prop
  | nil (s : Stream) : Successive fuel p u s [] s
  | cons (s s2 s3 : Stream) (h : PtracHistory) (hs : List PtracHistory) :
      (peek s).eof = false → ReadHistory fuel p u (peek s) = Res.ok (h, s2) →
      Successive fuel p u s2 hs s3 → Successive fuel p u s (h :: hs) s3

/-- End-of-file as `peek` sees it: end-of-file has already been met (`eofbit`),
or the stream is in no error state and holds no further byte. -/
def Stream.atEof (s : Stream) : Bool := s.eofbit || (!s.failbit && s.items.isEmpty)

/-! ## Concrete inputs

Headers, locals and streams at which the theorems below are instantiated. -/

/-- A header with the given format, NPS layout and `src1` layout; the counts are
the lengths of the layouts and every other tag is empty. -/
def exHeader (fmt : PtracFormat) (nps src1 : List Int) : Ptrac :=
  { m_format := fmt,
    m_nument := fun k =>
      if k = "nps" then (nps.length : Int) else if k = "src1" then (src1.length : Int) else 0,
    m_datent := fun k => if k = "nps" then nps else if k = "src1" then src1 else [] }

/-- Locals that all start at zero. -/
def exLocals : Locals :=
  { size1 := 0, size2 := 0, next_event_type := 0, tmp := 0,
    nps := ⟨0, 0, 0, 0, 0⟩, hist_nps := ⟨0, 0, 0, 0, 0⟩ }

/-- A good stream over the given items. -/
def exStream (items : List Item) : Stream :=
  { items := items, eofbit := false, failbit := false }

/-- The NPS layout `[NPS, FIRST_EVENT_TYPE, TALLY, VALUE, 99, NPSCELL]`. -/
def exNpsLayout : List Int := [1, 2, 5, 6, 99, 3]

/-- The scalars of an NPS line for `exNpsLayout`. -/
def exNpsToks : List Tok :=
  [Tok.int 7, Tok.int 1000, Tok.int 8, Tok.real 2.5, Tok.int 42, Tok.int 12]

/-- An ASCII header whose NPS layout is `exNpsLayout`. -/
def exNpsHeader : Ptrac := exHeader PtracFormat.ASC_PTRAC exNpsLayout [10, 22, 7]

/-- The header of scenario 1 with the event line laid out as
`[NODE, X, NEXT_EVENT_TYPE]`. -/
def exSrcHeader : Ptrac := exHeader PtracFormat.ASC_PTRAC [1, 2] [10, 22, 7]

/-- The scalars of the event line `1.23 4.56 9000`. -/
def exSrcToks : List Tok := [Tok.real 1.23, Tok.real 4.56, Tok.int 9000]

/-- The state of the event loop in front of the event line `1.23 4.56 9000`. -/
def exSrcState : LoopState :=
  { size1 := 0, size2 := 0, next_event_type := 1000,
    s := exStream (exSrcToks.map Item.tok ++ [Item.nl]) }

/-- The header of scenario 1 as the specification words it: the event line is
laid out as `[NODE, X, Y]`. -/
def exSrcHeaderY : Ptrac := exHeader PtracFormat.ASC_PTRAC [1, 2] [10, 22, 23]

/-- The body of scenario 1: the NPS line `1 1000` and the event line
`1.23 4.56 9000`. -/
def exBody : Stream :=
  exStream [Item.tok (Tok.int 1), Item.tok (Tok.int 1000), Item.nl,
    Item.tok (Tok.real 1.23), Item.tok (Tok.real 4.56), Item.tok (Tok.int 9000), Item.nl]

/-- The body of scenario 1 cut off in front of the next-event code. -/
def exTruncated : Stream :=
  exStream [Item.tok (Tok.int 1), Item.tok (Tok.int 1000), Item.nl,
    Item.tok (Tok.real 1.23), Item.tok (Tok.real 4.56)]

/-- An NPS line cut off by a malformed token: `1 abc`. -/
def exMalformed : Stream :=
  exStream [Item.tok (Tok.int 1), Item.tok Tok.bad, Item.nl]

/-- Header locals that all start at zero. -/
def exHL : HeaderLocals :=
  { m_version := 0, size1 := 0, size2 := 0, tmp := 0, num := fun _ => 0, dtype := 0, byte := 0 }

/-- A line of integer scalars, ended by a line end. -/
def intLine (vs : List Int) : List Item :=
  vs.map (fun v => Item.tok (Tok.int v)) ++ [Item.nl]

/-- The prologue of an unfiltered ASCII header with version `v`. -/
def exPrologue (v : Int) : Prologue :=
  { m_version := v, line2 := some ["mcnp", "6", "05/08/13", "11/01/26", "04:00:00"],
    m_comment := "scenario 1", line4 := [] }

/-- An ASCII header after its fourth line with the given keyword values, where
`nsrc1` is the count of `src1` on the numbers line and `types` the tokens of
the data-type lines: `nkw = 2`, `counts[nps] = 2`, every other count zero. -/
def exAsciiHeader (kw : List Int) (nsrc1 : Int) (types : List Int) : Stream :=
  exStream (intLine (2 :: kw) ++
    intLine [2, nsrc1, 0, 0, 0, 0, 0, 0, 0, 0, 0, 1, 4, 0, 0, 0, 0, 0, 0, 0] ++
    intLine types)

/-- Keyword values without any filter. -/
def exKwPlain : List Int := [1, 100, 0, 0, 0, 0, 0, 0, 0]

/-- A binary stream made of integer words. -/
def wordStream (vs : List Int) : Stream :=
  exStream (vs.map (fun v => Item.tok (Tok.int v)))

/-- The counts and layouts of the eleven line tags, in the order of `m_lines`. -/
def Ptrac.table (p : Ptrac) : List (Int × List Int) :=
  Ptrac.m_lines.map (fun t => (p.m_nument t, p.m_datent t))

/-- What a run of the header parser shows of its result: `m_version` and the
table of counts and layouts, `none` when the run does not return. -/
def headerView (r : HRes (HeaderInfo × Ptrac × Stream)) : Option (Int × List (Int × List Int)) :=
  match r with
  | HRes.ok (info, p, _) => some (info.m_version, p.table)
  | _ => none

/-- Keyword values of a tally filter: `kw[2] > 0` and `kw[3] < 0`. -/
def exKwTally : List Int := [1, 100, 1, -2, 0, 0, 0, 0, 0]

/-- The maps that a run of the ASCII branch has read before the injection;
`exSrcHeader` when the run does not return. -/
def rawOf (r : HRes (Bool × HeaderInfo × Ptrac × Stream)) : Ptrac :=
  match r with
  | HRes.ok (_, _, p, _) => p
  | _ => exSrcHeader

/-- The header that a run of the parser returns; `exSrcHeader` when the run
does not return. -/
def headerOf (r : HRes (HeaderInfo × Ptrac × Stream)) : Ptrac :=
  match r with
  | HRes.ok (_, p, _) => p
  | _ => exSrcHeader

/-- What a run of the keyword lines shows: `nkw` and the vector `kwent`. -/
def keywordView (r : HRes (Nat × List Dbl × Stream)) : Option (Nat × List Dbl) :=
  match r with
  | HRes.ok (nkw, kwent, _) => some (nkw, kwent)
  | _ => none

/-- Keyword values with `kw[3] ≠ 0` and `kw[2] = 0`. -/
def exKwThird : List Int := [1, 100, 0, -2, 0, 0, 0, 0, 0]

/-- Keyword values with `kw[1] > 100` and `kw[3] = 0`. -/
def exKwEvent : List Int := [1, 101, 0, 0, 0, 0, 0, 0, 0]

/-- The prologue of an ASCII header whose fourth line has `line4[4] = 3`. -/
def exPrologueEvent : Prologue :=
  { m_version := -1, line2 := some ["mcnp", "6", "05/08/13", "11/01/26", "04:00:00"],
    m_comment := "scenario 4", line4 := [0, 0, 0, 0, 3, 1000, 3000, 5000, 0, 0] }

/-- The numbers line and the data-type line of the example headers. -/
def exTables : List Item :=
  intLine [2, 3, 0, 0, 0, 0, 0, 0, 0, 0, 0, 1, 4, 0, 0, 0, 0, 0, 0, 0] ++
    intLine [1, 2, 10, 22, 7]

/-- An ASCII header after its fourth line with the keyword values `exKwEvent`
and a line of ten floats in front of the numbers line. -/
def exEventHeader : Stream :=
  exStream (intLine (2 :: exKwEvent) ++ intLine [1000, 3000, 5000, 0, 0, 0, 0, 0, 0, 0] ++
    exTables)

/-- The prologue of an ASCII header of MCNP 6.3 (code banner `mcnp6`) whose
fourth line holds no value. -/
def exPrologue63 : Prologue :=
  { m_version := -1, line2 := some ["mcnp6", "6.3", "05/08/23", "11/01/26", "04:00:00"],
    m_comment := "scenario 2", line4 := [] }

/-- The prologue of an ASCII header of MCNP 6.3 whose fourth line has
`line4[4] = 3`. -/
def exPrologue63Event : Prologue :=
  { m_version := -1, line2 := some ["mcnp6", "6.3", "05/08/23", "11/01/26", "04:00:00"],
    m_comment := "filter", line4 := [0, 0, 0, 0, 3, 1000, 3000, 5000, 0, 0] }

/-- A line of ten floats of filter parameters. -/
def exFilterLine : List Item := intLine [8, 0, 0, 0, 0, 0, 0, 0, 0, 0]

/-- An ASCII header after its fourth line with the keyword values `exKwTally`
and a line of ten floats in front of the numbers line. -/
def exTally63Header : Stream :=
  exStream (intLine (2 :: exKwTally) ++ exFilterLine ++ exTables)

/-- An ASCII header after its fourth line with `nkw = 3` and two keyword lines:
`kw[3] = 2`, `kw[4] = 9` and `kw[9] = -1`. -/
def exFilterAllHeader : Stream :=
  exStream (intLine [3, 1, 100, 0, 2, 9, 0, 0, 0, 0] ++
    intLine [-1, 0, 0, 0, 0, 0, 0, 0, 0, 0] ++ exTables)

/-- Keyword values with `kw[3] = -2`, `kw[1] ≤ 100`, `kw[4] = 0` and `kw[2] = 0`. -/
def exKwMinusTwo : List Int := [1, 50, 0, -2, 0, 0, 0, 0, 0]

/-- The members that a run of the parser returns besides the two maps; those of
an empty banner when the run does not return. -/
def infoOf (r : HRes (HeaderInfo × Ptrac × Stream)) : HeaderInfo :=
  match r with
  | HRes.ok (info, _, _) => info
  | _ => { m_version := 0, m_code := "", m_codever := "", m_loddat := "", m_idtm := "",
           m_comment := "" }

/-- A binary header made of its six records: version, code, the comment record
given, one keyword record with `nkw = 2`, the numbers record with `nbnk2 = 1`,
`nter1 = 0` and `unused[2] = 7`, and the data types. -/
def exBinRecords (comment : List Int) : Stream :=
  wordStream ([4, -1, 4] ++
    (40 :: (List.replicate 40 65 ++ [40])) ++
    comment ++
    [80, 2, 1, 100, 0, 0, 0, 0, 0, 0, 0, 80] ++
    [120, 2, 3, 0, 0, 1, 0, 0, 0, 0, 0, 0, 1, 4, 0, 0, 7, 0, 0, 0, 0, 120] ++
    [32, 1, 2, 10, 22, 7, 7, 32])

/-- A binary header with a comment of 80 bytes. -/
def exBinHeader : Stream := exBinRecords (80 :: (List.replicate 80 67 ++ [80]))

/-- Modelled from the spec: the number of groups `(size, p_1 .. p_size)`, carved
from the front of `slots` one after the other, whose size slot lies in
`slots`; the first argument bounds the number of groups. -/
def startedFrom : Nat → List Nat → Nat
  | 0, _ => 0
  | _ + 1, [] => 0
  | f + 1, size :: rest => 1 + startedFrom f (rest.drop size)

/-- Modelled from the spec: the number of groups that have begun in `slots`. -/
def groupsStarted (slots : List Nat) : Nat := startedFrom slots.length slots

/-- Modelled from the spec: the number of groups `(size, p_1 .. p_size)`, carved
from the front of `slots` one after the other, that lie in `slots` with all
their entries; the first argument bounds the number of groups. -/
def completeFrom : Nat → List Nat → Nat
  | 0, _ => 0
  | _ + 1, [] => 0
  | f + 1, size :: rest =>
    if size ≤ rest.length then 1 + completeFrom f (rest.drop size) else 0

/-- Modelled from the spec: the number of complete groups that `slots` holds. -/
def groupsComplete (slots : List Nat) : Nat := completeFrom slots.length slots

/-- The doubles that hold the given non-negative integers. -/
def natSlots (slots : List Nat) : List Dbl := slots.map (fun (n : Nat) => ((n : Int) : ℚ))

/-- The words of a binary record of ten slots: the byte count, the slots, the
byte count again. -/
def frame (size : Int) (slots : List Nat) : List Int :=
  size :: (slots.map (fun (n : Nat) => (n : Int)) ++ [size])

/-- The words of `r` binary records that hold the given slots, ten by record. -/
def records (size : Int) : Nat → List Nat → List Int
  | 0, _ => []
  | r + 1, slots => frame size (slots.take 10) ++ records size r (slots.drop 10)

/-- An ASCII header after its fourth line with `nkw = 3` and two keyword lines
whose values are all zero. -/
def exZeroHeader : Stream :=
  exStream (intLine [3, 0, 0, 0, 0, 0, 0, 0, 0, 0] ++
    intLine [0, 0, 0, 0, 0, 0, 0, 0, 0, 0] ++ exTables)

/-! ## Properties of the decoder -/

/-! ### Conversions and the head of the event loop -/

theorem castInt_intCast (c : Int) :
    castInt (c : ℚ) = if inRange 32 c then some c else none := by
  simp [castInt]

theorem inRange32_iff (c : Int) :
    inRange 32 c = true ↔ -2147483648 ≤ c ∧ c < 2147483648 := by
  simp [inRange]

theorem decodeNext_intCast (c : Int) (hc : |c| < 2 ^ 31) (hne : c ≠ 9000) :
    decodeNext (c : ℚ) = some (some (|c| - |c| % 1000, |c| % 1000)) := by
  have h1 : -2147483648 < c ∧ c < 2147483648 := by
    have := abs_lt.mp hc
    constructor <;> omega
  have hr : inRange 32 c = true := (inRange32_iff c).2 ⟨by omega, h1.2⟩
  have habs : ((c.natAbs : Int)) = |c| := Int.natCast_natAbs c
  have hmod : (|c|).tmod 1000 = |c| % 1000 := Int.tmod_eq_emod (abs_nonneg c) (by norm_num)
  have hmin : c ≠ -2147483648 := by omega
  simp [decodeNext, castInt_intCast, hr, Ptrac.LST, hne, absInt, habs, hmod, hmin]

/-! ### The body of the event loop -/

theorem eventStore_type (id : Int) (tmp : Dbl) (ev : PtracEvent) (nx : Dbl) :
    (eventStore id tmp ev nx).1.m_type = ev.m_type ∧
      (eventStore id tmp ev nx).1.m_bnktype = ev.m_bnktype := by
  unfold eventStore
  split_ifs <;> simp

theorem eventFields_type (fmt : PtracFormat) (tmp0 : Dbl) (L : List Int) :
    ∀ (ev : PtracEvent) (nx : Dbl) (s : Stream),
      (eventFields fmt tmp0 L ev nx s).1.m_type = ev.m_type ∧
        (eventFields fmt tmp0 L ev nx s).1.m_bnktype = ev.m_bnktype := by
  induction L with
  | nil => intro ev nx s; simp [eventFields]
  | cons id rest ih =>
    intro ev nx s
    simp only [eventFields]
    have h := eventStore_type id ((ReadValueDouble fmt s).1.getD tmp0) ev nx
    have h2 := ih (eventStore id ((ReadValueDouble fmt s).1.getD tmp0) ev nx).1
      (eventStore id ((ReadValueDouble fmt s).1.getD tmp0) ev nx).2 (ReadValueDouble fmt s).2
    exact ⟨h2.1.trans h.1, h2.2.trans h.2⟩

theorem eventBody_cases (p : Ptrac) (u : Locals) (t b : Int) (st : LoopState) :
    (∃ ev st1, eventBody p u t b st = Res.ok (ev, st1) ∧ ev.m_type = t ∧ ev.m_bnktype = b) ∨
      (p.m_format = PtracFormat.BIN_PTRAC ∧ eventBody p u t b st = Res.exn) := by
  unfold eventBody
  simp only
  split_ifs with hne
  · right; exact ⟨hne.1, rfl⟩
  · left
    refine ⟨_, _, rfl, ?_, ?_⟩
    · exact (eventFields_type _ _ _ _ _ _).1
    · exact (eventFields_type _ _ _ _ _ _).2

/-! ### C1 -/

/-- C1: a pass of the event loop entered with an integer code `c`, `|c| < 2^31`,
`c ≠ LST`, decodes bank type `|c| mod 1000` (between 0 and 999) and type
`|c| - |c| mod 1000` (a multiple of 1000); the pass either pushes an event with
exactly these two fields, whose sum is `|c|`, and goes on, or (binary format
only) throws at the byte-count check of the record. -/
theorem C1_event_type_subtype (p : Ptrac) (u : Locals) (c : Int) (st : LoopState)
    (events : List PtracEvent) (fuel : Nat)
    (hc : |c| < 2 ^ 31) (hloop : c ≠ Ptrac.LST) (hst : st.next_event_type = (c : ℚ)) :
    (0 ≤ |c| % 1000 ∧ |c| % 1000 ≤ 999 ∧ (1000 : Int) ∣ |c| - |c| % 1000) ∧
    decodeNext st.next_event_type = some (some (|c| - |c| % 1000, |c| % 1000)) ∧
    ((∃ ev st1, eventBody p u (|c| - |c| % 1000) (|c| % 1000) st = Res.ok (ev, st1) ∧
        eventLoop p u (fuel + 1) st events = eventLoop p u fuel st1 (events ++ [ev]) ∧
        ev.m_bnktype = |c| % 1000 ∧ ev.m_type = |c| - ev.m_bnktype ∧
        ev.m_type + ev.m_bnktype = |c|) ∨
      (p.m_format = PtracFormat.BIN_PTRAC ∧ eventLoop p u (fuel + 1) st events = Res.exn)) := by
  have hdec := decodeNext_intCast c hc hloop
  rw [← hst] at hdec
  refine ⟨⟨Int.emod_nonneg _ (by norm_num), ?_, ?_⟩, hdec, ?_⟩
  · have := Int.emod_lt_of_pos |c| (show (0 : Int) < 1000 by norm_num)
    omega
  · exact Int.dvd_sub_of_emod_eq rfl
  · rcases eventBody_cases p u (|c| - |c| % 1000) (|c| % 1000) st with
      ⟨ev, st1, hev, ht, hb⟩ | ⟨hbin, hex⟩
    · left
      refine ⟨ev, st1, hev, ?_, hb, ?_, ?_⟩
      · simp only [eventLoop, hdec, hev]
      · rw [ht, hb]
      · rw [ht, hb]; omega
    · right
      refine ⟨hbin, ?_⟩
      simp only [eventLoop, hdec, hex]

/-- C1 at the code `-2037` on an ASCII header: bank type 37, type 2000. -/
theorem C1_event_type_subtype_witness :
    decodeNext (-2037 : ℚ) = some (some (2000, 37)) ∧
      ∃ ev st1, eventBody (exHeader PtracFormat.ASC_PTRAC [1, 2] [10, 22, 7]) exLocals
          2000 37 ⟨0, 0, -2037, exStream []⟩ = Res.ok (ev, st1) ∧
        ev.m_bnktype = 37 ∧ ev.m_type = 2000 := by
  have h := C1_event_type_subtype (exHeader PtracFormat.ASC_PTRAC [1, 2] [10, 22, 7]) exLocals
    (-2037) ⟨0, 0, ((-2037 : Int) : ℚ), exStream []⟩ [] 0 (by norm_num [abs_lt])
    (by decide) rfl
  refine ⟨by simpa using h.2.1, ?_⟩
  rcases h.2.2 with ⟨ev, st1, hev, _, hb, ht, _⟩ | ⟨hbin, _⟩
  · refine ⟨ev, st1, by simpa using hev, by simpa using hb, ?_⟩
    rw [ht, hb]; norm_num
  · exact absurd hbin (by decide)

/-! ### Events whose type has no layout -/

theorem allDataTypes_other (p : Ptrac) (t : Int) (ht : t ∉ primaryTypes) :
    allDataTypes p t = [] := by
  simp only [primaryTypes, List.mem_cons, List.mem_singleton, not_or, List.not_mem_nil,
    or_false] at ht
  obtain ⟨h1, h2, h3, h4, h5⟩ := ht
  have hs : typestr t = "" := by simp [typestr, h1, h2, h3, h4, h5]
  simp only [allDataTypes, hs, Ptrac.datent]
  have e1 : ("" ++ "1" : String) ∉ Ptrac.m_lines := by decide
  have e2 : ("" ++ "2" : String) ∉ Ptrac.m_lines := by decide
  rw [if_neg e1, if_neg e2]
  rfl

theorem eventBody_other (p : Ptrac) (u : Locals) (t b : Int) (st : LoopState)
    (ht : t ∉ primaryTypes) (ev : PtracEvent) (st1 : LoopState)
    (h : eventBody p u t b st = Res.ok (ev, st1)) : st1.next_event_type = (t : ℚ) := by
  unfold eventBody at h
  rw [allDataTypes_other p t ht] at h
  simp only [eventFields] at h
  split_ifs at h with hne
  simp only [Res.ok.injEq, Prod.mk.injEq] at h
  rw [← h.2]

theorem decodeNext_some (x : Dbl) (t b : Int) (h : decodeNext x = some (some (t, b))) :
    0 ≤ t ∧ t < 2 ^ 31 ∧ (1000 : Int) ∣ t ∧ 0 ≤ b ∧ b < 1000 := by
  unfold decodeNext at h
  cases hc : castInt x with
  | none => simp [hc] at h
  | some c =>
    simp only [hc] at h
    have hr : inRange 32 c = true := by
      unfold castInt at hc
      simp only at hc
      split_ifs at hc with hin
      simp only [Option.some.injEq] at hc
      rw [← hc]; exact hin
    have hr2 := (inRange32_iff c).1 hr
    split_ifs at h with hl
    · simp at h
    unfold absInt at h
    split_ifs at h with hmin
    simp only [Option.some.injEq, Prod.mk.injEq] at h
    have hnn : (0 : Int) ≤ (c.natAbs : Int) := Int.natCast_nonneg _
    have hmod : ((c.natAbs : Int)).tmod 1000 = (c.natAbs : Int) % 1000 :=
      Int.tmod_eq_emod hnn (by norm_num)
    rw [hmod] at h
    obtain ⟨h1, h2⟩ := h
    have hlt : (c.natAbs : Int) < 2 ^ 31 := by
      norm_num at hmin
      omega
    have hm0 := Int.emod_nonneg (c.natAbs : Int) (show (1000 : Int) ≠ 0 by norm_num)
    have hm1 := Int.emod_lt_of_pos (c.natAbs : Int) (show (0 : Int) < 1000 by norm_num)
    have hdvd : (1000 : Int) ∣ (c.natAbs : Int) - (c.natAbs : Int) % 1000 :=
      Int.dvd_sub_of_emod_eq rfl
    rw [← h1, ← h2]
    refine ⟨by omega, by omega, hdvd, hm0, hm1⟩

theorem decodeNext_multiple (T : Int) (h0 : 0 ≤ T) (h1 : T < 2 ^ 31) (hd : (1000 : Int) ∣ T)
    (hne : T ≠ Ptrac.LST) : decodeNext (T : ℚ) = some (some (T, 0)) := by
  have habs : |T| = T := abs_of_nonneg h0
  have h := decodeNext_intCast T (by rw [habs]; exact h1) hne
  rw [habs, Int.emod_eq_zero_of_dvd hd] at h
  simpa using h

theorem eventLoop_stuck (p : Ptrac) (u : Locals) (T : Int) (h0 : 0 ≤ T) (h1 : T < 2 ^ 31)
    (hd : (1000 : Int) ∣ T) (hT : T ∉ returnedTypes) :
    ∀ (fuel : Nat) (st : LoopState) (events : List PtracEvent),
      st.next_event_type = (T : ℚ) →
      ∀ r, eventLoop p u fuel st events ≠ Res.ok r := by
  have hp : T ∉ primaryTypes := fun h => hT (List.mem_append_left _ h)
  have hl : T ≠ Ptrac.LST := fun h => hT (List.mem_append_right _ (by simp [h]))
  intro fuel
  induction fuel with
  | zero => intro st events _ r; simp [eventLoop]
  | succ n ih =>
    intro st events hst r
    have hdec := decodeNext_multiple T h0 h1 hd hl
    rw [← hst] at hdec
    simp only [eventLoop, hdec]
    cases hb : eventBody p u T 0 st with
    | ok a =>
      obtain ⟨ev, st1⟩ := a
      simp only
      exact ih st1 (events ++ [ev]) (eventBody_other p u T 0 st hp ev st1 hb) r
    | exn => simp
    | ub => simp
    | oof => simp

theorem eventLoop_types (p : Ptrac) (u : Locals) :
    ∀ (fuel : Nat) (st : LoopState) (events evs : List PtracEvent) (s1 : Stream),
      (∀ e ∈ events, e.m_type ∈ returnedTypes) →
      eventLoop p u fuel st events = Res.ok (evs, s1) →
      ∀ e ∈ evs, e.m_type ∈ returnedTypes := by
  intro fuel
  induction fuel with
  | zero => intro st events evs s1 _ h; simp [eventLoop] at h
  | succ n ih =>
    intro st events evs s1 hall h
    simp only [eventLoop] at h
    cases hdec : decodeNext st.next_event_type with
    | none => simp [hdec] at h
    | some o =>
      cases o with
      | none =>
        simp only [hdec, Res.ok.injEq, Prod.mk.injEq] at h
        rw [← h.1]; exact hall
      | some tb =>
        obtain ⟨t, b⟩ := tb
        simp only [hdec] at h
        obtain ⟨ht0, ht1, htd, _, _⟩ := decodeNext_some _ t b hdec
        cases hb : eventBody p u t b st with
        | ok a =>
          obtain ⟨ev, st1⟩ := a
          simp only [hb] at h
          have hty : ev.m_type = t := by
            rcases eventBody_cases p u t b st with ⟨ev2, st2, h2, h3, _⟩ | ⟨_, h2⟩
            · rw [hb] at h2
              simp only [Res.ok.injEq, Prod.mk.injEq] at h2
              rw [h2.1]; exact h3
            · rw [hb] at h2; simp at h2
          by_cases hin : t ∈ returnedTypes
          · refine ih st1 (events ++ [ev]) evs s1 ?_ h
            intro e he
            rcases List.mem_append.1 he with he | he
            · exact hall e he
            · rw [List.mem_singleton.1 he, hty]; exact hin
          · have hp : t ∉ primaryTypes := fun hh => hin (List.mem_append_left _ hh)
            exact absurd h (eventLoop_stuck p u t ht0 ht1 htd hin n st1 (events ++ [ev])
              (eventBody_other p u t b st hp ev st1 hb) (evs, s1))
        | exn => simp [hb] at h
        | ub => simp [hb] at h
        | oof => simp [hb] at h

/-! ### The shape of a run of `ReadHistory` that returns -/

theorem ReadHistory_ok (fuel : Nat) (p : Ptrac) (u : Locals) (s s1 : Stream)
    (h : PtracHistory) (hret : ReadHistory fuel p u s = Res.ok (h, s1)) :
    (npsFields p.m_format (p.m_nument "nps").toNat (p.datent "nps") u.nps u.next_event_type
        (readSize p u.size1 s).2 = NpsLine.bad s1 ∧ h = { m_nps := u.hist_nps, m_events := [] }) ∨
    (∃ nps nx s2 st evs s3,
      npsFields p.m_format (p.m_nument "nps").toNat (p.datent "nps") u.nps u.next_event_type
        (readSize p u.size1 s).2 = NpsLine.done nps nx s2 ∧
      st.next_event_type = nx ∧ st.s = (readSize p u.size2 s2).2 ∧
      eventLoop p u fuel st [] = Res.ok (evs, s3) ∧ h = { m_nps := nps, m_events := evs } ∧
      s1 = if p.m_format = PtracFormat.ASC_PTRAC then getline s3 else s3) := by
  unfold ReadHistory at hret
  simp only at hret
  split at hret
  · simp at hret
  · rename_i sb hb
    simp only [Res.ok.injEq, Prod.mk.injEq] at hret
    left
    rw [hb, hret.1, hret.2]
    exact ⟨rfl, rfl⟩
  · rename_i nps nx s2 hd
    right
    by_cases hne : p.m_format = PtracFormat.BIN_PTRAC ∧
        (readSize p u.size1 s).1 ≠ (readSize p u.size2 s2).1
    · rw [if_pos hne] at hret; simp at hret
    · rw [if_neg hne] at hret
      split at hret
      · rename_i evs s3 hloop
        simp only [Res.ok.injEq, Prod.mk.injEq] at hret
        exact ⟨nps, nx, s2, _, evs, s3, hd, rfl, rfl, hloop, hret.1.symm, hret.2.symm⟩
      · simp at hret
      · simp at hret
      · simp at hret

/-! ### C2 -/

/-- C2 (amended): every event of a history that `ReadHistory` returns has a type
among 1000, 2000, 3000, 4000, 5000 and 9000, for every header, every content of
the uninitialised locals and every stream. -/
theorem C2_returned_event_types (fuel : Nat) (p : Ptrac) (u : Locals) (s s1 : Stream)
    (h : PtracHistory) (hret : ReadHistory fuel p u s = Res.ok (h, s1)) :
    ∀ e ∈ h.m_events, e.m_type ∈ [1000, 2000, 3000, 4000, 5000, 9000] := by
  rcases ReadHistory_ok fuel p u s s1 h hret with ⟨_, hh⟩ | ⟨nps, nx, s2, st, evs, s3, _, _, _, hloop, hh, _⟩
  · rw [hh]; simp
  · rw [hh]
    exact eventLoop_types p u fuel st [] evs s3 (by simp) hloop

/-- C2 as stated fails: on the NPS line `1 -9000` the decoder returns a history
whose only event has type 9000, outside 1000 to 5000. -/
theorem C2_counterexample :
    ReadHistory 2 (exHeader PtracFormat.ASC_PTRAC [1, 2] [10, 22, 7]) exLocals
        (exStream [Item.tok (Tok.int 1), Item.tok (Tok.int (-9000)), Item.nl]) =
      Res.ok ({ m_nps := ⟨1, 0, 0, 0, 0⟩, m_events := [⟨9000, 0, []⟩] }, exStream []) ∧
    (9000 : Int) ∉ [1000, 2000, 3000, 4000, 5000] := by
  constructor
  · rfl
  · decide

/-- C2 (amended) at a history of two events, of types 1000 and 9000. -/
theorem C2_returned_event_types_witness :
    ReadHistory 3 (exHeader PtracFormat.ASC_PTRAC [1, 2] [10, 22, 7]) exLocals
        (exStream [Item.tok (Tok.int 1), Item.tok (Tok.int 1000), Item.nl,
          Item.tok (Tok.real 1.23), Item.tok (Tok.real 4.56), Item.tok (Tok.int (-9000)),
          Item.nl]) =
      Res.ok ({ m_nps := ⟨1, 0, 0, 0, 0⟩,
                m_events := [⟨1000, 0, [(10, 1.23), (22, 4.56)]⟩, ⟨9000, 0, []⟩] },
              exStream []) ∧
    ∀ e ∈ [(⟨1000, 0, [(10, 1.23), (22, 4.56)]⟩ : PtracEvent), ⟨9000, 0, []⟩],
      e.m_type ∈ [1000, 2000, 3000, 4000, 5000, 9000] :=
  ⟨by rfl, C2_returned_event_types 3 (exHeader PtracFormat.ASC_PTRAC [1, 2] [10, 22, 7]) exLocals
    (exStream [Item.tok (Tok.int 1), Item.tok (Tok.int 1000), Item.nl,
          Item.tok (Tok.real 1.23), Item.tok (Tok.real 4.56), Item.tok (Tok.int (-9000)),
          Item.nl]) (exStream [])
    { m_nps := ⟨1, 0, 0, 0, 0⟩,
      m_events := [⟨1000, 0, [(10, 1.23), (22, 4.56)]⟩, ⟨9000, 0, []⟩] } (by rfl)⟩

/-! ### C3 -/

/-- C3 as stated fails: the first event code 1005 gives an event of type 1000,
which is not BNK, with bank type 5. -/
theorem C3_counterexample :
    ReadHistory 2 (exHeader PtracFormat.ASC_PTRAC [1, 2] [10, 22, 7]) exLocals
        (exStream [Item.tok (Tok.int 1), Item.tok (Tok.int 1005), Item.nl,
          Item.tok (Tok.real 1.23), Item.tok (Tok.real 4.56), Item.tok (Tok.int 9000),
          Item.nl]) =
      Res.ok ({ m_nps := ⟨1, 0, 0, 0, 0⟩,
                m_events := [⟨1000, 5, [(10, 1.23), (22, 4.56)]⟩] }, exStream []) ∧
    (1000 : Int) ≠ Ptrac.BNK ∧ (5 : Int) ≠ 0 := by
  refine ⟨rfl, by decide, by decide⟩

/-- C3 (amended): an event decoded from the integer code `c` carries bank type
`|c| mod 1000` whatever its type; the bank type is 0 exactly when `c` is a
multiple of 1000, that is when the type is `|c|`. -/
theorem C3_bnk_subtype (p : Ptrac) (u : Locals) (c t b : Int) (st st1 : LoopState)
    (ev : PtracEvent) (hc : |c| < 2 ^ 31) (hst : st.next_event_type = (c : ℚ))
    (hdec : decodeNext st.next_event_type = some (some (t, b)))
    (hev : eventBody p u t b st = Res.ok (ev, st1)) :
    ev.m_bnktype = |c| % 1000 ∧ (ev.m_bnktype = 0 ↔ (1000 : Int) ∣ c) ∧
      (ev.m_bnktype = 0 ↔ ev.m_type = |c|) := by
  have hne : c ≠ 9000 := by
    intro h9
    rw [hst, h9] at hdec
    have : decodeNext ((9000 : Int) : ℚ) = some none := by decide
    rw [this] at hdec
    simp at hdec
  have hd := decodeNext_intCast c hc hne
  rw [← hst, hdec] at hd
  simp only [Option.some.injEq, Prod.mk.injEq] at hd
  obtain ⟨ht, hb⟩ := hd
  obtain ⟨hty, hbk⟩ : ev.m_type = t ∧ ev.m_bnktype = b := by
    rcases eventBody_cases p u t b st with ⟨ev2, st2, h2, h3, h4⟩ | ⟨_, h2⟩
    · rw [hev] at h2
      simp only [Res.ok.injEq, Prod.mk.injEq] at h2
      rw [h2.1]; exact ⟨h3, h4⟩
    · rw [hev] at h2; simp at h2
  rw [hty, hbk, ht, hb]
  refine ⟨rfl, ?_, ?_⟩
  · rw [← Int.dvd_iff_emod_eq_zero, dvd_abs]
  · constructor <;> intro h <;> omega

/-- C3 (amended) at the code 1005. -/
theorem C3_bnk_subtype_witness :
    (5 : Int) = |(1005 : Int)| % 1000 ∧ ((5 : Int) = 0 ↔ (1000 : Int) ∣ 1005) ∧
      ((5 : Int) = 0 ↔ (1000 : Int) = |(1005 : Int)|) :=
  C3_bnk_subtype (exHeader PtracFormat.ASC_PTRAC [1, 2] []) exLocals 1005 1000 5
    ⟨0, 0, 1005, exStream []⟩ ⟨0, 0, 1000, exStream []⟩ ⟨1000, 5, []⟩
    (by norm_num [abs_lt]) (by norm_num) (by decide) (by rfl)

/-! ### C4 -/

/-- C4 as stated fails: 9000 ends the loop, `-9000` does not and is decoded as
an event of type 9000. -/
theorem C4_counterexample :
    decodeNext ((9000 : Int) : ℚ) = some none ∧
      decodeNext ((-9000 : Int) : ℚ) = some (some (9000, 0)) := by
  constructor <;> decide

/-- C4 (amended): for an integer code `c` with `|c| < 2^31` and `|c| ≠ 9000`
the head of the event loop treats `c` and `-c` alike: both continue, with type
`|c| - |c| mod 1000` and bank type `|c| mod 1000`. -/
theorem C4_sign_discarded (c : Int) (hc : |c| < 2 ^ 31) (h9 : |c| ≠ Ptrac.LST) :
    decodeNext ((-c : Int) : ℚ) = decodeNext (c : ℚ) ∧
      decodeNext (c : ℚ) = some (some (|c| - |c| % 1000, |c| % 1000)) := by
  have h1 : c ≠ 9000 := by
    intro h; apply h9; rw [h]; decide
  have h2 : -c ≠ 9000 := by
    intro h; apply h9; rw [← abs_neg, h]; decide
  have e1 := decodeNext_intCast c hc h1
  have e2 := decodeNext_intCast (-c) (by rw [abs_neg]; exact hc) h2
  rw [abs_neg] at e2
  exact ⟨e2.trans e1.symm, e1⟩

/-- C4 (amended) at the code `-2037`. -/
theorem C4_sign_discarded_witness :
    decodeNext ((-(-2037) : Int) : ℚ) = decodeNext ((-2037 : Int) : ℚ) ∧
      decodeNext ((-2037 : Int) : ℚ) =
        some (some (|(-2037 : Int)| - |(-2037 : Int)| % 1000, |(-2037 : Int)| % 1000)) :=
  C4_sign_discarded (-2037) (by norm_num [abs_lt]) (by decide)

/-! ### The loop over the NPS line -/

theorem extract_good {α : Type} (fmt : PtracFormat) (pick : Tok → Option α) (zero : α)
    (s : Stream) (h : (extract fmt pick zero s).2.good = true) :
    ∃ v, (extract fmt pick zero s).1 = some v := by
  unfold extract at h ⊢
  by_cases hg : s.good = true
  · simp only [hg, if_true] at h ⊢
    cases hn : nextTok s.items with
    | none => simp [hn, Stream.good] at h
    | some tr =>
      obtain ⟨t, r⟩ := tr
      simp only [hn] at h ⊢
      cases hp : pick t with
      | none => exact ⟨zero, rfl⟩
      | some v => exact ⟨v, rfl⟩
  · rw [if_neg hg] at h
    simp [Stream.good] at h

theorem extract_some {α : Type} (fmt : PtracFormat) (pick : Tok → Option α) (zero : α)
    (items rest : List Item) (t : Tok) (v : α)
    (hn : nextTok items = some (t, rest)) (hp : pick t = some v) :
    extract fmt pick zero ⟨items, false, false⟩ =
      (some v, ⟨rest, decide (fmt ≠ PtracFormat.BIN_PTRAC) && rest.isEmpty, false⟩) := by
  simp [extract, Stream.good, hn, hp]

theorem takeToks_succ (n : Nat) (items : List Item) (toks : List Tok) (rest : List Item)
    (h : takeToks (n + 1) items = some (toks, rest)) :
    ∃ t r ts, nextTok items = some (t, r) ∧ takeToks n r = some (ts, rest) ∧ toks = t :: ts := by
  simp only [takeToks] at h
  cases hn : nextTok items with
  | none => simp [hn] at h
  | some tr =>
    obtain ⟨t, r⟩ := tr
    simp only [hn] at h
    cases ht : takeToks n r with
    | none => simp [ht] at h
    | some x =>
      obtain ⟨ts, rest1⟩ := x
      simp only [ht, Option.some.injEq, Prod.mk.injEq] at h
      exact ⟨t, r, ts, rfl, by rw [← h.2, ht], h.1.symm⟩

theorem takeToks_nonempty (n : Nat) :
    ∀ (items : List Item) (toks : List Tok) (rest : List Item),
      takeToks n items = some (toks, rest) → rest ≠ [] → items ≠ [] := by
  induction n with
  | zero =>
    intro items toks rest h hr
    simp only [takeToks, Option.some.injEq, Prod.mk.injEq] at h
    rw [h.2]; exact hr
  | succ n _ =>
    intro items toks rest h _ he
    rw [he] at h
    simp [takeToks, nextTok] at h

theorem npsFields_run (fmt : PtracFormat) :
    ∀ (L : List Int) (toks : List Tok) (items rest : List Item) (nps : PtracNps) (nx : Dbl),
      takeToks L.length items = some (toks, rest) →
      List.Forall₂ npsWellFormed L toks →
      (fmt ≠ PtracFormat.BIN_PTRAC → rest ≠ []) →
      npsFields fmt L.length L nps nx ⟨items, false, false⟩ =
        NpsLine.done (npsAssignAll L toks nps nx).1 (npsAssignAll L toks nps nx).2
          ⟨rest, false, false⟩ := by
  intro L
  induction L with
  | nil =>
    intro toks items rest nps nx ht _ _
    simp only [List.length_nil, takeToks, Option.some.injEq, Prod.mk.injEq] at ht
    simp [npsFields, npsAssignAll, ht.2]
  | cons f L ih =>
    intro toks items rest nps nx ht hwf hmore
    obtain ⟨t, r, ts, hn, htr, hts⟩ := takeToks_succ L.length items toks rest ht
    subst hts
    have hwf1 : npsWellFormed f t := by cases hwf; assumption
    have hwf2 : List.Forall₂ npsWellFormed L ts := by cases hwf; assumption
    have hr : (decide (fmt ≠ PtracFormat.BIN_PTRAC) && r.isEmpty) = false := by
      by_cases hb : fmt = PtracFormat.BIN_PTRAC
      · simp [hb]
      · have := takeToks_nonempty L.length r ts rest htr (hmore hb)
        cases r with
        | nil => exact absurd rfl this
        | cons a b => simp
    simp only [List.length_cons, npsFields]
    by_cases hv : f = Ptrac.VALUE
    · unfold npsWellFormed at hwf1
      rw [if_pos hv] at hwf1
      obtain ⟨q, hq⟩ := Option.ne_none_iff_exists'.1 hwf1
      have he := extract_some fmt Tok.asReal 0 items r t q hn hq
      rw [hr] at he
      simp only [if_pos hv, ReadValueDouble, he, Stream.good, Bool.not_false, Bool.and_self,
        if_true]
      rw [ih ts r rest _ _ htr hwf2 hmore]
      simp [npsAssignAll, npsAssign, hv, hq]
    · unfold npsWellFormed at hwf1
      rw [if_neg hv] at hwf1
      obtain ⟨q, hq⟩ := Option.ne_none_iff_exists'.1 hwf1
      have he := extract_some fmt (pickInt 64) 0 items r t q hn hq
      rw [hr] at he
      simp only [if_neg hv, ReadValueInt64, he, Stream.good, Bool.not_false, Bool.and_self,
        if_true]
      rw [ih ts r rest _ _ htr hwf2 hmore]
      simp [npsAssignAll, npsAssign, hv, hq]

theorem npsAssign_same (f : Int) (t : Tok) (nps : PtracNps) (nx : Dbl) (hf : f ∈ npsIds) :
    npsView f (npsAssign f t nps nx) = tokView f t := by
  simp only [npsIds, List.mem_cons, List.mem_singleton, List.not_mem_nil, or_false] at hf
  rcases hf with h | h | h | h | h | h <;> subst h <;>
    simp [npsView, npsAssign, npsStore, tokView, Ptrac.NPS, Ptrac.FIRST_EVENT_TYPE,
      Ptrac.NPSCELL, Ptrac.NPSSURFACE, Ptrac.TALLY, Ptrac.VALUE]

theorem npsAssign_other (f g : Int) (t : Tok) (nps : PtracNps) (nx : Dbl) (hg : g ≠ f) :
    npsView g (npsAssign f t nps nx) = npsView g (nps, nx) := by
  unfold npsAssign npsStore
  split_ifs <;> unfold npsView <;> dsimp only <;> split_ifs <;>
    first
    | rfl
    | (exfalso
       simp only [Ptrac.NPS, Ptrac.FIRST_EVENT_TYPE, Ptrac.NPSCELL, Ptrac.NPSSURFACE,
         Ptrac.TALLY, Ptrac.VALUE] at *
       omega)

theorem npsAssignAll_absent (g : Int) :
    ∀ (L : List Int) (toks : List Tok) (nps : PtracNps) (nx : Dbl), g ∉ L →
      npsView g (npsAssignAll L toks nps nx) = npsView g (nps, nx) := by
  intro L
  induction L with
  | nil => intro toks nps nx _; simp [npsAssignAll]
  | cons f L ih =>
    intro toks nps nx hg
    cases toks with
    | nil => simp [npsAssignAll]
    | cons t ts =>
      simp only [npsAssignAll]
      rw [ih ts _ _ (fun h => hg (List.mem_cons_of_mem _ h))]
      exact npsAssign_other f g t nps nx (fun h => hg (by rw [h]; exact List.mem_cons_self _ _))

theorem npsAssignAll_last (f : Int) (t : Tok) (hf : f ∈ npsIds) :
    ∀ (L : List Int) (toks : List Tok) (nps : PtracNps) (nx : Dbl) (i : Nat),
      List.Forall₂ npsWellFormed L toks →
      L[i]? = some f → toks[i]? = some t → (∀ j, i < j → L[j]? ≠ some f) →
      npsWellFormed f t ∧ npsView f (npsAssignAll L toks nps nx) = tokView f t := by
  intro L
  induction L with
  | nil => intro toks nps nx i _ h; simp at h
  | cons f0 L ih =>
    intro toks nps nx i hwf hL ht hlast
    cases toks with
    | nil => simp at ht
    | cons t0 ts =>
      have hwf1 : npsWellFormed f0 t0 := by cases hwf; assumption
      have hwf2 : List.Forall₂ npsWellFormed L ts := by cases hwf; assumption
      simp only [npsAssignAll]
      cases i with
      | zero =>
        simp only [List.getElem?_cons_zero, Option.some.injEq] at hL ht
        subst hL; subst ht
        refine ⟨hwf1, ?_⟩
        have hnot : f0 ∉ L := by
          intro hmem
          obtain ⟨j, hj, hjv⟩ := List.getElem_of_mem hmem
          have := hlast (j + 1) (Nat.succ_pos j)
          apply this
          simp [List.getElem?_eq_getElem hj, hjv]
        rw [npsAssignAll_absent f0 L ts _ _ hnot]
        exact npsAssign_same f0 t0 nps nx hf
      | succ k =>
        simp only [List.getElem?_cons_succ] at hL ht
        refine ih ts _ _ k hwf2 hL ht ?_
        intro j hj
        have := hlast (j + 1) (by omega)
        simpa using this

theorem pickInt_some (w : Nat) (t : Tok) (v : Int) (h : pickInt w t = some v) :
    t.asInt = some v := by
  unfold pickInt at h
  cases ha : t.asInt with
  | none => simp [ha] at h
  | some a =>
    simp only [ha] at h
    split_ifs at h
    simpa using h

theorem tokView_int (f : Int) (t : Tok) (v : Int) (hv : f ≠ Ptrac.VALUE)
    (hwf : npsWellFormed f t) (h : (v : ℚ) = tokView f t) : t.asInt = some v := by
  unfold npsWellFormed at hwf
  rw [if_neg hv] at hwf
  obtain ⟨q, hq⟩ := Option.ne_none_iff_exists'.1 hwf
  unfold tokView at h
  rw [if_neg hv, hq] at h
  simp only [Option.getD_some, Int.cast_inj] at h
  rw [h]; exact pickInt_some 64 t q hq

/-! ### C5 -/

/-- C5: when `counts[nps] = |L|` and the stream, good when the NPS line starts,
supplies `|L|` well-formed scalars (a double at each `VALUE` position, a 64-bit
integer elsewhere; in formatted mode the input goes on after the last of them),
the loop over the NPS line consumes exactly these scalars and ends normally; a
history that `ReadHistory` returns carries the record `nps` so built; for the
last position of each identifier, `nps.nps`, `nps.cell`, `nps.surface`,
`nps.tally` hold the integer reading of the scalar at the position of 1, 3, 4,
5, `nps.value` the double reading at the position of 6, and the staged event
code the integer at the position of 2; a variable whose identifier does not
occur keeps its initial content, so any other identifier only consumes. -/
theorem C5_nps_line (p : Ptrac) (u : Locals) (s : Stream) (L : List Int) (toks : List Tok)
    (items rest : List Item)
    (hL : p.datent "nps" = L) (hcount : p.m_nument "nps" = (L.length : Int))
    (hstart : (readSize p u.size1 s).2 = ⟨items, false, false⟩)
    (htoks : takeToks L.length items = some (toks, rest))
    (hwf : List.Forall₂ npsWellFormed L toks)
    (hmore : p.m_format ≠ PtracFormat.BIN_PTRAC → rest ≠ []) :
    ∃ nps nx,
      npsFields p.m_format (p.m_nument "nps").toNat (p.datent "nps") u.nps u.next_event_type
          (readSize p u.size1 s).2 = NpsLine.done nps nx ⟨rest, false, false⟩ ∧
      (∀ fuel h s1, ReadHistory fuel p u s = Res.ok (h, s1) → h.m_nps = nps) ∧
      (∀ (i : Nat) (f : Int) (t : Tok), L[i]? = some f → toks[i]? = some t →
          (∀ j : Nat, i < j → L[j]? ≠ some f) →
        (f = Ptrac.NPS → t.asInt = some nps.m_nps) ∧
        (f = Ptrac.FIRST_EVENT_TYPE → ∃ v : Int, t.asInt = some v ∧ nx = (v : ℚ)) ∧
        (f = Ptrac.NPSCELL → t.asInt = some nps.m_cell) ∧
        (f = Ptrac.NPSSURFACE → t.asInt = some nps.m_surface) ∧
        (f = Ptrac.TALLY → t.asInt = some nps.m_tally) ∧
        (f = Ptrac.VALUE → t.asReal = some nps.m_value)) ∧
      (Ptrac.NPS ∉ L → nps.m_nps = u.nps.m_nps) ∧
      (Ptrac.FIRST_EVENT_TYPE ∉ L → nx = u.next_event_type) ∧
      (Ptrac.NPSCELL ∉ L → nps.m_cell = u.nps.m_cell) ∧
      (Ptrac.NPSSURFACE ∉ L → nps.m_surface = u.nps.m_surface) ∧
      (Ptrac.TALLY ∉ L → nps.m_tally = u.nps.m_tally) ∧
      (Ptrac.VALUE ∉ L → nps.m_value = u.nps.m_value) := by
  subst hL
  have hrun := npsFields_run p.m_format (p.datent "nps") toks items rest u.nps
    u.next_event_type htoks hwf hmore
  have hn : (p.m_nument "nps").toNat = (p.datent "nps").length := by rw [hcount]; simp
  rw [← hstart, ← hn] at hrun
  refine ⟨_, _, hrun, ?_, ?_, ?_⟩
  · intro fuel h s1 hret
    rcases ReadHistory_ok fuel p u s s1 h hret with ⟨hbad, _⟩ | ⟨nps, nx, s2, st, evs, s3, hd, _, _, _, hh, _⟩
    · rw [hrun] at hbad; simp at hbad
    · rw [hrun] at hd
      simp only [NpsLine.done.injEq] at hd
      rw [hh, ← hd.1]
  · intro i f t hf ht hlast
    have key : f ∈ npsIds → npsWellFormed f t ∧
        npsView f (npsAssignAll (p.datent "nps") toks u.nps u.next_event_type) = tokView f t :=
      fun hmem => npsAssignAll_last f t hmem (p.datent "nps") toks u.nps u.next_event_type i hwf hf ht hlast
    refine ⟨?_, ?_, ?_, ?_, ?_, ?_⟩
    · intro h; subst h
      obtain ⟨h1, h2⟩ := key (by simp [npsIds])
      exact tokView_int _ t _ (by decide) h1 (by simpa [npsView] using h2)
    · intro h; subst h
      obtain ⟨h1, h2⟩ := key (by simp [npsIds])
      have hw := h1
      unfold npsWellFormed at hw
      rw [if_neg (by decide)] at hw
      obtain ⟨q, hq⟩ := Option.ne_none_iff_exists'.1 hw
      refine ⟨q, pickInt_some 64 t q hq, ?_⟩
      have : npsView Ptrac.FIRST_EVENT_TYPE (npsAssignAll (p.datent "nps") toks u.nps u.next_event_type) =
          (npsAssignAll (p.datent "nps") toks u.nps u.next_event_type).2 := by
        simp [npsView, Ptrac.FIRST_EVENT_TYPE, Ptrac.NPS]
      rw [← this, h2]
      simp [tokView, Ptrac.FIRST_EVENT_TYPE, Ptrac.VALUE, hq]
    · intro h; subst h
      obtain ⟨h1, h2⟩ := key (by simp [npsIds])
      exact tokView_int _ t _ (by decide) h1
        (by simpa [npsView, Ptrac.NPS, Ptrac.FIRST_EVENT_TYPE, Ptrac.NPSCELL] using h2)
    · intro h; subst h
      obtain ⟨h1, h2⟩ := key (by simp [npsIds])
      exact tokView_int _ t _ (by decide) h1
        (by simpa [npsView, Ptrac.NPS, Ptrac.FIRST_EVENT_TYPE, Ptrac.NPSCELL,
          Ptrac.NPSSURFACE] using h2)
    · intro h; subst h
      obtain ⟨h1, h2⟩ := key (by simp [npsIds])
      exact tokView_int _ t _ (by decide) h1
        (by simpa [npsView, Ptrac.NPS, Ptrac.FIRST_EVENT_TYPE, Ptrac.NPSCELL,
          Ptrac.NPSSURFACE, Ptrac.TALLY] using h2)
    · intro h; subst h
      obtain ⟨h1, h2⟩ := key (by simp [npsIds])
      have hw := h1
      unfold npsWellFormed at hw
      rw [if_pos rfl] at hw
      obtain ⟨q, hq⟩ := Option.ne_none_iff_exists'.1 hw
      have : npsView Ptrac.VALUE (npsAssignAll (p.datent "nps") toks u.nps u.next_event_type) =
          (npsAssignAll (p.datent "nps") toks u.nps u.next_event_type).1.m_value := by
        simp [npsView, Ptrac.NPS, Ptrac.FIRST_EVENT_TYPE, Ptrac.NPSCELL,
          Ptrac.NPSSURFACE, Ptrac.TALLY, Ptrac.VALUE]
      rw [← this, h2]
      simp [tokView, hq]
  · refine ⟨?_, ?_, ?_, ?_, ?_, ?_⟩ <;> intro h <;>
      have h2 := npsAssignAll_absent _ (p.datent "nps") toks u.nps u.next_event_type h <;>
      simpa [npsView, Ptrac.NPS, Ptrac.FIRST_EVENT_TYPE, Ptrac.NPSCELL,
          Ptrac.NPSSURFACE, Ptrac.TALLY, Ptrac.VALUE] using h2

/-- C5 at the layout `[1, 2, 5, 6, 99, 3]` and the line `7 1000 8 2.5 42 12`. -/
theorem C5_nps_line_witness :
    ∃ nps nx,
      npsFields exNpsHeader.m_format (exNpsHeader.m_nument "nps").toNat
          (exNpsHeader.datent "nps") exLocals.nps exLocals.next_event_type
          (readSize exNpsHeader exLocals.size1
            (exStream (exNpsToks.map Item.tok ++ [Item.nl]))).2 =
        NpsLine.done nps nx ⟨[Item.nl], false, false⟩ ∧
      (∀ fuel h s1, ReadHistory fuel exNpsHeader exLocals
          (exStream (exNpsToks.map Item.tok ++ [Item.nl])) = Res.ok (h, s1) → h.m_nps = nps) ∧
      (∀ (i : Nat) (f : Int) (t : Tok), exNpsLayout[i]? = some f → exNpsToks[i]? = some t →
          (∀ j : Nat, i < j → exNpsLayout[j]? ≠ some f) →
        (f = Ptrac.NPS → t.asInt = some nps.m_nps) ∧
        (f = Ptrac.FIRST_EVENT_TYPE → ∃ v : Int, t.asInt = some v ∧ nx = (v : ℚ)) ∧
        (f = Ptrac.NPSCELL → t.asInt = some nps.m_cell) ∧
        (f = Ptrac.NPSSURFACE → t.asInt = some nps.m_surface) ∧
        (f = Ptrac.TALLY → t.asInt = some nps.m_tally) ∧
        (f = Ptrac.VALUE → t.asReal = some nps.m_value)) ∧
      (Ptrac.NPS ∉ exNpsLayout → nps.m_nps = exLocals.nps.m_nps) ∧
      (Ptrac.FIRST_EVENT_TYPE ∉ exNpsLayout → nx = exLocals.next_event_type) ∧
      (Ptrac.NPSCELL ∉ exNpsLayout → nps.m_cell = exLocals.nps.m_cell) ∧
      (Ptrac.NPSSURFACE ∉ exNpsLayout → nps.m_surface = exLocals.nps.m_surface) ∧
      (Ptrac.TALLY ∉ exNpsLayout → nps.m_tally = exLocals.nps.m_tally) ∧
      (Ptrac.VALUE ∉ exNpsLayout → nps.m_value = exLocals.nps.m_value) :=
  C5_nps_line exNpsHeader exLocals (exStream (exNpsToks.map Item.tok ++ [Item.nl]))
    exNpsLayout exNpsToks (exNpsToks.map Item.tok ++ [Item.nl]) [Item.nl]
    (by rfl) (by rfl) (by rfl) (by rfl)
    (List.Forall₂.cons (by simp [npsWellFormed, Tok.int, pickInt, inRange, Ptrac.VALUE])
      (List.Forall₂.cons (by simp [npsWellFormed, Tok.int, pickInt, inRange, Ptrac.VALUE])
        (List.Forall₂.cons (by simp [npsWellFormed, Tok.int, pickInt, inRange, Ptrac.VALUE])
          (List.Forall₂.cons (by simp [npsWellFormed, Tok.real, Ptrac.VALUE])
            (List.Forall₂.cons (by simp [npsWellFormed, Tok.int, pickInt, inRange, Ptrac.VALUE])
              (List.Forall₂.cons
                (by simp [npsWellFormed, Tok.int, pickInt, inRange, Ptrac.VALUE])
                List.Forall₂.nil))))))
    (fun _ => by simp)


/-! ### The loop over the fields of an event -/

theorem mapGet_mapSet_same (k : Int) (v : Dbl) (m : List (Int × Dbl)) :
    mapGet k (mapSet k v m) = some v := by
  induction m with
  | nil => simp [mapSet, mapGet]
  | cons a m ih =>
    obtain ⟨k1, v1⟩ := a
    unfold mapSet
    split_ifs with h1 h2
    · simp [mapGet]
    · simp [mapGet]
    · simp only [mapGet, if_neg h2]; exact ih

theorem mapGet_mapSet_other (k g : Int) (v : Dbl) (m : List (Int × Dbl)) (h : g ≠ k) :
    mapGet g (mapSet k v m) = mapGet g m := by
  induction m with
  | nil => simp [mapSet, mapGet, h]
  | cons a m ih =>
    obtain ⟨k1, v1⟩ := a
    unfold mapSet
    split_ifs with h1 h2
    · simp [mapGet, h]
    · subst h2; simp [mapGet, h]
    · simp only [mapGet]; rw [ih]

theorem storedIds_iff (id : Int) : id ∈ Ptrac.storedIds ↔ 10 ≤ id ∧ id ≤ 30 := by
  simp only [Ptrac.storedIds, Ptrac.NODE, Ptrac.NSR, Ptrac.ZAID, Ptrac.RXN, Ptrac.SURFACE,
    Ptrac.ANGLE, Ptrac.TERMINATION_TYPE, Ptrac.BRANCH, Ptrac.PARTICLE, Ptrac.CELL,
    Ptrac.MATERIAL, Ptrac.COLLISION_NUMBER, Ptrac.X, Ptrac.Y, Ptrac.Z, Ptrac.U, Ptrac.V,
    Ptrac.W, Ptrac.ENERGY, Ptrac.WEIGHT, Ptrac.TIME, List.mem_cons, List.mem_singleton,
    List.not_mem_nil, or_false]
  omega

theorem eventStore_same (id : Int) (q : Dbl) (ev : PtracEvent) (nx : Dbl)
    (hid : id = Ptrac.NEXT_EVENT_TYPE ∨ id ∈ Ptrac.storedIds) :
    eventView id (eventStore id q ev nx) = some q := by
  unfold eventStore eventView
  by_cases h7 : id = Ptrac.NEXT_EVENT_TYPE
  · simp [h7]
  · rcases hid with h | h
    · exact absurd h h7
    · simp [h7, h, mapGet_mapSet_same]

theorem eventStore_other (id g : Int) (q : Dbl) (ev : PtracEvent) (nx : Dbl) (hg : g ≠ id) :
    eventView g (eventStore id q ev nx) = eventView g (ev, nx) := by
  unfold eventStore eventView
  by_cases h7 : id = Ptrac.NEXT_EVENT_TYPE
  · have : g ≠ Ptrac.NEXT_EVENT_TYPE := fun h => hg (h.trans h7.symm)
    simp [h7, this]
  · by_cases hs : id ∈ Ptrac.storedIds
    · simp only [if_neg h7, if_pos hs]
      split_ifs
      · rfl
      · exact mapGet_mapSet_other id g q ev.m_data hg
    · simp [h7, hs]

theorem eventStore_dropped (id : Int) (q : Dbl) (ev : PtracEvent) (nx : Dbl)
    (h7 : id ≠ Ptrac.NEXT_EVENT_TYPE) (hs : id ∉ Ptrac.storedIds) :
    eventStore id q ev nx = (ev, nx) := by
  simp [eventStore, h7, hs]

theorem eventAssignAll_absent (g : Int) :
    ∀ (L : List Int) (toks : List Tok) (ev : PtracEvent) (nx : Dbl),
      (g ∉ L ∨ (g ≠ Ptrac.NEXT_EVENT_TYPE ∧ g ∉ Ptrac.storedIds)) →
      eventView g (eventAssignAll L toks ev nx) = eventView g (ev, nx) := by
  intro L
  induction L with
  | nil => intro toks ev nx _; simp [eventAssignAll]
  | cons id L ih =>
    intro toks ev nx hg
    cases toks with
    | nil => simp [eventAssignAll]
    | cons t ts =>
      simp only [eventAssignAll]
      have hg2 : g ∉ L ∨ (g ≠ Ptrac.NEXT_EVENT_TYPE ∧ g ∉ Ptrac.storedIds) := by
        rcases hg with h | h
        · left; exact fun hm => h (List.mem_cons_of_mem _ hm)
        · right; exact h
      rw [ih ts _ _ hg2]
      by_cases hid : g = id
      · rcases hg with h | h
        · exact absurd (by rw [hid]; exact List.mem_cons_self _ _) h
        · rw [eventStore_dropped id _ ev nx (hid ▸ h.1) (hid ▸ h.2)]
      · exact eventStore_other id g _ ev nx hid

theorem eventAssignAll_last (id : Int) (t : Tok)
    (hid : id = Ptrac.NEXT_EVENT_TYPE ∨ id ∈ Ptrac.storedIds) :
    ∀ (L : List Int) (toks : List Tok) (ev : PtracEvent) (nx : Dbl) (i : Nat),
      L[i]? = some id → toks[i]? = some t → (∀ j, i < j → L[j]? ≠ some id) →
      eventView id (eventAssignAll L toks ev nx) = some (t.asReal.getD 0) := by
  intro L
  induction L with
  | nil => intro toks ev nx i h; simp at h
  | cons f0 L ih =>
    intro toks ev nx i hL ht hlast
    cases toks with
    | nil => simp at ht
    | cons t0 ts =>
      simp only [eventAssignAll]
      cases i with
      | zero =>
        simp only [List.getElem?_cons_zero, Option.some.injEq] at hL ht
        subst hL; subst ht
        have hnot : f0 ∉ L := by
          intro hmem
          obtain ⟨j, hj, hjv⟩ := List.getElem_of_mem hmem
          have := hlast (j + 1) (Nat.succ_pos j)
          apply this
          simp [List.getElem?_eq_getElem hj, hjv]
        rw [eventAssignAll_absent f0 L ts _ _ (Or.inl hnot)]
        exact eventStore_same f0 _ ev nx hid
      | succ k =>
        simp only [List.getElem?_cons_succ] at hL ht
        refine ih ts _ _ k hL ht ?_
        intro j hj
        have := hlast (j + 1) (by omega)
        simpa using this

theorem eventFields_run (fmt : PtracFormat) (tmp0 : Dbl) :
    ∀ (L : List Int) (toks : List Tok) (items rest : List Item) (ev : PtracEvent) (nx : Dbl),
      takeToks L.length items = some (toks, rest) →
      (∀ t ∈ toks, t.asReal ≠ none) →
      ∃ sf : Stream, sf.items = rest ∧ sf.failbit = false ∧
        eventFields fmt tmp0 L ev nx ⟨items, false, false⟩ =
          ((eventAssignAll L toks ev nx).1, (eventAssignAll L toks ev nx).2, sf) := by
  intro L
  induction L with
  | nil =>
    intro toks items rest ev nx ht _
    simp only [List.length_nil, takeToks, Option.some.injEq, Prod.mk.injEq] at ht
    exact ⟨⟨items, false, false⟩, ht.2, rfl, by simp [eventFields, eventAssignAll]⟩
  | cons id L ih =>
    intro toks items rest ev nx ht hwf
    obtain ⟨t, r, ts, hn, htr, hts⟩ := takeToks_succ L.length items toks rest ht
    subst hts
    obtain ⟨q, hq⟩ := Option.ne_none_iff_exists'.1 (hwf t (List.mem_cons_self _ _))
    have he := extract_some fmt Tok.asReal 0 items r t q hn hq
    have hwf2 : ∀ t ∈ ts, t.asReal ≠ none := fun x hx => hwf x (List.mem_cons_of_mem _ hx)
    simp only [eventFields, ReadValueDouble, he, Option.getD_some, eventAssignAll, hq]
    cases L with
    | nil =>
      simp only [List.length_nil, takeToks, Option.some.injEq, Prod.mk.injEq] at htr
      refine ⟨_, ?_, ?_, by simp only [eventFields]; rfl⟩
      · exact htr.2
      · rfl
    | cons id2 L2 =>
      have hne : r ≠ [] := by
        intro h0
        rw [h0] at htr
        simp [takeToks, nextTok] at htr
      have hr : (decide (fmt ≠ PtracFormat.BIN_PTRAC) && r.isEmpty) = false := by
        cases r with
        | nil => exact absurd rfl hne
        | cons a b => simp
      rw [hr]
      exact ih ts r rest _ _ htr hwf2

theorem eventStore_data (id g : Int) (q : Dbl) (ev : PtracEvent) (nx : Dbl)
    (hg : g ≠ id ∨ g ∉ Ptrac.storedIds) :
    mapGet g (eventStore id q ev nx).1.m_data = mapGet g ev.m_data := by
  unfold eventStore
  split_ifs with h7 hs
  · rfl
  · have hne : g ≠ id := by
      rcases hg with h | h
      · exact h
      · intro he; exact h (he ▸ hs)
    exact mapGet_mapSet_other id g q ev.m_data hne
  · rfl

theorem eventAssignAll_data (g : Int) :
    ∀ (L : List Int) (toks : List Tok) (ev : PtracEvent) (nx : Dbl),
      (g ∉ L ∨ g ∉ Ptrac.storedIds) →
      mapGet g (eventAssignAll L toks ev nx).1.m_data = mapGet g ev.m_data := by
  intro L
  induction L with
  | nil => intro toks ev nx _; simp [eventAssignAll]
  | cons id L ih =>
    intro toks ev nx hg
    cases toks with
    | nil => simp [eventAssignAll]
    | cons t ts =>
      simp only [eventAssignAll]
      have hg2 : g ∉ L ∨ g ∉ Ptrac.storedIds := by
        rcases hg with h | h
        · left; exact fun hm => h (List.mem_cons_of_mem _ hm)
        · right; exact h
      rw [ih ts _ _ hg2]
      apply eventStore_data
      rcases hg with h | h
      · left; intro he; exact h (by rw [he]; exact List.mem_cons_self _ _)
      · right; exact h

/-! ### C6 -/

/-- C6 (amended): for an event of type `t` with `L = layout[t1] ++ layout[t2]`,
read from a stream that supplies `|L|` doubles, exactly `|L|` scalars are
consumed; at the last position of each identifier, `NEXT_EVENT_TYPE` (7) sets
the next-event code and every identifier from 10 to 30 is stored as
`event.data[id]`; without a 7 the next-event code stays the primary type; an
identifier outside 10 to 30 (7, the NPS identifiers 1 to 6 and every
identifier outside the enumeration) leaves no binding in `event.data`. -/
theorem C6_event_fields (p : Ptrac) (u : Locals) (t b : Int) (st st1 : LoopState)
    (ev : PtracEvent) (toks : List Tok) (items rest : List Item)
    (hstart : (readSize p st.size1 st.s).2 = ⟨items, false, false⟩)
    (htoks : takeToks (allDataTypes p t).length items = some (toks, rest))
    (hwf : ∀ tk ∈ toks, tk.asReal ≠ none)
    (hev : eventBody p u t b st = Res.ok (ev, st1)) :
    (∃ sf : Stream, sf.items = rest ∧ sf.failbit = false ∧
        st1.s = (readSize p st.size2 sf).2) ∧
    (∀ (i : Nat) (id : Int) (tk : Tok),
        (allDataTypes p t)[i]? = some id → toks[i]? = some tk →
        (∀ j : Nat, i < j → (allDataTypes p t)[j]? ≠ some id) →
        (id = Ptrac.NEXT_EVENT_TYPE → tk.asReal = some st1.next_event_type) ∧
        (10 ≤ id ∧ id ≤ 30 → mapGet id ev.m_data = tk.asReal)) ∧
    (Ptrac.NEXT_EVENT_TYPE ∉ allDataTypes p t → st1.next_event_type = (t : ℚ)) ∧
    (∀ id : Int, (id ∉ allDataTypes p t ∨ ¬ (10 ≤ id ∧ id ≤ 30)) →
        mapGet id ev.m_data = none) := by
  obtain ⟨sf, hsf1, hsf2, hrun⟩ := eventFields_run p.m_format u.tmp (allDataTypes p t) toks
    items rest { m_type := t, m_bnktype := b, m_data := [] } (t : ℚ) htoks hwf
  unfold eventBody at hev
  simp only at hev
  rw [hstart, hrun] at hev
  simp only at hev
  split_ifs at hev with hne
  simp only [Res.ok.injEq, Prod.mk.injEq] at hev
  obtain ⟨hev1, hev2⟩ := hev
  subst hev1; subst hev2
  refine ⟨⟨sf, hsf1, hsf2, rfl⟩, ?_, ?_, ?_⟩
  · intro i id tk hL ht hlast
    have hreal : tk.asReal = some (tk.asReal.getD 0) := by
      obtain ⟨q, hq⟩ := Option.ne_none_iff_exists'.1 (hwf tk (List.getElem?_mem ht))
      rw [hq]; rfl
    constructor
    · intro h7
      have := eventAssignAll_last id tk (Or.inl h7) (allDataTypes p t) toks
        { m_type := t, m_bnktype := b, m_data := [] } (t : ℚ) i hL ht hlast
      rw [hreal]
      simp only [eventView, if_pos h7, Option.some.injEq] at this
      simp only [this]
    · intro hr
      have hs := (storedIds_iff id).2 hr
      have h7 : id ≠ Ptrac.NEXT_EVENT_TYPE := by
        intro h; rw [h] at hr; simp only [Ptrac.NEXT_EVENT_TYPE] at hr; omega
      have := eventAssignAll_last id tk (Or.inr hs) (allDataTypes p t) toks
        { m_type := t, m_bnktype := b, m_data := [] } (t : ℚ) i hL ht hlast
      rw [hreal]
      simp only [eventView, if_neg h7] at this
      exact this
  · intro h7
    have := eventAssignAll_absent Ptrac.NEXT_EVENT_TYPE (allDataTypes p t) toks
      { m_type := t, m_bnktype := b, m_data := [] } (t : ℚ) (Or.inl h7)
    simpa [eventView] using this
  · intro id hid
    have := eventAssignAll_data id (allDataTypes p t) toks
      { m_type := t, m_bnktype := b, m_data := [] } (t : ℚ)
      (hid.imp (fun h => h) (fun h hs => h ((storedIds_iff id).1 hs)))
    simpa [mapGet] using this

/-- C6 as stated fails: identifier 1 (`NPS`) in an event layout consumes its
value 5 and stores nothing, so `event.data` has no binding for it. -/
theorem C6_counterexample :
    ReadHistory 2 (exHeader PtracFormat.ASC_PTRAC [1, 2] [1, 7]) exLocals
        (exStream [Item.tok (Tok.int 1), Item.tok (Tok.int 1000), Item.nl,
          Item.tok (Tok.int 5), Item.tok (Tok.int 9000), Item.nl]) =
      Res.ok ({ m_nps := ⟨1, 0, 0, 0, 0⟩, m_events := [⟨1000, 0, []⟩] }, exStream []) ∧
    allDataTypes (exHeader PtracFormat.ASC_PTRAC [1, 2] [1, 7]) 1000 = [Ptrac.NPS, 7] ∧
    mapGet Ptrac.NPS [] ≠ some 5 := by
  refine ⟨by rfl, by rfl, by simp [mapGet]⟩

/-- C6 (amended) at the event line `1.23 4.56 9000` of layout `[10, 22, 7]`. -/
theorem C6_event_fields_witness :
    (∃ sf : Stream, sf.items = [Item.nl] ∧ sf.failbit = false ∧
        exStream [Item.nl] = (readSize exSrcHeader exSrcState.size2 sf).2) ∧
    (∀ (i : Nat) (id : Int) (tk : Tok),
        (allDataTypes exSrcHeader 1000)[i]? = some id → exSrcToks[i]? = some tk →
        (∀ j : Nat, i < j → (allDataTypes exSrcHeader 1000)[j]? ≠ some id) →
        (id = Ptrac.NEXT_EVENT_TYPE → tk.asReal = some 9000) ∧
        (10 ≤ id ∧ id ≤ 30 →
          mapGet id [(10, (1.23 : ℚ)), (22, (4.56 : ℚ))] = tk.asReal)) ∧
    (Ptrac.NEXT_EVENT_TYPE ∉ allDataTypes exSrcHeader 1000 → (9000 : ℚ) = ((1000 : Int) : ℚ)) ∧
    (∀ id : Int, (id ∉ allDataTypes exSrcHeader 1000 ∨ ¬ (10 ≤ id ∧ id ≤ 30)) →
        mapGet id [(10, (1.23 : ℚ)), (22, (4.56 : ℚ))] = none) :=
  C6_event_fields exSrcHeader exLocals 1000 0 exSrcState
    { size1 := 0, size2 := 0, next_event_type := 9000, s := exStream [Item.nl] }
    ⟨1000, 0, [(10, 1.23), (22, 4.56)]⟩ exSrcToks (exSrcToks.map Item.tok ++ [Item.nl])
    [Item.nl] (by rfl) (by rfl)
    (by simp [exSrcToks, Tok.real, Tok.int]) (by rfl)

/-! ### Event layouts without `NEXT_EVENT_TYPE`, and codes that never end the loop -/

theorem eventStore_next (id : Int) (q : Dbl) (ev : PtracEvent) (nx : Dbl)
    (h7 : id ≠ Ptrac.NEXT_EVENT_TYPE) : (eventStore id q ev nx).2 = nx := by
  unfold eventStore
  split_ifs <;> simp_all

theorem eventFields_next_absent (fmt : PtracFormat) (tmp0 : Dbl) (L : List Int)
    (h7 : Ptrac.NEXT_EVENT_TYPE ∉ L) :
    ∀ (ev : PtracEvent) (nx : Dbl) (s : Stream),
      (eventFields fmt tmp0 L ev nx s).2.1 = nx := by
  induction L with
  | nil => intro ev nx s; simp [eventFields]
  | cons id rest ih =>
    intro ev nx s
    simp only [eventFields]
    have hid : id ≠ Ptrac.NEXT_EVENT_TYPE := fun h => h7 (by rw [h]; exact List.mem_cons_self _ _)
    rw [ih (fun h => h7 (List.mem_cons_of_mem _ h))]
    exact eventStore_next id _ ev nx hid

theorem eventBody_next_absent (p : Ptrac) (u : Locals) (t b : Int) (st : LoopState)
    (h7 : Ptrac.NEXT_EVENT_TYPE ∉ allDataTypes p t) (ev : PtracEvent) (st1 : LoopState)
    (h : eventBody p u t b st = Res.ok (ev, st1)) : st1.next_event_type = (t : ℚ) := by
  unfold eventBody at h
  simp only at h
  split_ifs at h with hne
  simp only [Res.ok.injEq, Prod.mk.injEq] at h
  rw [← h.2]
  exact eventFields_next_absent p.m_format u.tmp (allDataTypes p t) h7 _ _ _

theorem eventLoop_no_next (p : Ptrac) (u : Locals) (T : Int) (h0 : 0 ≤ T) (h1 : T < 2 ^ 31)
    (hd : (1000 : Int) ∣ T) (hl : T ≠ Ptrac.LST)
    (h7 : Ptrac.NEXT_EVENT_TYPE ∉ allDataTypes p T) :
    ∀ (fuel : Nat) (st : LoopState) (events : List PtracEvent),
      st.next_event_type = (T : ℚ) →
      ∀ r, eventLoop p u fuel st events ≠ Res.ok r := by
  intro fuel
  induction fuel with
  | zero => intro st events _ r; simp [eventLoop]
  | succ n ih =>
    intro st events hst r
    have hdec := decodeNext_multiple T h0 h1 hd hl
    rw [← hst] at hdec
    simp only [eventLoop, hdec]
    cases hb : eventBody p u T 0 st with
    | ok a =>
      obtain ⟨ev, st1⟩ := a
      simp only
      exact ih st1 (events ++ [ev]) (eventBody_next_absent p u T 0 st h7 ev st1 hb) r
    | exn => simp
    | ub => simp
    | oof => simp

theorem eventLoop_small (p : Ptrac) (u : Locals) (c : Int) (hc : |c| < 1000)
    (fuel : Nat) (st : LoopState) (events : List PtracEvent)
    (hst : castInt st.next_event_type = some c) :
    ∀ r, eventLoop p u fuel st events ≠ Res.ok r := by
  intro r
  cases fuel with
  | zero => simp [eventLoop]
  | succ n =>
    have hlt := abs_lt.mp hc
    have hdec : decodeNext st.next_event_type = some (some (0, |c|)) := by
      have h9 : c ≠ Ptrac.LST := by simp only [Ptrac.LST]; omega
      have hmin : c ≠ -2147483648 := by omega
      have habs : ((c.natAbs : Int)) = |c| := Int.natCast_natAbs c
      have hmod : (|c|).tmod 1000 = |c| := by
        rw [Int.tmod_eq_emod (abs_nonneg c) (by norm_num)]
        exact Int.emod_eq_of_lt (abs_nonneg c) hc
      simp [decodeNext, hst, h9, absInt, hmin, habs, hmod]
    simp only [eventLoop, hdec]
    have hp : (0 : Int) ∉ primaryTypes := by decide
    cases hb : eventBody p u 0 |c| st with
    | ok a =>
      obtain ⟨ev, st1⟩ := a
      simp only
      exact eventLoop_stuck p u 0 (le_refl 0) (by norm_num) (dvd_zero _) (by decide) n st1
        (events ++ [ev]) (eventBody_other p u 0 |c| st hp ev st1 hb) r
    | exn => simp
    | ub => simp
    | oof => simp

/-! ### C7 -/

/-- C7 as stated fails: with `src1 = [NODE, X, Y]` the value 9000 of the event
line is stored under `Y`, the next-event code stays 1000, and `ReadHistory`
returns for no amount of fuel, whatever the uninitialised locals hold. -/
theorem C7_counterexample :
    ¬ ∃ (u : Locals) (fuel : Nat) (h : PtracHistory) (s1 : Stream),
      ReadHistory fuel exSrcHeaderY u exBody = Res.ok (h, s1) := by
  rintro ⟨u, fuel, h, s1, hret⟩
  have hnps : npsFields exSrcHeaderY.m_format (exSrcHeaderY.m_nument "nps").toNat
      (exSrcHeaderY.datent "nps") u.nps u.next_event_type
      (readSize exSrcHeaderY u.size1 exBody).2 =
      NpsLine.done { u.nps with m_nps := 1 } 1000
        (exStream [Item.nl, Item.tok (Tok.real 1.23), Item.tok (Tok.real 4.56),
          Item.tok (Tok.int 9000), Item.nl]) := by rfl
  rcases ReadHistory_ok fuel _ u _ s1 h hret with ⟨hbad, _⟩ |
    ⟨nps, nx, s2, st, evs, s3, hd, hnx, _, hloop, _, _⟩
  · rw [hnps] at hbad; simp at hbad
  · rw [hnps] at hd
    simp only [NpsLine.done.injEq] at hd
    have hst : st.next_event_type = ((1000 : Int) : ℚ) := by rw [hnx, ← hd.2.1]; norm_num
    exact eventLoop_no_next exSrcHeaderY u 1000 (by norm_num) (by norm_num) (by norm_num)
      (by decide) (by decide) fuel st [] hst (evs, s3) hloop

theorem readSize_asc (p : Ptrac) (cur : Int) (s : Stream)
    (hfmt : p.m_format = PtracFormat.ASC_PTRAC) : readSize p cur s = (cur, s) := by
  simp [readSize, hfmt]

theorem ReadHistory_asc (fuel : Nat) (p : Ptrac) (u : Locals) (s s2 s3 : Stream)
    (nps : PtracNps) (nx : Dbl) (evs : List PtracEvent)
    (hfmt : p.m_format = PtracFormat.ASC_PTRAC)
    (hnps : npsFields p.m_format (p.m_nument "nps").toNat (p.datent "nps") u.nps
      u.next_event_type s = NpsLine.done nps nx s2)
    (hloop : eventLoop p u fuel
      { size1 := u.size1, size2 := u.size2, next_event_type := nx, s := s2 } [] =
        Res.ok (evs, s3)) :
    ReadHistory fuel p u s = Res.ok ({ m_nps := nps, m_events := evs }, getline s3) := by
  unfold ReadHistory
  simp only [readSize_asc p _ _ hfmt, hnps, hloop]
  simp [hfmt]

theorem eventLoop_step (p : Ptrac) (u : Locals) (fuel : Nat) (st st1 : LoopState)
    (events : List PtracEvent) (t b : Int) (ev : PtracEvent)
    (hdec : decodeNext st.next_event_type = some (some (t, b)))
    (hbody : eventBody p u t b st = Res.ok (ev, st1)) :
    eventLoop p u (fuel + 1) st events = eventLoop p u fuel st1 (events ++ [ev]) := by
  simp only [eventLoop, hdec, hbody]

theorem eventLoop_stop (p : Ptrac) (u : Locals) (fuel : Nat) (st : LoopState)
    (events : List PtracEvent) (hdec : decodeNext st.next_event_type = some none) :
    eventLoop p u (fuel + 1) st events = Res.ok (events, st.s) := by
  simp only [eventLoop, hdec]

/-- C7 (amended): with `src1 = [NODE, X, NEXT_EVENT_TYPE]` the body of scenario 1
decodes to one history with `nps.nps = 1` and exactly one event, of type SRC,
with data `NODE: 1.23, X: 4.56`, as soon as the fuel allows two tests of the
loop condition. -/
theorem C7_scenario_one (u : Locals) (fuel : Nat) :
    ReadHistory (fuel + 2) exSrcHeader u exBody =
      Res.ok ({ m_nps := { u.nps with m_nps := 1 },
                m_events := [{ m_type := Ptrac.SRC, m_bnktype := 0,
                               m_data := [(Ptrac.NODE, 1.23), (Ptrac.X, 4.56)] }] },
              exStream []) := by
  have hnps : npsFields exSrcHeader.m_format (exSrcHeader.m_nument "nps").toNat
      (exSrcHeader.datent "nps") u.nps u.next_event_type exBody =
      NpsLine.done { u.nps with m_nps := 1 } 1000
        (exStream [Item.nl, Item.tok (Tok.real 1.23), Item.tok (Tok.real 4.56),
          Item.tok (Tok.int 9000), Item.nl]) := by rfl
  have hdec1 : decodeNext (1000 : ℚ) = some (some (1000, 0)) := by decide
  have hdec2 : decodeNext (9000 : ℚ) = some none := by decide
  have hbody : eventBody exSrcHeader u 1000 0
      { size1 := u.size1, size2 := u.size2, next_event_type := 1000,
        s := exStream [Item.nl, Item.tok (Tok.real 1.23), Item.tok (Tok.real 4.56),
          Item.tok (Tok.int 9000), Item.nl] } =
      Res.ok ({ m_type := Ptrac.SRC, m_bnktype := 0,
                m_data := [(Ptrac.NODE, 1.23), (Ptrac.X, 4.56)] },
              { size1 := u.size1, size2 := u.size2, next_event_type := 9000,
                s := exStream [Item.nl] }) := by rfl
  have hloop : eventLoop exSrcHeader u (fuel + 2)
      { size1 := u.size1, size2 := u.size2, next_event_type := 1000,
        s := exStream [Item.nl, Item.tok (Tok.real 1.23), Item.tok (Tok.real 4.56),
          Item.tok (Tok.int 9000), Item.nl] } [] =
      Res.ok ([{ m_type := Ptrac.SRC, m_bnktype := 0,
                 m_data := [(Ptrac.NODE, 1.23), (Ptrac.X, 4.56)] }], exStream [Item.nl]) := by
    rw [eventLoop_step exSrcHeader u (fuel + 1) _ _ [] 1000 0 _ hdec1 hbody,
      eventLoop_stop exSrcHeader u fuel _ _ hdec2]
    rfl
  exact ReadHistory_asc (fuel + 2) exSrcHeader u exBody _ _ _ _ _ rfl hnps hloop

/-! ### A stream that goes bad on the NPS line -/

theorem npsFields_prefix (fmt : PtracFormat) :
    ∀ (L1 : List Int) (toks : List Tok) (items rest : List Item) (m : Nat) (L2 : List Int)
      (nps : PtracNps) (nx : Dbl),
      takeToks L1.length items = some (toks, rest) →
      List.Forall₂ npsWellFormed L1 toks →
      (L1 ≠ [] → fmt ≠ PtracFormat.BIN_PTRAC → rest ≠ []) →
      npsFields fmt (L1.length + m) (L1 ++ L2) nps nx ⟨items, false, false⟩ =
        npsFields fmt m L2 (npsAssignAll L1 toks nps nx).1 (npsAssignAll L1 toks nps nx).2
          ⟨rest, false, false⟩ := by
  intro L1
  induction L1 with
  | nil =>
    intro toks items rest m L2 nps nx ht _ _
    simp only [List.length_nil, takeToks, Option.some.injEq, Prod.mk.injEq] at ht
    simp [npsAssignAll, ht.2]
  | cons f L ih =>
    intro toks items rest m L2 nps nx ht hwf hmore
    obtain ⟨t, r, ts, hn, htr, hts⟩ := takeToks_succ L.length items toks rest ht
    subst hts
    have hwf1 : npsWellFormed f t := by cases hwf; assumption
    have hwf2 : List.Forall₂ npsWellFormed L ts := by cases hwf; assumption
    have hmore2 : fmt ≠ PtracFormat.BIN_PTRAC → rest ≠ [] := hmore (List.cons_ne_nil _ _)
    have hr : (decide (fmt ≠ PtracFormat.BIN_PTRAC) && r.isEmpty) = false := by
      by_cases hb : fmt = PtracFormat.BIN_PTRAC
      · simp [hb]
      · have := takeToks_nonempty L.length r ts rest htr (hmore2 hb)
        cases r with
        | nil => exact absurd rfl this
        | cons a b => simp
    have hlen : (f :: L).length + m = (L.length + m) + 1 := by simp; omega
    rw [hlen, List.cons_append]
    simp only [npsFields]
    by_cases hv : f = Ptrac.VALUE
    · unfold npsWellFormed at hwf1
      rw [if_pos hv] at hwf1
      obtain ⟨q, hq⟩ := Option.ne_none_iff_exists'.1 hwf1
      have he := extract_some fmt Tok.asReal 0 items r t q hn hq
      rw [hr] at he
      simp only [if_pos hv, ReadValueDouble, he, Stream.good, Bool.not_false, Bool.and_self,
        if_true]
      rw [ih ts r rest m L2 _ _ htr hwf2 (fun _ => hmore2)]
      simp [npsAssignAll, npsAssign, hv, hq]
    · unfold npsWellFormed at hwf1
      rw [if_neg hv] at hwf1
      obtain ⟨q, hq⟩ := Option.ne_none_iff_exists'.1 hwf1
      have he := extract_some fmt (pickInt 64) 0 items r t q hn hq
      rw [hr] at he
      simp only [if_neg hv, ReadValueInt64, he, Stream.good, Bool.not_false, Bool.and_self,
        if_true]
      rw [ih ts r rest m L2 _ _ htr hwf2 (fun _ => hmore2)]
      simp [npsAssignAll, npsAssign, hv, hq]

theorem npsFields_fail (fmt : PtracFormat) (m : Nat) (f : Int) (L2 : List Int)
    (nps : PtracNps) (nx : Dbl) (s : Stream)
    (hfail : (if f = Ptrac.VALUE then (ReadValueDouble fmt s).2
      else (ReadValueInt64 fmt s).2).good = false) :
    npsFields fmt (m + 1) (f :: L2) nps nx s =
      NpsLine.bad (if f = Ptrac.VALUE then (ReadValueDouble fmt s).2
        else (ReadValueInt64 fmt s).2) := by
  simp only [npsFields]
  by_cases hv : f = Ptrac.VALUE
  · simp only [if_pos hv] at hfail ⊢
    simp [hfail]
  · simp only [if_neg hv] at hfail ⊢
    simp [hfail]

theorem ReadHistory_of_bad (fuel : Nat) (p : Ptrac) (u : Locals) (s s1 : Stream)
    (hbad : npsFields p.m_format (p.m_nument "nps").toNat (p.datent "nps") u.nps
      u.next_event_type (readSize p u.size1 s).2 = NpsLine.bad s1) :
    ReadHistory fuel p u s = Res.ok ({ m_nps := u.hist_nps, m_events := [] }, s1) := by
  unfold ReadHistory
  simp only [hbad]

/-! ### C8 -/

/-- C8 (amended): when the fields at positions `0..k-1` of the NPS line are read
from a good stream and the read of the field at position `k` leaves the stream
not good, `ReadHistory` returns, without raising, the history it constructed on
entry: the event list is empty and the nps record is the default-constructed
one, so none of the values read is carried. -/
theorem C8_bad_stream (fuel : Nat) (p : Ptrac) (u : Locals) (s : Stream) (L1 : List Int)
    (f : Int) (L2 : List Int) (toks : List Tok) (items rest : List Item)
    (hL : p.datent "nps" = L1 ++ f :: L2)
    (hcount : p.m_nument "nps" = ((L1 ++ f :: L2).length : Int))
    (hstart : (readSize p u.size1 s).2 = ⟨items, false, false⟩)
    (htoks : takeToks L1.length items = some (toks, rest))
    (hwf : List.Forall₂ npsWellFormed L1 toks)
    (hmore : L1 ≠ [] → p.m_format ≠ PtracFormat.BIN_PTRAC → rest ≠ [])
    (hfail : (if f = Ptrac.VALUE then (ReadValueDouble p.m_format ⟨rest, false, false⟩).2
      else (ReadValueInt64 p.m_format ⟨rest, false, false⟩).2).good = false) :
    ReadHistory fuel p u s =
      Res.ok ({ m_nps := u.hist_nps, m_events := [] },
        if f = Ptrac.VALUE then (ReadValueDouble p.m_format ⟨rest, false, false⟩).2
        else (ReadValueInt64 p.m_format ⟨rest, false, false⟩).2) := by
  apply ReadHistory_of_bad
  have hn : (p.m_nument "nps").toNat = L1.length + (L2.length + 1) := by
    rw [hcount, Int.toNat_ofNat]; simp
  rw [hL, hn, hstart, npsFields_prefix p.m_format L1 toks items rest (L2.length + 1) (f :: L2)
    u.nps u.next_event_type htoks hwf hmore]
  exact npsFields_fail p.m_format L2.length f L2 _ _ _ hfail

/-- C8 (amended) at the NPS line `7` cut off in front of the event code. -/
theorem C8_bad_stream_witness :
    ReadHistory 5 (exHeader PtracFormat.ASC_PTRAC [1, 2] [10, 22, 7]) exLocals
        (exStream [Item.tok (Tok.int 7), Item.nl]) =
      Res.ok ({ m_nps := exLocals.hist_nps, m_events := [] },
        if (2 : Int) = Ptrac.VALUE then
          (ReadValueDouble PtracFormat.ASC_PTRAC ⟨[Item.nl], false, false⟩).2
        else (ReadValueInt64 PtracFormat.ASC_PTRAC ⟨[Item.nl], false, false⟩).2) :=
  C8_bad_stream 5 (exHeader PtracFormat.ASC_PTRAC [1, 2] [10, 22, 7]) exLocals
    (exStream [Item.tok (Tok.int 7), Item.nl]) [1] 2 [] [Tok.int 7]
    [Item.tok (Tok.int 7), Item.nl] [Item.nl] (by rfl) (by rfl) (by rfl) (by rfl)
    (List.Forall₂.cons (by simp [npsWellFormed, Tok.int, pickInt, inRange, Ptrac.VALUE])
      List.Forall₂.nil)
    (fun _ _ => by simp) (by rfl)

/-- C8 as stated fails: whatever the default-constructed record holds, the
history returned after the NPS line `7` (or `8`) was cut off does not carry
the value read for `NPS` in both cases. -/
theorem C8_counterexample :
    ¬ ∃ u : Locals,
      (∀ h s1, ReadHistory 0 (exHeader PtracFormat.ASC_PTRAC [1, 2] [10, 22, 7]) u
          (exStream [Item.tok (Tok.int 7), Item.nl]) = Res.ok (h, s1) → h.m_nps.m_nps = 7) ∧
      (∀ h s1, ReadHistory 0 (exHeader PtracFormat.ASC_PTRAC [1, 2] [10, 22, 7]) u
          (exStream [Item.tok (Tok.int 8), Item.nl]) = Res.ok (h, s1) → h.m_nps.m_nps = 8) := by
  rintro ⟨u, h7, h8⟩
  have e7 := h7 _ _ (ReadHistory_of_bad 0 (exHeader PtracFormat.ASC_PTRAC [1, 2] [10, 22, 7]) u
    (exStream [Item.tok (Tok.int 7), Item.nl]) ⟨[], true, true⟩ (by rfl))
  have e8 := h8 _ _ (ReadHistory_of_bad 0 (exHeader PtracFormat.ASC_PTRAC [1, 2] [10, 22, 7]) u
    (exStream [Item.tok (Tok.int 8), Item.nl]) ⟨[], true, true⟩ (by rfl))
  simp only at e7 e8
  omega

/-! ### Runs that never finish in ASCII format -/

theorem eventBody_asc_ok (p : Ptrac) (u : Locals) (t b : Int) (st : LoopState)
    (hfmt : p.m_format = PtracFormat.ASC_PTRAC) :
    ∃ ev st1, eventBody p u t b st = Res.ok (ev, st1) := by
  rcases eventBody_cases p u t b st with ⟨ev, st1, h, _, _⟩ | ⟨hb, _⟩
  · exact ⟨ev, st1, h⟩
  · rw [hfmt] at hb; exact absurd hb (by decide)

theorem eventLoop_zero_asc (p : Ptrac) (u : Locals)
    (hfmt : p.m_format = PtracFormat.ASC_PTRAC) :
    ∀ (fuel : Nat) (st : LoopState) (events : List PtracEvent),
      st.next_event_type = ((0 : Int) : ℚ) → eventLoop p u fuel st events = Res.oof := by
  intro fuel
  induction fuel with
  | zero => intro st events _; rfl
  | succ n ih =>
    intro st events hst
    have hdec : decodeNext st.next_event_type = some (some (0, 0)) := by
      rw [hst]; decide
    obtain ⟨ev, st1, hb⟩ := eventBody_asc_ok p u 0 0 st hfmt
    rw [eventLoop_step p u n st st1 events 0 0 ev hdec hb]
    exact ih st1 _ (eventBody_other p u 0 0 st (by decide) ev st1 hb)

theorem eventLoop_small_asc (p : Ptrac) (u : Locals)
    (hfmt : p.m_format = PtracFormat.ASC_PTRAC) (c : Int) (hc : |c| < 1000)
    (fuel : Nat) (st : LoopState) (events : List PtracEvent)
    (hst : castInt st.next_event_type = some c) :
    eventLoop p u fuel st events = Res.oof := by
  cases fuel with
  | zero => rfl
  | succ n =>
    have hlt := abs_lt.mp hc
    have hdec : decodeNext st.next_event_type = some (some (0, |c|)) := by
      have h9 : c ≠ Ptrac.LST := by simp only [Ptrac.LST]; omega
      have hmin : c ≠ -2147483648 := by omega
      have habs : ((c.natAbs : Int)) = |c| := Int.natCast_natAbs c
      have hmod : (|c|).tmod 1000 = |c| := by
        rw [Int.tmod_eq_emod (abs_nonneg c) (by norm_num)]
        exact Int.emod_eq_of_lt (abs_nonneg c) hc
      simp [decodeNext, hst, h9, absInt, hmin, habs, hmod]
    obtain ⟨ev, st1, hb⟩ := eventBody_asc_ok p u 0 |c| st hfmt
    rw [eventLoop_step p u n st st1 events 0 |c| ev hdec hb]
    exact eventLoop_zero_asc p u hfmt n st1 _ (eventBody_other p u 0 |c| st (by decide) ev st1 hb)

theorem ReadHistory_asc_oof (fuel : Nat) (p : Ptrac) (u : Locals) (s s2 : Stream)
    (nps : PtracNps) (nx : Dbl)
    (hfmt : p.m_format = PtracFormat.ASC_PTRAC)
    (hnps : npsFields p.m_format (p.m_nument "nps").toNat (p.datent "nps") u.nps
      u.next_event_type s = NpsLine.done nps nx s2)
    (hloop : eventLoop p u fuel
      { size1 := u.size1, size2 := u.size2, next_event_type := nx, s := s2 } [] = Res.oof) :
    ReadHistory fuel p u s = Res.oof := by
  unfold ReadHistory
  simp only [readSize_asc p _ _ hfmt, hnps, hloop]
  simp [hfmt]

/-! ### C9 -/

/-- C9 fails on the code: on the body of scenario 1 cut off in front of the
next-event code, the third read of the event fails, the uninitialised `tmp`
becomes the next-event code, and when its truncation `c` satisfies `|c| < 1000`
neither `ReadHistory` nor `ReadHistoriesLegacy(100)` finishes for any fuel. -/
theorem C9_truncated_history (u : Locals) (c : Int) (fuel : Nat)
    (hc : castInt u.tmp = some c) (hsmall : |c| < 1000) :
    ReadHistory fuel exSrcHeader u exTruncated = Res.oof ∧
      ReadHistoriesLegacy fuel exSrcHeader u 100 exTruncated = Res.oof := by
  have hnps : npsFields exSrcHeader.m_format (exSrcHeader.m_nument "nps").toNat
      (exSrcHeader.datent "nps") u.nps u.next_event_type exTruncated =
      NpsLine.done { u.nps with m_nps := 1 } 1000
        (exStream [Item.nl, Item.tok (Tok.real 1.23), Item.tok (Tok.real 4.56)]) := by rfl
  have hdec1 : decodeNext (1000 : ℚ) = some (some (1000, 0)) := by decide
  have hbody : eventBody exSrcHeader u 1000 0
      { size1 := u.size1, size2 := u.size2, next_event_type := 1000,
        s := exStream [Item.nl, Item.tok (Tok.real 1.23), Item.tok (Tok.real 4.56)] } =
      Res.ok ({ m_type := Ptrac.SRC, m_bnktype := 0,
                m_data := [(Ptrac.NODE, 1.23), (Ptrac.X, 4.56)] },
              { size1 := u.size1, size2 := u.size2, next_event_type := u.tmp,
                s := ⟨[], true, true⟩ }) := by rfl
  have hloop : eventLoop exSrcHeader u fuel
      { size1 := u.size1, size2 := u.size2, next_event_type := 1000,
        s := exStream [Item.nl, Item.tok (Tok.real 1.23), Item.tok (Tok.real 4.56)] } [] =
      Res.oof := by
    cases fuel with
    | zero => rfl
    | succ n =>
      rw [eventLoop_step exSrcHeader u n _ _ [] 1000 0 _ hdec1 hbody]
      exact eventLoop_small_asc exSrcHeader u rfl c hsmall n _ _ hc
  have hrh := ReadHistory_asc_oof fuel exSrcHeader u exTruncated _ _ _ rfl hnps hloop
  refine ⟨hrh, ?_⟩
  have hpeek : peek exTruncated = exTruncated := by rfl
  simp only [ReadHistoriesLegacy, legacyLoop, hpeek, hrh]
  rfl

/-- C9 with all locals at zero and fuel 1000. -/
theorem C9_truncated_history_witness :
    ReadHistory 1000 exSrcHeader exLocals exTruncated = Res.oof ∧
      ReadHistoriesLegacy 1000 exSrcHeader exLocals 100 exTruncated = Res.oof :=
  C9_truncated_history exLocals 0 1000 (by decide) (by decide)

/-! ### The batch loop -/

theorem legacyLoop_spec (fuel : Nat) (p : Ptrac) (u : Locals) :
    ∀ (n : Nat) (acc : List PtracHistory) (s : Stream) (res : List PtracHistory) (s1 : Stream),
      legacyLoop fuel p u n acc s = Res.ok (res, s1) ↔
        ∃ hs s3, res = acc ++ hs ∧ Successive fuel p u s hs s3 ∧
          ((hs.length = n ∧ s1 = s3) ∨
            (hs.length < n ∧ (peek s3).eof = true ∧ s1 = peek s3)) := by
  intro n
  induction n with
  | zero =>
    intro acc s res s1
    simp only [legacyLoop, Res.ok.injEq, Prod.mk.injEq]
    constructor
    · rintro ⟨h1, h2⟩
      exact ⟨[], s, by simp [h1], Successive.nil s, Or.inl ⟨rfl, h2.symm⟩⟩
    · rintro ⟨hs, s3, hres, hsucc, hcase⟩
      rcases hcase with ⟨hlen, hs1⟩ | ⟨hlen, _, _⟩
      · have hnil : hs = [] := List.length_eq_zero.1 hlen
        subst hnil
        cases hsucc
        exact ⟨by simp [hres], hs1.symm⟩
      · omega
  | succ n ih =>
    intro acc s res s1
    simp only [legacyLoop]
    by_cases heof : (peek s).eof = true
    · simp only [heof, Bool.not_true, Bool.false_eq_true, if_false, Res.ok.injEq,
        Prod.mk.injEq]
      constructor
      · rintro ⟨h1, h2⟩
        exact ⟨[], s, by simp [h1], Successive.nil s,
          Or.inr ⟨by simp, heof, h2.symm⟩⟩
      · rintro ⟨hs, s3, hres, hsucc, hcase⟩
        cases hsucc with
        | nil =>
          rcases hcase with ⟨hlen, _⟩ | ⟨_, _, hs1⟩
          · simp at hlen
          · exact ⟨by simp [hres], hs1.symm⟩
        | cons _ s2 _ h hs2 hne _ _ => rw [heof] at hne; exact absurd hne (by simp)
    · have heof2 : (peek s).eof = false := by simpa using heof
      simp only [heof2, Bool.not_false, if_true]
      cases hrh : ReadHistory fuel p u (peek s) with
      | ok a =>
        obtain ⟨h, s2⟩ := a
        simp only
        rw [ih (acc ++ [h]) s2 res s1]
        constructor
        · rintro ⟨hs, s3, hres, hsucc, hcase⟩
          refine ⟨h :: hs, s3, by simp [hres], Successive.cons s s2 s3 h hs heof2 hrh hsucc, ?_⟩
          rcases hcase with ⟨hlen, hs1⟩ | ⟨hlen, he, hs1⟩
          · exact Or.inl ⟨by simp [hlen], hs1⟩
          · exact Or.inr ⟨by simp; omega, he, hs1⟩
        · rintro ⟨hs, s3, hres, hsucc, hcase⟩
          cases hsucc with
          | nil =>
            rcases hcase with ⟨hlen, _⟩ | ⟨_, he, _⟩
            · simp at hlen
            · rw [heof2] at he; exact absurd he (by simp)
          | cons _ s2b _ hb hs2 _ hrb hsb =>
            rw [hrh] at hrb
            simp only [Res.ok.injEq, Prod.mk.injEq] at hrb
            obtain ⟨e1, e2⟩ := hrb
            subst e1; subst e2
            refine ⟨hs2, s3, by simp [hres], hsb, ?_⟩
            rcases hcase with ⟨hlen, hs1⟩ | ⟨hlen, he, hs1⟩
            · exact Or.inl ⟨by simpa using hlen, hs1⟩
            · exact Or.inr ⟨by simp at hlen; omega, he, hs1⟩
      | exn =>
        simp only [false_iff, reduceCtorEq]
        rintro ⟨hs, s3, _, hsucc, hcase⟩
        cases hsucc with
        | nil =>
          rcases hcase with ⟨hlen, _⟩ | ⟨_, he, _⟩
          · simp at hlen
          · rw [heof2] at he; exact absurd he (by simp)
        | cons _ s2b _ hb hs2 _ hrb _ => rw [hrh] at hrb; simp at hrb
      | ub =>
        simp only [false_iff, reduceCtorEq]
        rintro ⟨hs, s3, _, hsucc, hcase⟩
        cases hsucc with
        | nil =>
          rcases hcase with ⟨hlen, _⟩ | ⟨_, he, _⟩
          · simp at hlen
          · rw [heof2] at he; exact absurd he (by simp)
        | cons _ s2b _ hb hs2 _ hrb _ => rw [hrh] at hrb; simp at hrb
      | oof =>
        simp only [false_iff, reduceCtorEq]
        rintro ⟨hs, s3, _, hsucc, hcase⟩
        cases hsucc with
        | nil =>
          rcases hcase with ⟨hlen, _⟩ | ⟨_, he, _⟩
          · simp at hlen
          · rw [heof2] at he; exact absurd he (by simp)
        | cons _ s2b _ hb hs2 _ hrb _ => rw [hrh] at hrb; simp at hrb

/-! ### C10 -/

/-- C10: for the ASCII and binary formats, `ReadHistories(n)` returns the list
`hs` exactly when `hs` has at most `n` elements and is, in file order, the
results of successive `ReadHistory` calls on the stream, the sequence ending
either with the `n`-th history or at the first `peek` that finds the end of
the file. -/
theorem C10_read_histories (hdf5 : Nat → Stream → Res (List PtracHistory × Stream))
    (fuel : Nat) (p : Ptrac) (u : Locals) (n : Nat) (s s1 : Stream) (hs : List PtracHistory)
    (hfmt : p.m_format ≠ PtracFormat.HDF5_PTRAC) :
    ReadHistories hdf5 fuel p u n s = Res.ok (hs, s1) ↔
      hs.length ≤ n ∧ ∃ s3, Successive fuel p u s hs s3 ∧
        ((hs.length = n ∧ s1 = s3) ∨
          (hs.length < n ∧ (peek s3).eof = true ∧ s1 = peek s3)) := by
  simp only [ReadHistories, if_neg hfmt, ReadHistoriesLegacy]
  rw [legacyLoop_spec fuel p u n [] s hs s1]
  constructor
  · rintro ⟨hs2, s3, hres, hsucc, hcase⟩
    simp only [List.nil_append] at hres
    subst hres
    refine ⟨?_, s3, hsucc, hcase⟩
    rcases hcase with ⟨hlen, _⟩ | ⟨hlen, _, _⟩ <;> omega
  · rintro ⟨_, s3, hsucc, hcase⟩
    exact ⟨hs, s3, by simp, hsucc, hcase⟩

/-- C10 at `ReadHistories(100)` on the body of scenario 1: one history. -/
theorem C10_read_histories_witness :
    ReadHistories (fun _ _ => Res.exn) 5 exSrcHeader exLocals 100 exBody =
        Res.ok ([{ m_nps := ⟨1, 0, 0, 0, 0⟩,
                   m_events := [⟨1000, 0, [(10, 1.23), (22, 4.56)]⟩] }],
                ⟨[], true, false⟩) ∧
      ([({ m_nps := ⟨1, 0, 0, 0, 0⟩,
           m_events := [⟨1000, 0, [(10, 1.23), (22, 4.56)]⟩] } : PtracHistory)].length ≤ 100 ∧
        ∃ s3, Successive 5 exSrcHeader exLocals exBody
            [{ m_nps := ⟨1, 0, 0, 0, 0⟩,
               m_events := [⟨1000, 0, [(10, 1.23), (22, 4.56)]⟩] }] s3 ∧
          (([({ m_nps := ⟨1, 0, 0, 0, 0⟩,
                m_events := [⟨1000, 0, [(10, 1.23), (22, 4.56)]⟩] } : PtracHistory)].length = 100 ∧
              (⟨[], true, false⟩ : Stream) = s3) ∨
            ([({ m_nps := ⟨1, 0, 0, 0, 0⟩,
                 m_events := [⟨1000, 0, [(10, 1.23), (22, 4.56)]⟩] } : PtracHistory)].length < 100 ∧
              (peek s3).eof = true ∧ (⟨[], true, false⟩ : Stream) = peek s3))) :=
  ⟨by rfl, (C10_read_histories (fun _ _ => Res.exn) 5 exSrcHeader exLocals 100 exBody
    ⟨[], true, false⟩ _ (by decide)).1 (by rfl)⟩


/-! ### End of file and the batch loop -/

theorem peek_eof (s : Stream) : (peek s).eof = s.atEof := by
  unfold peek Stream.eof Stream.atEof Stream.good
  cases he : s.eofbit <;> cases hf : s.failbit <;> cases hi : s.items <;> simp [he, hf, hi]

/-! ### C11 -/

/-- C11: for `n ≥ 1` and the ASCII and binary formats, `ReadHistories(n)` returns
the empty list exactly when the stream is at end-of-file at the call, that is
when `eofbit` is set or the stream is in no error state and holds no further
byte; in that case it does return, with the empty list. For a stream whose
state bits agree with its content this is the case where no byte is left. -/
theorem C11_empty_iff_eof (hdf5 : Nat → Stream → Res (List PtracHistory × Stream))
    (fuel : Nat) (p : Ptrac) (u : Locals) (n : Nat) (s : Stream)
    (hfmt : p.m_format ≠ PtracFormat.HDF5_PTRAC) :
    (∀ s1, ReadHistories hdf5 fuel p u (n + 1) s = Res.ok ([], s1) → s.atEof = true) ∧
    (s.atEof = true → ReadHistories hdf5 fuel p u (n + 1) s = Res.ok ([], peek s)) ∧
    (s.atEof = true ↔ s.eofbit = true ∨ (s.failbit = false ∧ s.items = [])) ∧
    ((s.eofbit = true → s.items = []) → (s.items = [] → s.failbit = true → s.eofbit = true) →
      (s.atEof = true ↔ s.items = [])) := by
  simp only [ReadHistories, if_neg hfmt, ReadHistoriesLegacy]
  refine ⟨?_, ?_, ?_, ?_⟩
  · intro s1 h
    rw [legacyLoop_spec] at h
    obtain ⟨hs, s3, hres, hsucc, hcase⟩ := h
    simp only [List.nil_append] at hres
    subst hres
    cases hsucc
    rcases hcase with ⟨hlen, _⟩ | ⟨_, he, _⟩
    · simp at hlen
    · rw [← peek_eof]; exact he
  · intro h
    rw [← peek_eof] at h
    simp [legacyLoop, h]
  · unfold Stream.atEof
    cases he : s.eofbit <;> cases hf : s.failbit <;> cases hi : s.items <;> simp
  · intro h1 h2
    unfold Stream.atEof
    cases he : s.eofbit <;> cases hf : s.failbit <;> cases hi : s.items <;>
      simp_all

/-- C11 at `ReadHistories(100)` on an exhausted stream. -/
theorem C11_empty_iff_eof_witness :
    (∀ s1, ReadHistories (fun _ _ => Res.exn) 5 exSrcHeader exLocals (99 + 1) (exStream []) =
        Res.ok ([], s1) → (exStream []).atEof = true) ∧
    ((exStream []).atEof = true →
      ReadHistories (fun _ _ => Res.exn) 5 exSrcHeader exLocals (99 + 1) (exStream []) =
        Res.ok ([], peek (exStream []))) ∧
    ((exStream []).atEof = true ↔
      (exStream []).eofbit = true ∨ ((exStream []).failbit = false ∧ (exStream []).items = [])) ∧
    (((exStream []).eofbit = true → (exStream []).items = []) →
      ((exStream []).items = [] → (exStream []).failbit = true → (exStream []).eofbit = true) →
      ((exStream []).atEof = true ↔ (exStream []).items = [])) :=
  C11_empty_iff_eof (fun _ _ => Res.exn) 5 exSrcHeader exLocals 99 (exStream []) (by decide)

theorem legacyLoop_last (fuel : Nat) (p : Ptrac) (u : Locals) (n : Nat)
    (retval : List PtracHistory) (s s1 : Stream) (h : PtracHistory)
    (hpeek : (peek s).eof = false) (hrh : ReadHistory fuel p u (peek s) = Res.ok (h, s1))
    (heof : s1.eofbit = true) :
    legacyLoop fuel p u (n + 1) retval s =
      Res.ok (retval ++ [h], if n = 0 then s1 else peek s1) := by
  have hp : (peek s1).eof = true := by rw [peek_eof]; simp [Stream.atEof, heof]
  cases n with
  | zero => simp [legacyLoop, hpeek, hrh]
  | succ m => simp [legacyLoop, hpeek, hrh, hp]

/-! ### C12 -/

/-- C12 (amended): when a `ReadHistory` call made by the batch loop returns with
`eofbit` set on the stream, as the early return on an end-of-file on the NPS
line does, the history it returned is the last element of the list: the
next `peek` finds the end of the file and the loop stops. -/
theorem C12_stops_at_eof (hdf5 : Nat → Stream → Res (List PtracHistory × Stream))
    (fuel : Nat) (p : Ptrac) (u : Locals) (n : Nat) (s s1 : Stream) (h : PtracHistory)
    (hfmt : p.m_format ≠ PtracFormat.HDF5_PTRAC)
    (hpeek : (peek s).eof = false) (hrh : ReadHistory fuel p u (peek s) = Res.ok (h, s1))
    (heof : s1.eofbit = true) :
    ReadHistories hdf5 fuel p u (n + 1) s = Res.ok ([h], if n = 0 then s1 else peek s1) ∧
    ∀ retval, legacyLoop fuel p u (n + 1) retval s =
      Res.ok (retval ++ [h], if n = 0 then s1 else peek s1) := by
  refine ⟨?_, fun retval => legacyLoop_last fuel p u n retval s s1 h hpeek hrh heof⟩
  simp only [ReadHistories, if_neg hfmt, ReadHistoriesLegacy]
  simpa using legacyLoop_last fuel p u n [] s s1 h hpeek hrh heof

/-- C12 (amended) at `ReadHistories(100)` on the NPS line `7` cut off by the end of
the file. -/
theorem C12_stops_at_eof_witness :
    ReadHistories (fun _ _ => Res.exn) 5 exSrcHeader exLocals (99 + 1)
        (exStream [Item.tok (Tok.int 7), Item.nl]) =
      Res.ok ([{ m_nps := exLocals.hist_nps, m_events := [] }],
        if 99 = 0 then (⟨[], true, true⟩ : Stream) else peek ⟨[], true, true⟩) ∧
    ∀ retval, legacyLoop 5 exSrcHeader exLocals (99 + 1) retval
        (exStream [Item.tok (Tok.int 7), Item.nl]) =
      Res.ok (retval ++ [{ m_nps := exLocals.hist_nps, m_events := [] }],
        if 99 = 0 then (⟨[], true, true⟩ : Stream) else peek ⟨[], true, true⟩) :=
  C12_stops_at_eof (fun _ _ => Res.exn) 5 exSrcHeader exLocals 99
    (exStream [Item.tok (Tok.int 7), Item.nl]) ⟨[], true, true⟩
    { m_nps := exLocals.hist_nps, m_events := [] } (by decide) (by rfl) (by rfl) rfl

/-- C12 as stated fails: after the malformed token of the NPS line `1 abc` only
`failbit` is set, `peek` does not report end-of-file, and `ReadHistories(3)`
appends two more histories after the first one. -/
theorem C12_counterexample :
    ReadHistories (fun _ _ => Res.exn) 5 exSrcHeader exLocals 3 exMalformed =
      Res.ok ([{ m_nps := exLocals.hist_nps, m_events := [] },
               { m_nps := exLocals.hist_nps, m_events := [] },
               { m_nps := exLocals.hist_nps, m_events := [] }],
        ⟨[Item.tok Tok.bad, Item.nl], false, true⟩) := by
  rfl

/-! ## Properties of the header parser -/

/-! ### C16 -/

/-- An exception raised by a step is the result of the chain. -/
theorem HRes.bind_exn {α β : Type} (x : HRes α) (f : α → HRes β) (h : x = HRes.exn) :
    x.bind f = HRes.exn := by
  rw [h]; rfl

/-- A rejected version record makes the binary header parser throw. -/
theorem ReadHeaderBinary_version_exn (fuel : Nat) (assertOn : Bool) (hl : HeaderLocals)
    (fsize : Int) (s : Stream) (h : binVersionRecord hl fsize s = HRes.exn) :
    ReadHeaderBinary fuel assertOn hl fsize s = HRes.exn := by
  unfold ReadHeaderBinary
  exact HRes.bind_exn _ _ h

/-- C16: the binary version record is accepted exactly when its leading marker
is 4 and smaller than the file size, its trailing marker is 4 and the integer
between them is -1; then the parser goes on behind the record, and in every
other case `ReadHeader` throws. -/
theorem C16_version_record (hl : HeaderLocals) (fsize size1 m_version size2 : Int)
    (s s1 s2 s3 : Stream)
    (h1 : readInt PtracFormat.BIN_PTRAC 32 hl.size1 s = (size1, s1))
    (h2 : readInt PtracFormat.BIN_PTRAC 32 hl.m_version s1 = (m_version, s2))
    (h3 : readInt PtracFormat.BIN_PTRAC 32 hl.size2 s2 = (size2, s3)) :
    ((size1 = 4 ∧ 4 < fsize ∧ size2 = 4 ∧ m_version = -1) →
      binVersionRecord hl fsize s =
        HRes.ok (-1, { size1 := 4, size2 := 4, s := s3 })) ∧
    (¬ (size1 = 4 ∧ 4 < fsize ∧ size2 = 4 ∧ m_version = -1) →
      binVersionRecord hl fsize s = HRes.exn ∧
      ∀ (fuel : Nat) (assertOn : Bool) (pro : Prologue),
        ReadHeader fuel assertOn hl PtracFormat.BIN_PTRAC fsize pro s = HRes.exn) := by
  constructor
  · rintro ⟨e1, hf, e2, ev⟩
    subst e1; subst e2; subst ev
    unfold binVersionRecord
    simp only [h1, h2, h3]
    simp [hf]
  · intro hn
    have hexn : binVersionRecord hl fsize s = HRes.exn := by
      unfold binVersionRecord
      simp only [h1, h2, h3]
      by_cases hc : fsize ≤ size1 ∨ size1 ≠ 4
      · simp [hc]
      · rw [if_neg hc]
        have hc2 : size1 ≠ size2 ∨ m_version ≠ -1 := by
          by_contra hcon
          apply hn
          have e1 : size1 = 4 := by omega
          refine ⟨e1, by omega, by omega, by omega⟩
        simp [hc2]
    refine ⟨hexn, fun fuel assertOn pro => ?_⟩
    simp only [ReadHeader, if_true]
    exact ReadHeaderBinary_version_exn fuel assertOn hl fsize s hexn

/-- C16 at the record `4, -1, 4` of a file of 1000 bytes. -/
theorem C16_version_record_witness :
    (((4 : Int) = 4 ∧ (4 : Int) < 1000 ∧ (4 : Int) = 4 ∧ (-1 : Int) = -1) →
      binVersionRecord exHL 1000 (wordStream [4, -1, 4, 40]) =
        HRes.ok (-1, { size1 := 4, size2 := 4, s := wordStream [40] })) ∧
    (¬ ((4 : Int) = 4 ∧ (4 : Int) < 1000 ∧ (4 : Int) = 4 ∧ (-1 : Int) = -1) →
      binVersionRecord exHL 1000 (wordStream [4, -1, 4, 40]) = HRes.exn ∧
      ∀ (fuel : Nat) (assertOn : Bool) (pro : Prologue),
        ReadHeader fuel assertOn exHL PtracFormat.BIN_PTRAC 1000 pro
          (wordStream [4, -1, 4, 40]) = HRes.exn) :=
  C16_version_record exHL 1000 4 (-1) 4 (wordStream [4, -1, 4, 40]) (wordStream [-1, 4, 40])
    (wordStream [4, 40]) (wordStream [40]) (by rfl) (by rfl) (by rfl)

/-! ### C17 -/

/-- Reading the data types returns unless a count needs more than 32 bits. -/
theorem readDataTypes_cases (fmt : PtracFormat) (junk : Int) (nument : String → Int) :
    ∀ (tags : List String) (datent : String → List Int) (s : Stream),
      readDataTypes fmt junk nument tags datent s = HRes.oof ∨
        ∃ r, readDataTypes fmt junk nument tags datent s = HRes.ok r := by
  intro tags
  induction tags with
  | nil => intro datent s; exact Or.inr ⟨_, rfl⟩
  | cons tag tags ih =>
    intro datent s
    simp only [readDataTypes]
    by_cases h : (2 : Int) ^ 32 ≤ nument tag
    · rw [if_pos h]; exact Or.inl rfl
    · rw [if_neg h]; exact ih _ _

/-- The numbers and data-type lines either exhaust the counter or return. -/
theorem asciiTables_cases (hl : HeaderLocals) (s : Stream) :
    asciiTables hl s = HRes.oof ∨
      ∃ p s1, asciiTables hl s = HRes.ok (p, s1) ∧ p.m_format = PtracFormat.ASC_PTRAC := by
  unfold asciiTables
  split
  rename_i nums s1 hn
  rcases readDataTypes_cases PtracFormat.ASC_PTRAC hl.dtype (mkNument nums) Ptrac.m_lines
    (fun _ => []) s1 with h | ⟨⟨datent, s2⟩, h⟩
  · left; rw [h]
  · right; rw [h]; exact ⟨_, _, rfl, rfl⟩

/-- Reading `n` reals yields `n` values, whatever the stream holds. -/
theorem readDoubles_length (fmt : PtracFormat) :
    ∀ (n : Nat) (cur : Dbl) (s : Stream), (readDoubles fmt n cur s).1.length = n := by
  intro n
  induction n with
  | zero => intro cur s; rfl
  | succ n ih =>
    intro cur s
    simp only [readDoubles, List.length_cons]
    rw [ih]

/-- The keyword lines yield 9 values, or 19 when `nkw` is at least 3. -/
theorem asciiKeywords_cases (hl : HeaderLocals) (s : Stream) :
    asciiKeywords hl s = HRes.ub ∨
      ∃ nkw kwent s1, asciiKeywords hl s = HRes.ok (nkw, kwent, s1) ∧
        ((nkw < 3 ∧ kwent.length = 9) ∨ (3 ≤ nkw ∧ kwent.length = 19)) := by
  unfold asciiKeywords
  split
  rename_i r s1 he
  split
  · left; rfl
  · rename_i nkw hc
    right
    split
    rename_i kw1 tmp1 s2 h1
    have hl1 := readDoubles_length PtracFormat.ASC_PTRAC 9 (r.getD hl.tmp) s1
    rw [h1] at hl1
    split
    · rename_i h3
      split
      rename_i kw2 tmp2 s3 h2
      have hl2 := readDoubles_length PtracFormat.ASC_PTRAC 10 tmp1 s2
      rw [h2] at hl2
      exact ⟨nkw, _, _, rfl, Or.inr ⟨h3, by rw [List.length_append]; simp only [hl1, hl2]⟩⟩
    · rename_i h3
      exact ⟨nkw, _, _, rfl, Or.inl ⟨by omega, hl1⟩⟩

/-- The ASCII header parser never throws: it returns the banner fields, or the
run has no defined result. -/
theorem ReadHeaderAscii_cases (hl : HeaderLocals) (pro : Prologue) (s : Stream) :
    ReadHeaderAscii hl pro s = HRes.ub ∨ ReadHeaderAscii hl pro s = HRes.oof ∨
      ∃ p s1, ReadHeaderAscii hl pro s = HRes.ok (bannerInfo pro, p, s1) := by
  unfold ReadHeaderAscii asciiRaw
  rcases asciiKeywords_cases hl s with h | ⟨nkw, kwent, s1, h, _⟩
  · left; rw [h]
  · rw [h]
    simp only
    rcases asciiTables_cases hl
      (asciiSkip (bannerInfo pro).m_code nkw (line4Values pro) kwent s1) with
      h2 | ⟨p, s2, h2, _⟩
    · right; left; rw [h2]
    · right; right
      rw [h2]
      exact ⟨_, _, rfl⟩

/-- The ASCII header parser after its keyword lines: the skip, the tables and
the injection under the tally test. -/
theorem ReadHeaderAscii_eq (hl : HeaderLocals) (pro : Prologue) (s s1 : Stream) (nkw : Nat)
    (kwent : List Dbl) (hkw : asciiKeywords hl s = HRes.ok (nkw, kwent, s1)) :
    ReadHeaderAscii hl pro s =
      (asciiTables hl (asciiSkip (bannerInfo pro).m_code nkw (line4Values pro) kwent s1)).bind
        (fun x => HRes.ok (bannerInfo pro,
          if has_tally_filter kwent = true then tallyInjection x.1 else x.1, x.2)) := by
  unfold ReadHeaderAscii asciiRaw
  rw [hkw]
  dsimp only
  rcases asciiTables_cases hl
    (asciiSkip (bannerInfo pro).m_code nkw (line4Values pro) kwent s1) with h | ⟨p, s2, h, _⟩
  · rw [h]; rfl
  · rw [h]; rfl

/-- C17: the ASCII branch of `ReadHeader` never compares the version with -1:
a header whose first line is 5 is parsed, with `m_version = 5`, and no ASCII
header makes the parser throw; the version returned is the one on the first
line. -/
theorem C17_ascii_version_unchecked :
    headerView (ReadHeaderAscii exHL (exPrologue 5)
        (exAsciiHeader exKwPlain 3 [1, 2, 10, 22, 7])) =
      some (5, [(2, [1, 2]), (3, [10, 22, 7]), (0, []), (0, []), (0, []), (0, []), (0, []),
        (0, []), (0, []), (0, []), (0, [])]) ∧
    (∀ (hl : HeaderLocals) (pro : Prologue) (s : Stream),
      ReadHeaderAscii hl pro s ≠ HRes.exn ∧ ReadHeaderAscii hl pro s ≠ HRes.abort ∧
      ∀ info p s1, ReadHeaderAscii hl pro s = HRes.ok (info, p, s1) →
        info.m_version = pro.m_version) := by
  constructor
  · decide
  · intro hl pro s
    rcases ReadHeaderAscii_cases hl pro s with h | h | ⟨p, s1, h⟩
    · rw [h]; exact ⟨by simp, by simp, by simp⟩
    · rw [h]; exact ⟨by simp, by simp, by simp⟩
    · rw [h]
      refine ⟨by simp, by simp, ?_⟩
      intro info p2 s2 he
      simp only [HRes.ok.injEq, Prod.mk.injEq] at he
      rw [← he.1]
      unfold bannerInfo
      cases pro.line2 <;> rfl

/-! ### C13 -/

/-- Reading `n` integers yields `n` values, whatever the stream holds. -/
theorem readN_length (fmt : PtracFormat) (w : Nat) (junk : Int) :
    ∀ (n : Nat) (s : Stream), (readN fmt w junk n s).1.length = n := by
  intro n
  induction n with
  | zero => intro s; rfl
  | succ n ih =>
    intro s
    simp only [readN, List.length_cons]
    rw [ih]

/-- The data-type loops push `m_nument[tag]` identifiers onto the layout of each
tag they visit, none when the count is negative, and leave the other layouts. -/
theorem readDataTypes_length (fmt : PtracFormat) (junk : Int) (nument : String → Int) :
    ∀ (tags : List String) (datent : String → List Int) (s : Stream)
      (r : (String → List Int) × Stream),
      tags.Nodup → readDataTypes fmt junk nument tags datent s = HRes.ok r →
      ∀ k, (r.1 k).length = (datent k).length + if k ∈ tags then (nument k).toNat else 0 := by
  intro tags
  induction tags with
  | nil =>
    intro datent s r _ h k
    simp only [readDataTypes, HRes.ok.injEq] at h
    rw [← h]
    simp
  | cons tag tags ih =>
    intro datent s r hnd h k
    rw [List.nodup_cons] at hnd
    simp only [readDataTypes] at h
    by_cases hc : (2 : Int) ^ 32 ≤ nument tag
    · rw [if_pos hc] at h; exact absurd h (by simp)
    · rw [if_neg hc] at h
      have h2 := ih _ _ r hnd.2 h k
      rw [h2]
      by_cases hk : k = tag
      · subst hk
        simp only [if_true, List.length_append, readN_length, List.mem_cons, true_or,
          if_neg hnd.1]
        omega
      · simp only [if_neg hk, List.mem_cons, hk, false_or, if_false]

/-- The layout of a tag is the identifiers read at its turn when no later tag
has the same name. -/
theorem readDataTypes_other (fmt : PtracFormat) (junk : Int) (nument : String → Int) :
    ∀ (tags : List String) (datent : String → List Int) (s : Stream)
      (r : (String → List Int) × Stream),
      readDataTypes fmt junk nument tags datent s = HRes.ok r →
      ∀ k, k ∉ tags → r.1 k = datent k := by
  intro tags
  induction tags with
  | nil =>
    intro datent s r h k _
    simp only [readDataTypes, HRes.ok.injEq] at h
    rw [← h]
  | cons tag tags ih =>
    intro datent s r h k hk
    rw [List.mem_cons, not_or] at hk
    simp only [readDataTypes] at h
    by_cases hc : (2 : Int) ^ 32 ≤ nument tag
    · rw [if_pos hc] at h; exact absurd h (by simp)
    · rw [if_neg hc] at h
      rw [ih _ _ r h k hk.2, if_neg hk.1]

/-- The map `m_nument` gives 0 for a key that is not a line tag. -/
theorem mkNument_absent (vals : List Int) (k : String) (hk : k ∉ Ptrac.m_lines) :
    mkNument vals k = 0 := by
  unfold mkNument
  have : (Ptrac.m_lines.zip vals).lookup k = none := by
    rw [List.lookup_eq_none_iff]
    intro p hp
    have := (List.of_mem_zip hp).1
    simp only [bne_iff_ne, ne_eq]
    intro he
    exact hk (he ▸ this)
  rw [this]; rfl

/-- After the data-type loops every layout is as long as its count says, and
empty when the count is negative. -/
theorem tables_length (fmt : PtracFormat) (junk : Int) (nums : List Int) (s : Stream)
    (r : (String → List Int) × Stream)
    (h : readDataTypes fmt junk (mkNument nums) Ptrac.m_lines (fun _ => []) s = HRes.ok r) :
    ∀ k, (r.1 k).length = (mkNument nums k).toNat := by
  intro k
  rw [readDataTypes_length fmt junk (mkNument nums) Ptrac.m_lines (fun _ => []) s r
    (by decide) h k]
  by_cases hk : k ∈ Ptrac.m_lines
  · simp [hk]
  · simp [hk, mkNument_absent nums k hk]

/-- Inserting one element makes a vector longer by one. -/
theorem vecInsert_length (i : Nat) (x : Int) (L : List Int) :
    (vecInsert i x L).length = L.length + 1 := by
  unfold vecInsert
  simp only [List.length_append, List.length_take, List.length_cons, List.length_drop]
  omega

/-- The search for `x` fails when `x` does not occur. -/
theorem firstIndex_absent (x : Int) : ∀ L : List Int, x ∉ L → firstIndex x L = none := by
  intro L
  induction L with
  | nil => intro _; rfl
  | cons a L ih =>
    intro h
    rw [List.mem_cons, not_or] at h
    simp only [firstIndex]
    rw [if_neg (fun e => h.1 e.symm), ih h.2]
    rfl

/-- The search for `x` stops at its first occurrence. -/
theorem firstIndex_append (x : Int) (L2 : List Int) :
    ∀ L1 : List Int, x ∉ L1 → firstIndex x (L1 ++ x :: L2) = some L1.length := by
  intro L1
  induction L1 with
  | nil => intro _; simp [firstIndex]
  | cons a L ih =>
    intro h
    rw [List.mem_cons, not_or] at h
    rw [List.cons_append]
    simp only [firstIndex]
    rw [if_neg (fun e => h.1 e.symm), ih h.2]
    rfl

/-- A successful search shows that the vector is not empty. -/
theorem firstIndex_some (x : Int) (L : List Int) (i : Nat) (h : firstIndex x L = some i) :
    0 < L.length := by
  cases L with
  | nil => simp [firstIndex] at h
  | cons a L => simp

/-- The two insertions put 5 and 6 right behind the first 2. -/
theorem vecInsert_after (L1 L2 : List Int) :
    vecInsert (L1.length + 2) 6 (vecInsert (L1.length + 1) 5 (L1 ++ 2 :: L2)) =
      L1 ++ 2 :: 5 :: 6 :: L2 := by
  have e1 : vecInsert (L1.length + 1) 5 (L1 ++ 2 :: L2) = L1 ++ 2 :: 5 :: L2 := by
    unfold vecInsert
    have a1 : (L1 ++ 2 :: L2).take (L1.length + 1) = L1 ++ [2] := by
      rw [List.take_append]; simp
    have a2 : (L1 ++ 2 :: L2).drop (L1.length + 1) = L2 := by
      rw [List.drop_append]; simp
    rw [a1, a2]; simp
  rw [e1]
  unfold vecInsert
  have a1 : (L1 ++ 2 :: 5 :: L2).take (L1.length + 2) = L1 ++ [2, 5] := by
    rw [List.take_append]; simp
  have a2 : (L1 ++ 2 :: 5 :: L2).drop (L1.length + 2) = L2 := by
    rw [List.drop_append]; simp
  rw [a1, a2]; simp

/-- The injection does nothing when 5 is in the layout or 2 is not. -/
theorem tallyInjection_skip (p : Ptrac)
    (h : (5 : Int) ∈ p.m_datent "nps" ∨ (2 : Int) ∉ p.m_datent "nps") :
    tallyInjection p = p := by
  unfold tallyInjection
  by_cases h5 : (5 : Int) ∈ p.m_datent "nps"
  · rw [if_pos h5]
  · rw [if_neg h5]
    rcases h with h | h
    · exact absurd h h5
    · rw [firstIndex_absent 2 _ h]

/-- The injection when 5 is absent and the first 2 is behind `L1`. -/
theorem tallyInjection_run (p : Ptrac) (L1 L2 : List Int)
    (h5 : (5 : Int) ∉ p.m_datent "nps") (hL : p.m_datent "nps" = L1 ++ 2 :: L2)
    (h2 : (2 : Int) ∉ L1) :
    (tallyInjection p).m_datent "nps" = L1 ++ 2 :: 5 :: 6 :: L2 ∧
    (tallyInjection p).m_nument "nps" = p.m_nument "nps" + 2 ∧
    (tallyInjection p).m_format = p.m_format ∧
    ∀ k, k ≠ "nps" → (tallyInjection p).m_datent k = p.m_datent k ∧
      (tallyInjection p).m_nument k = p.m_nument k := by
  unfold tallyInjection
  rw [if_neg h5, hL, firstIndex_append 2 L2 L1 h2]
  refine ⟨?_, ?_, rfl, ?_⟩
  · simp only [if_true]
    exact vecInsert_after L1 L2
  · simp only [if_true]
  · intro k hk
    simp only [if_neg hk, and_self]

/-- The injection keeps every layout as long as its count says. -/
theorem tallyInjection_length (p : Ptrac)
    (h : ∀ k, (p.m_datent k).length = (p.m_nument k).toNat) :
    ∀ k, ((tallyInjection p).m_datent k).length = ((tallyInjection p).m_nument k).toNat := by
  unfold tallyInjection
  by_cases h5 : (5 : Int) ∈ p.m_datent "nps"
  · rw [if_pos h5]; exact h
  · rw [if_neg h5]
    cases hf : firstIndex 2 (p.m_datent "nps") with
    | none => exact h
    | some pos =>
      intro k
      by_cases hk : k = "nps"
      · subst hk
        simp only [if_true, vecInsert_length]
        have h0 := firstIndex_some 2 _ pos hf
        have h1 := h "nps"
        omega
      · simp only [if_neg hk]
        exact h k

/-- A chain that returns has a first step that returns. -/
theorem HRes.bind_ok {α β : Type} (x : HRes α) (f : α → HRes β) (b : β)
    (h : x.bind f = HRes.ok b) : ∃ a, x = HRes.ok a ∧ f a = HRes.ok b := by
  cases x with
  | ok a => exact ⟨a, rfl, h⟩
  | exn => exact absurd h (by simp [HRes.bind])
  | abort => exact absurd h (by simp [HRes.bind])
  | ub => exact absurd h (by simp [HRes.bind])
  | oof => exact absurd h (by simp [HRes.bind])

/-- The two maps that the numbers line and the data-type lines produce. -/
theorem asciiTables_ok (hl : HeaderLocals) (s s1 : Stream) (p : Ptrac)
    (h : asciiTables hl s = HRes.ok (p, s1)) :
    p.m_format = PtracFormat.ASC_PTRAC ∧
    p.m_nument = mkNument (readInts PtracFormat.ASC_PTRAC (numberVars hl) s).1 ∧
    readDataTypes PtracFormat.ASC_PTRAC hl.dtype p.m_nument Ptrac.m_lines (fun _ => [])
      (readInts PtracFormat.ASC_PTRAC (numberVars hl) s).2 = HRes.ok (p.m_datent, s1) := by
  unfold asciiTables at h
  split at h
  rename_i nums s0 hn
  rw [hn]
  split at h
  · rename_i datent s2 hd
    simp only [HRes.ok.injEq, Prod.mk.injEq] at h
    rw [← h.1, ← h.2]
    exact ⟨rfl, rfl, hd⟩
  · exact absurd h (by simp)
  · exact absurd h (by simp)
  · exact absurd h (by simp)
  · exact absurd h (by simp)

/-- What the ASCII branch has done when it reaches the injection. -/
theorem asciiRaw_ok (hl : HeaderLocals) (pro : Prologue) (s s1 : Stream) (ht : Bool)
    (info : HeaderInfo) (praw : Ptrac)
    (h : asciiRaw hl pro s = HRes.ok (ht, info, praw, s1)) :
    ∃ nkw kwent s0, asciiKeywords hl s = HRes.ok (nkw, kwent, s0) ∧
      ht = has_tally_filter kwent ∧ info = bannerInfo pro ∧
      asciiTables hl (asciiSkip (bannerInfo pro).m_code nkw (line4Values pro) kwent s0) =
        HRes.ok (praw, s1) := by
  unfold asciiRaw at h
  split at h
  · rename_i nkw kwent s0 hk
    split at h
    · rename_i p s2 hd
      simp only [HRes.ok.injEq, Prod.mk.injEq] at h
      refine ⟨nkw, kwent, s0, hk, h.1.symm, h.2.1.symm, ?_⟩
      rw [hd, h.2.2.1, h.2.2.2]
    · exact absurd h (by simp)
    · exact absurd h (by simp)
    · exact absurd h (by simp)
    · exact absurd h (by simp)
  · exact absurd h (by simp)
  · exact absurd h (by simp)
  · exact absurd h (by simp)
  · exact absurd h (by simp)

/-- The ASCII branch returns what it read, after the injection when the tally
test holds. -/
theorem ReadHeaderAscii_of_raw (hl : HeaderLocals) (pro : Prologue) (s s1 : Stream) (ht : Bool)
    (info : HeaderInfo) (praw : Ptrac)
    (h : asciiRaw hl pro s = HRes.ok (ht, info, praw, s1)) :
    ReadHeaderAscii hl pro s =
      HRes.ok (info, if ht = true then tallyInjection praw else praw, s1) := by
  unfold ReadHeaderAscii
  rw [h]

/-- A header that the ASCII branch returns comes from the maps read. -/
theorem ReadHeaderAscii_ok (hl : HeaderLocals) (pro : Prologue) (s s1 : Stream)
    (info : HeaderInfo) (p : Ptrac) (h : ReadHeaderAscii hl pro s = HRes.ok (info, p, s1)) :
    ∃ ht praw, asciiRaw hl pro s = HRes.ok (ht, info, praw, s1) ∧
      p = if ht = true then tallyInjection praw else praw := by
  unfold ReadHeaderAscii at h
  split at h
  · rename_i ht info0 praw s2 hr
    simp only [HRes.ok.injEq, Prod.mk.injEq] at h
    refine ⟨ht, praw, ?_, h.2.1.symm⟩
    rw [hr, h.1, h.2.2]
  · exact absurd h (by simp)
  · exact absurd h (by simp)
  · exact absurd h (by simp)
  · exact absurd h (by simp)

/-- The maps read by the ASCII branch have layouts as long as their counts. -/
theorem asciiRaw_length (hl : HeaderLocals) (pro : Prologue) (s s1 : Stream) (ht : Bool)
    (info : HeaderInfo) (praw : Ptrac)
    (h : asciiRaw hl pro s = HRes.ok (ht, info, praw, s1)) :
    ∀ k, (praw.m_datent k).length = (praw.m_nument k).toNat := by
  obtain ⟨nkw, kwent, s0, _, _, _, ht⟩ := asciiRaw_ok hl pro s s1 ht info praw h
  obtain ⟨_, hn, hd⟩ := asciiTables_ok hl _ s1 praw ht
  rw [hn] at hd ⊢
  exact tables_length _ _ _ _ _ hd

/-- The two maps of a header that the binary branch returns. -/
theorem ReadHeaderBinary_ok (fuel : Nat) (assertOn : Bool) (hl : HeaderLocals) (fsize : Int)
    (s s1 : Stream) (info : HeaderInfo) (p : Ptrac)
    (h : ReadHeaderBinary fuel assertOn hl fsize s = HRes.ok (info, p, s1)) :
    p.m_format = PtracFormat.BIN_PTRAC ∧
    ∃ nums s2 s3, p.m_nument = mkNument nums ∧
      readDataTypes PtracFormat.BIN_PTRAC hl.dtype p.m_nument Ptrac.m_lines (fun _ => []) s2 =
        HRes.ok (p.m_datent, s3) := by
  unfold ReadHeaderBinary at h
  obtain ⟨⟨v, st1⟩, _, h⟩ := HRes.bind_ok _ _ _ h
  obtain ⟨⟨code, st2⟩, _, h⟩ := HRes.bind_ok _ _ _ h
  obtain ⟨⟨com, st3⟩, _, h⟩ := HRes.bind_ok _ _ _ h
  obtain ⟨⟨nkw, kwent, st4⟩, _, h⟩ := HRes.bind_ok _ _ _ h
  obtain ⟨⟨nument, st5⟩, hn, h⟩ := HRes.bind_ok _ _ _ h
  obtain ⟨⟨datent, st6⟩, hd, h⟩ := HRes.bind_ok _ _ _ h
  simp only [HRes.ok.injEq, Prod.mk.injEq] at h
  rw [← h.2.1]
  refine ⟨rfl, ?_⟩
  unfold binNumbersRecord at hn
  split at hn
  rename_i size1 sa ha
  split at hn
  rename_i nums sb hb
  split at hn
  rename_i size2 sc hc
  split at hn
  · exact absurd hn (by simp)
  · simp only [HRes.ok.injEq, Prod.mk.injEq] at hn
    unfold binTypesRecord at hd
    split at hd
    rename_i size1b sd hd1
    split at hd
    · rename_i dat se hdt
      split at hd
      rename_i size2b sf hf
      split at hd
      · exact absurd hd (by simp)
      · simp only [HRes.ok.injEq, Prod.mk.injEq] at hd
        refine ⟨nums, sd, se, hn.1.symm, ?_⟩
        show readDataTypes PtracFormat.BIN_PTRAC hl.dtype nument Ptrac.m_lines (fun _ => []) sd =
          HRes.ok (datent, se)
        rw [hdt, hd.1]
    · exact absurd hd (by simp)
    · exact absurd hd (by simp)
    · exact absurd hd (by simp)
    · exact absurd hd (by simp)

/-- The layout of the first tag visited is the identifiers read at its turn
when no later tag has the same name. -/
theorem readDataTypes_head (fmt : PtracFormat) (junk : Int) (nument : String → Int)
    (tag : String) (tags : List String) (datent : String → List Int) (s : Stream)
    (r : (String → List Int) × Stream) (hn : tag ∉ tags)
    (h : readDataTypes fmt junk nument (tag :: tags) datent s = HRes.ok r) :
    r.1 tag = datent tag ++
      (readN fmt (if tag = "nps" then 64 else 32) junk (nument tag).toNat s).1 := by
  rw [readDataTypes] at h
  by_cases hc : (2 : Int) ^ 32 ≤ nument tag
  · rw [if_pos hc] at h; exact absurd h (by simp)
  · rw [if_neg hc] at h
    rw [readDataTypes_other _ _ _ _ _ _ r h tag hn]
    simp

/-- The layout of `nps` is made of the first `m_nument["nps"]` integers of the
data-type lines. -/
theorem tables_nps (fmt : PtracFormat) (junk : Int) (nument : String → Int) (s : Stream)
    (r : (String → List Int) × Stream)
    (h : readDataTypes fmt junk nument Ptrac.m_lines (fun _ => []) s = HRes.ok r) :
    r.1 "nps" = (readN fmt 64 junk (nument "nps").toNat s).1 := by
  have := readDataTypes_head fmt junk nument "nps" Ptrac.m_lines.tail (fun _ => []) s r
    (by decide) h
  rw [this]
  simp

/-- C13 (amended): in a header that `ReadHeader` returns, ASCII or binary and
also after the tally injection, the layout of every tag has as many
identifiers as the count says when the count is not negative, and is empty
when the count is negative. -/
theorem C13_layout_length (fuel : Nat) (assertOn : Bool) (hl : HeaderLocals)
    (fmt : PtracFormat) (fsize : Int) (pro : Prologue) (s s1 : Stream) (info : HeaderInfo)
    (p : Ptrac) (t : String)
    (h : ReadHeader fuel assertOn hl fmt fsize pro s = HRes.ok (info, p, s1)) :
    (p.m_datent t).length = (p.m_nument t).toNat ∧
    (0 ≤ p.m_nument t → ((p.m_datent t).length : Int) = p.m_nument t) ∧
    (p.m_nument t < 0 → p.m_datent t = []) := by
  have key : ∀ k, (p.m_datent k).length = (p.m_nument k).toNat := by
    unfold ReadHeader at h
    by_cases hf : fmt = PtracFormat.BIN_PTRAC
    · rw [if_pos hf] at h
      obtain ⟨_, nums, s2, s3, hn, hd⟩ := ReadHeaderBinary_ok fuel assertOn hl fsize s s1 info p h
      rw [hn] at hd ⊢
      exact tables_length _ _ _ _ _ hd
    · rw [if_neg hf] at h
      obtain ⟨ht, praw, hraw, hp⟩ := ReadHeaderAscii_ok hl pro s s1 info p h
      have hlen := asciiRaw_length hl pro s s1 ht info praw hraw
      rw [hp]
      by_cases hb : ht = true
      · rw [if_pos hb]; exact tallyInjection_length praw hlen
      · rw [if_neg hb]; exact hlen
  refine ⟨key t, fun h0 => ?_, fun h0 => ?_⟩
  · rw [key t]; exact Int.toNat_of_nonneg h0
  · apply List.eq_nil_of_length_eq_zero
    rw [key t]; omega

/-- C13 on the header of a file with a tally filter, at the tag `nps`, after
the injection. -/
theorem C13_layout_length_witness :
    ((headerOf (ReadHeaderAscii exHL (exPrologue (-1))
        (exAsciiHeader exKwTally 3 [1, 2, 10, 22, 7]))).m_datent "nps").length =
      ((headerOf (ReadHeaderAscii exHL (exPrologue (-1))
        (exAsciiHeader exKwTally 3 [1, 2, 10, 22, 7]))).m_nument "nps").toNat ∧
    (0 ≤ (headerOf (ReadHeaderAscii exHL (exPrologue (-1))
        (exAsciiHeader exKwTally 3 [1, 2, 10, 22, 7]))).m_nument "nps" →
      (((headerOf (ReadHeaderAscii exHL (exPrologue (-1))
        (exAsciiHeader exKwTally 3 [1, 2, 10, 22, 7]))).m_datent "nps").length : Int) =
      (headerOf (ReadHeaderAscii exHL (exPrologue (-1))
        (exAsciiHeader exKwTally 3 [1, 2, 10, 22, 7]))).m_nument "nps") ∧
    ((headerOf (ReadHeaderAscii exHL (exPrologue (-1))
        (exAsciiHeader exKwTally 3 [1, 2, 10, 22, 7]))).m_nument "nps" < 0 →
      (headerOf (ReadHeaderAscii exHL (exPrologue (-1))
        (exAsciiHeader exKwTally 3 [1, 2, 10, 22, 7]))).m_datent "nps" = []) :=
  C13_layout_length 0 true exHL PtracFormat.ASC_PTRAC 0 (exPrologue (-1))
    (exAsciiHeader exKwTally 3 [1, 2, 10, 22, 7]) (exStream [Item.nl])
    (bannerInfo (exPrologue (-1)))
    (headerOf (ReadHeaderAscii exHL (exPrologue (-1))
      (exAsciiHeader exKwTally 3 [1, 2, 10, 22, 7]))) "nps" (by rfl)

/-- C13 as stated fails: a numbers line that gives `src1` the count -1 yields
a header whose layout of `src1` is empty, of length 0 and not -1. -/
theorem C13_counterexample :
    ∃ info p s1,
      ReadHeader 0 true exHL PtracFormat.ASC_PTRAC 0 (exPrologue (-1))
        (exAsciiHeader exKwPlain (-1) [1, 2]) = HRes.ok (info, p, s1) ∧
      p.m_nument "src1" = -1 ∧ p.m_datent "src1" = [] ∧
      ((p.m_datent "src1").length : Int) ≠ p.m_nument "src1" :=
  ⟨bannerInfo (exPrologue (-1)),
    headerOf (ReadHeaderAscii exHL (exPrologue (-1)) (exAsciiHeader exKwPlain (-1) [1, 2])),
    exStream [Item.nl], by rfl, by rfl, by rfl, by decide⟩

/-! ### C14 -/

/-- C14 (amended): the layout of `nps` is what the data-type lines hold, there
is no check on it. When the layout read from an ASCII file begins with 1 and
2, the layout of the returned header begins with 1 and 2 as well: it is the
layout read, with 5 and 6 put behind the 2 when the tally test holds and 5
does not occur. -/
theorem C14_nps_prefix (hl : HeaderLocals) (pro : Prologue) (s s1 : Stream) (ht : Bool)
    (info : HeaderInfo) (praw : Ptrac) (rest : List Int)
    (hraw : asciiRaw hl pro s = HRes.ok (ht, info, praw, s1))
    (hL : praw.m_datent "nps" = 1 :: 2 :: rest) :
    ∃ p, ReadHeaderAscii hl pro s = HRes.ok (info, p, s1) ∧
      p.m_datent "nps" =
        (if ht = true ∧ (5 : Int) ∉ rest then 1 :: 2 :: 5 :: 6 :: rest else 1 :: 2 :: rest) ∧
      (p.m_datent "nps").take 2 = [1, 2] := by
  refine ⟨_, ReadHeaderAscii_of_raw hl pro s s1 ht info praw hraw, ?_⟩
  have hmain : (if ht = true then tallyInjection praw else praw).m_datent "nps" =
      (if ht = true ∧ (5 : Int) ∉ rest then 1 :: 2 :: 5 :: 6 :: rest else 1 :: 2 :: rest) := by
    by_cases hb : ht = true
    · rw [if_pos hb]
      by_cases h5 : (5 : Int) ∈ rest
      · rw [if_neg (fun hc => hc.2 h5)]
        rw [tallyInjection_skip praw (Or.inl (by rw [hL]; simp [h5])), hL]
      · rw [if_pos ⟨hb, h5⟩]
        have h5L : (5 : Int) ∉ praw.m_datent "nps" := by
          rw [hL]; simp [h5]
        exact (tallyInjection_run praw [1] rest h5L hL (by decide)).1
    · rw [if_neg hb, if_neg (fun hc => hb hc.1)]
      exact hL
  refine ⟨hmain, ?_⟩
  rw [hmain]
  split <;> rfl

/-- C14 on the header of a file with a tally filter whose data-type line for
`nps` holds 1 and 2. -/
theorem C14_nps_prefix_witness :
    ∃ p, ReadHeaderAscii exHL (exPrologue (-1))
        (exAsciiHeader exKwTally 3 [1, 2, 10, 22, 7]) =
        HRes.ok (bannerInfo (exPrologue (-1)), p, exStream [Item.nl]) ∧
      p.m_datent "nps" =
        (if true = true ∧ (5 : Int) ∉ ([] : List Int) then 1 :: 2 :: 5 :: 6 :: []
          else 1 :: 2 :: []) ∧
      (p.m_datent "nps").take 2 = [1, 2] :=
  C14_nps_prefix exHL (exPrologue (-1)) (exAsciiHeader exKwTally 3 [1, 2, 10, 22, 7])
    (exStream [Item.nl]) true (bannerInfo (exPrologue (-1)))
    (rawOf (asciiRaw exHL (exPrologue (-1)) (exAsciiHeader exKwTally 3 [1, 2, 10, 22, 7])))
    [] (by rfl) (by rfl)

/-- C14 as stated fails: a file whose data-type line for `nps` holds 2 then 1
yields a header whose layout of `nps` is `[2, 1]`. -/
theorem C14_counterexample :
    ∃ info p s1,
      ReadHeader 0 true exHL PtracFormat.ASC_PTRAC 0 (exPrologue (-1))
        (exAsciiHeader exKwPlain 3 [2, 1, 10, 22, 7]) = HRes.ok (info, p, s1) ∧
      p.m_datent "nps" = [2, 1] ∧ (p.m_datent "nps").getD 0 0 ≠ 1 :=
  ⟨bannerInfo (exPrologue (-1)),
    headerOf (ReadHeaderAscii exHL (exPrologue (-1))
      (exAsciiHeader exKwPlain 3 [2, 1, 10, 22, 7])),
    exStream [Item.nl], by rfl, by rfl, by decide⟩

/-! ### C15 -/

/-- C15 (amended): when the tally test holds and 5 does not occur in the
layout `L` of `nps` read from an ASCII file: if the first 2 of `L` is behind
`L1`, the returned layout is `L` with 5 and 6 put right behind that 2, the
count of `nps` is the count read plus 2, which is `|L| + 2`, and the other
layouts and counts are as read; if 2 does not occur in `L`, the header is
returned as read. -/
theorem C15_tally_injection (hl : HeaderLocals) (pro : Prologue) (s s1 : Stream)
    (info : HeaderInfo) (praw : Ptrac)
    (hraw : asciiRaw hl pro s = HRes.ok (true, info, praw, s1))
    (h5 : (5 : Int) ∉ praw.m_datent "nps") :
    (∀ L1 L2 : List Int, praw.m_datent "nps" = L1 ++ 2 :: L2 → (2 : Int) ∉ L1 →
      ∃ p, ReadHeaderAscii hl pro s = HRes.ok (info, p, s1) ∧
        p.m_datent "nps" = L1 ++ 2 :: 5 :: 6 :: L2 ∧
        p.m_nument "nps" = praw.m_nument "nps" + 2 ∧
        p.m_nument "nps" = ((L1 ++ 2 :: L2).length : Int) + 2 ∧
        ∀ k, k ≠ "nps" → p.m_datent k = praw.m_datent k ∧ p.m_nument k = praw.m_nument k) ∧
    ((2 : Int) ∉ praw.m_datent "nps" →
      ReadHeaderAscii hl pro s = HRes.ok (info, praw, s1)) := by
  have hR := ReadHeaderAscii_of_raw hl pro s s1 true info praw hraw
  rw [if_pos rfl] at hR
  constructor
  · intro L1 L2 hL h2
    obtain ⟨r1, r2, _, r4⟩ := tallyInjection_run praw L1 L2 h5 hL h2
    refine ⟨_, hR, r1, r2, ?_, r4⟩
    rw [r2]
    have hlen := asciiRaw_length hl pro s s1 true info praw hraw "nps"
    rw [hL] at hlen
    have hpos : 0 < (L1 ++ 2 :: L2).length := by simp
    omega
  · intro h2
    rw [hR, tallyInjection_skip praw (Or.inr h2)]

/-- C15 on the header of a file with a tally filter whose layout of `nps` is
`[1, 2]`. -/
theorem C15_tally_injection_witness :
    ∃ p, ReadHeaderAscii exHL (exPrologue (-1))
        (exAsciiHeader exKwTally 3 [1, 2, 10, 22, 7]) =
        HRes.ok (bannerInfo (exPrologue (-1)), p, exStream [Item.nl]) ∧
      p.m_datent "nps" = [1] ++ 2 :: 5 :: 6 :: [] ∧
      p.m_nument "nps" =
        (rawOf (asciiRaw exHL (exPrologue (-1))
          (exAsciiHeader exKwTally 3 [1, 2, 10, 22, 7]))).m_nument "nps" + 2 ∧
      p.m_nument "nps" = ((([1] : List Int) ++ 2 :: []).length : Int) + 2 ∧
      ∀ k, k ≠ "nps" →
        p.m_datent k = (rawOf (asciiRaw exHL (exPrologue (-1))
          (exAsciiHeader exKwTally 3 [1, 2, 10, 22, 7]))).m_datent k ∧
        p.m_nument k = (rawOf (asciiRaw exHL (exPrologue (-1))
          (exAsciiHeader exKwTally 3 [1, 2, 10, 22, 7]))).m_nument k :=
  (C15_tally_injection exHL (exPrologue (-1)) (exAsciiHeader exKwTally 3 [1, 2, 10, 22, 7])
    (exStream [Item.nl]) (bannerInfo (exPrologue (-1)))
    (rawOf (asciiRaw exHL (exPrologue (-1)) (exAsciiHeader exKwTally 3 [1, 2, 10, 22, 7])))
    (by rfl) (by decide)).1 [1] [] (by rfl) (by decide)

/-- C15 as stated fails: with a tally filter and the layout `[1, 7]`, which
holds neither 5 nor 2, nothing is inserted and the count of `nps` stays 2,
not `|L| + 2 = 4`. -/
theorem C15_counterexample :
    ∃ info praw p s1,
      asciiRaw exHL (exPrologue (-1)) (exAsciiHeader exKwTally 3 [1, 7, 10, 22, 7]) =
        HRes.ok (true, info, praw, s1) ∧
      praw.m_datent "nps" = [1, 7] ∧
      ReadHeaderAscii exHL (exPrologue (-1)) (exAsciiHeader exKwTally 3 [1, 7, 10, 22, 7]) =
        HRes.ok (info, p, s1) ∧
      p.m_datent "nps" = [1, 7] ∧ p.m_nument "nps" = 2 :=
  ⟨bannerInfo (exPrologue (-1)),
    rawOf (asciiRaw exHL (exPrologue (-1)) (exAsciiHeader exKwTally 3 [1, 7, 10, 22, 7])),
    headerOf (ReadHeaderAscii exHL (exPrologue (-1))
      (exAsciiHeader exKwTally 3 [1, 7, 10, 22, 7])),
    exStream [Item.nl], by rfl, by rfl, by rfl, by rfl, by rfl⟩

/-! ### C19 -/

/-- The tally test, spelled out. -/
theorem has_tally_filter_iff (kwent : List Dbl) :
    has_tally_filter kwent = true ↔
      (5 ≤ kwent.length ∧ 0 < kwent.getD 2 0 ∧ kwent.getD 3 0 < 0) ∨
        (10 ≤ kwent.length ∧ kwent.getD 9 0 < 0) := by
  unfold has_tally_filter
  simp only [Bool.or_eq_true, Bool.and_eq_true, decide_eq_true_eq]

/-- C19 (amended): on the keyword values `kw` that follow `nkw` in an ASCII
header, the tally test holds exactly when `kw[2] > 0` and `kw[3] < 0`, or
`nkw ≥ 3` (the vector then has 19 entries, else 9) and `kw[9] < 0`; the
injection is applied exactly when the test holds. -/
theorem C19_tally_detection (hl : HeaderLocals) (s s1 : Stream) (nkw : Nat)
    (kwent : List Dbl) (hkw : asciiKeywords hl s = HRes.ok (nkw, kwent, s1)) :
    (has_tally_filter kwent = true ↔
      (0 < kwent.getD 2 0 ∧ kwent.getD 3 0 < 0) ∨ (3 ≤ nkw ∧ kwent.getD 9 0 < 0)) ∧
    (10 ≤ kwent.length ↔ 3 ≤ nkw) ∧
    ∀ (pro : Prologue) (ht : Bool) (info : HeaderInfo) (praw : Ptrac) (s2 : Stream),
      asciiRaw hl pro s = HRes.ok (ht, info, praw, s2) →
        ht = has_tally_filter kwent ∧
        ReadHeaderAscii hl pro s =
          HRes.ok (info, if has_tally_filter kwent = true then tallyInjection praw else praw,
            s2) := by
  have hlen : (nkw < 3 ∧ kwent.length = 9) ∨ (3 ≤ nkw ∧ kwent.length = 19) := by
    rcases asciiKeywords_cases hl s with h | ⟨n, k, s0, h, hc⟩
    · rw [h] at hkw; exact absurd hkw (by simp)
    · rw [h] at hkw
      simp only [HRes.ok.injEq, Prod.mk.injEq] at hkw
      rw [← hkw.1, ← hkw.2.1]
      exact hc
  refine ⟨?_, ?_, ?_⟩
  · rw [has_tally_filter_iff]
    rcases hlen with ⟨h1, h2⟩ | ⟨h1, h2⟩
    · constructor
      · rintro (⟨_, a, b⟩ | ⟨a, _⟩)
        · exact Or.inl ⟨a, b⟩
        · omega
      · rintro (⟨a, b⟩ | ⟨a, _⟩)
        · exact Or.inl ⟨by omega, a, b⟩
        · omega
    · constructor
      · rintro (⟨_, a, b⟩ | ⟨_, b⟩)
        · exact Or.inl ⟨a, b⟩
        · exact Or.inr ⟨h1, b⟩
      · rintro (⟨a, b⟩ | ⟨_, b⟩)
        · exact Or.inl ⟨by omega, a, b⟩
        · exact Or.inr ⟨by omega, b⟩
  · omega
  · intro pro ht info praw s2 hraw
    obtain ⟨n, k, s0, hk, hht, _, _⟩ := asciiRaw_ok hl pro s s2 ht info praw hraw
    rw [hkw] at hk
    simp only [HRes.ok.injEq, Prod.mk.injEq] at hk
    rw [← hk.2.1] at hht
    refine ⟨hht, ?_⟩
    rw [ReadHeaderAscii_of_raw hl pro s s2 ht info praw hraw, hht]

/-- C19 on the keyword line `2 1 100 1 -2 0 0 0 0 0`. -/
theorem C19_tally_detection_witness :
    (has_tally_filter [1, 100, 1, -2, 0, 0, 0, 0, 0] = true ↔
      (0 < ([1, 100, 1, -2, 0, 0, 0, 0, 0] : List Dbl).getD 2 0 ∧
        ([1, 100, 1, -2, 0, 0, 0, 0, 0] : List Dbl).getD 3 0 < 0) ∨
      (3 ≤ 2 ∧ ([1, 100, 1, -2, 0, 0, 0, 0, 0] : List Dbl).getD 9 0 < 0)) ∧
    (10 ≤ ([1, 100, 1, -2, 0, 0, 0, 0, 0] : List Dbl).length ↔ 3 ≤ 2) ∧
    ∀ (pro : Prologue) (ht : Bool) (info : HeaderInfo) (praw : Ptrac) (s2 : Stream),
      asciiRaw exHL pro (exAsciiHeader exKwTally 3 [1, 2, 10, 22, 7]) =
          HRes.ok (ht, info, praw, s2) →
        ht = has_tally_filter [1, 100, 1, -2, 0, 0, 0, 0, 0] ∧
        ReadHeaderAscii exHL pro (exAsciiHeader exKwTally 3 [1, 2, 10, 22, 7]) =
          HRes.ok (info,
            if has_tally_filter [1, 100, 1, -2, 0, 0, 0, 0, 0] = true then tallyInjection praw
            else praw, s2) :=
  C19_tally_detection exHL (exAsciiHeader exKwTally 3 [1, 2, 10, 22, 7]) (exStream (Item.nl :: exTables)) 2
    [1, 100, 1, -2, 0, 0, 0, 0, 0] (by rfl)

/-- C19 as stated fails: the keyword values `1 100 0 -2 0 0 0 0 0` have
`kw[3] ≠ 0`, yet the tally test is false and the layout of `nps` is returned
as read, without 5 and 6. -/
theorem C19_counterexample :
    keywordView (asciiKeywords exHL (exAsciiHeader exKwThird 3 [1, 2, 10, 22, 7])) =
      some (2, [1, 100, 0, -2, 0, 0, 0, 0, 0]) ∧
    ([1, 100, 0, -2, 0, 0, 0, 0, 0] : List Dbl).getD 3 0 ≠ 0 ∧
    has_tally_filter [1, 100, 0, -2, 0, 0, 0, 0, 0] = false ∧
    ∃ info p s1,
      ReadHeaderAscii exHL (exPrologue (-1)) (exAsciiHeader exKwThird 3 [1, 2, 10, 22, 7]) =
        HRes.ok (info, p, s1) ∧ p.m_datent "nps" = [1, 2] ∧ p.m_nument "nps" = 2 :=
  ⟨by rfl, by decide, by rfl,
    bannerInfo (exPrologue (-1)),
    headerOf (ReadHeaderAscii exHL (exPrologue (-1))
      (exAsciiHeader exKwThird 3 [1, 2, 10, 22, 7])),
    exStream [Item.nl], by rfl, by rfl, by rfl⟩

/-! ### C20 -/

/-- C20 (amended): for an ASCII header whose keyword values have `kw[3] = 0`,
and `kw[9] ≥ 0` when there is a second keyword line, the tally test is false
and nothing is injected; the parser skips one line of ten floats in front of
the numbers line exactly when the fourth line of the file has `line4[4] > 0`
or `line4[7] > 0`. The value `kw[1]` is not consulted. -/
theorem C20_event_filter_skip (hl : HeaderLocals) (pro : Prologue) (s s1 : Stream) (nkw : Nat)
    (kwent : List Dbl) (hkw : asciiKeywords hl s = HRes.ok (nkw, kwent, s1))
    (h3 : kwent.getD 3 0 = 0) (h9 : nkw < 3 ∨ 0 ≤ kwent.getD 9 0) :
    has_tally_filter kwent = false ∧
    asciiSkip (bannerInfo pro).m_code nkw (line4Values pro) kwent s1 =
      (if has_event_filter (line4Values pro) = true ∨
          has_filter_keyword (line4Values pro) = true
        then skipDoubles PtracFormat.ASC_PTRAC 10 s1 else s1) ∧
    ReadHeaderAscii hl pro s =
      (asciiTables hl
        (if has_event_filter (line4Values pro) = true ∨
            has_filter_keyword (line4Values pro) = true
          then skipDoubles PtracFormat.ASC_PTRAC 10 s1 else s1)).bind
        (fun x => HRes.ok (bannerInfo pro, x.1, x.2)) := by
  have hlen : (nkw < 3 ∧ kwent.length = 9) ∨ (3 ≤ nkw ∧ kwent.length = 19) := by
    rcases asciiKeywords_cases hl s with h | ⟨n, k, s0, h, hc⟩
    · rw [h] at hkw; exact absurd hkw (by simp)
    · rw [h] at hkw
      simp only [HRes.ok.injEq, Prod.mk.injEq] at hkw
      rw [← hkw.1, ← hkw.2.1]
      exact hc
  have htally : has_tally_filter kwent = false := by
    rw [← Bool.not_eq_true, has_tally_filter_iff]
    rintro (⟨_, _, b⟩ | ⟨a, b⟩)
    · rw [h3] at b; exact absurd b (by decide)
    · rcases h9 with h9 | h9
      · omega
      · exact absurd b (not_lt.mpr h9)
  have htype : has_type_filter kwent = false := by
    unfold has_type_filter
    rw [h3]
    simp
  have hskip : asciiSkip (bannerInfo pro).m_code nkw (line4Values pro) kwent s1 =
      (if has_event_filter (line4Values pro) = true ∨
          has_filter_keyword (line4Values pro) = true
        then skipDoubles PtracFormat.ASC_PTRAC 10 s1 else s1) := by
    unfold asciiSkip has_filter
    rw [htally, htype]
    simp
  refine ⟨htally, hskip, ?_⟩
  rw [ReadHeaderAscii_eq hl pro s s1 nkw kwent hkw, hskip, htally]
  simp

/-- C20 on a header whose fourth line has `line4[4] = 3` and whose keyword
line is `2 1 101 0 0 0 0 0 0 0`. -/
theorem C20_event_filter_skip_witness :
    has_tally_filter [1, 101, 0, 0, 0, 0, 0, 0, 0] = false ∧
    asciiSkip (bannerInfo exPrologueEvent).m_code 2 (line4Values exPrologueEvent)
        [1, 101, 0, 0, 0, 0, 0, 0, 0]
        (exStream (Item.nl :: (intLine [1000, 3000, 5000, 0, 0, 0, 0, 0, 0, 0] ++ exTables))) =
      (if has_event_filter (line4Values exPrologueEvent) = true ∨
          has_filter_keyword (line4Values exPrologueEvent) = true
        then skipDoubles PtracFormat.ASC_PTRAC 10
          (exStream (Item.nl :: (intLine [1000, 3000, 5000, 0, 0, 0, 0, 0, 0, 0] ++ exTables)))
        else exStream (Item.nl ::
          (intLine [1000, 3000, 5000, 0, 0, 0, 0, 0, 0, 0] ++ exTables))) ∧
    ReadHeaderAscii exHL exPrologueEvent exEventHeader =
      (asciiTables exHL
        (if has_event_filter (line4Values exPrologueEvent) = true ∨
            has_filter_keyword (line4Values exPrologueEvent) = true
          then skipDoubles PtracFormat.ASC_PTRAC 10
            (exStream (Item.nl ::
              (intLine [1000, 3000, 5000, 0, 0, 0, 0, 0, 0, 0] ++ exTables)))
          else exStream (Item.nl ::
            (intLine [1000, 3000, 5000, 0, 0, 0, 0, 0, 0, 0] ++ exTables)))).bind
        (fun x => HRes.ok (bannerInfo exPrologueEvent, x.1, x.2)) :=
  C20_event_filter_skip exHL exPrologueEvent exEventHeader
    (exStream (Item.nl :: (intLine [1000, 3000, 5000, 0, 0, 0, 0, 0, 0, 0] ++ exTables))) 2
    [1, 101, 0, 0, 0, 0, 0, 0, 0] (by rfl) (by rfl) (Or.inl (by decide))

/-- C20 as stated fails: the keyword line `2 1 101 0 0 0 0 0 0 0` has
`kw[1] > 100` and `kw[3] = 0`, yet with a fourth line without values the
parser skips nothing: the numbers line is read right behind the keyword line. -/
theorem C20_counterexample :
    keywordView (asciiKeywords exHL (exAsciiHeader exKwEvent 3 [1, 2, 10, 22, 7])) =
      some (2, [1, 101, 0, 0, 0, 0, 0, 0, 0]) ∧
    100 < ([1, 101, 0, 0, 0, 0, 0, 0, 0] : List Dbl).getD 1 0 ∧
    ([1, 101, 0, 0, 0, 0, 0, 0, 0] : List Dbl).getD 3 0 = 0 ∧
    asciiSkip (bannerInfo (exPrologue (-1))).m_code 2 (line4Values (exPrologue (-1)))
        [1, 101, 0, 0, 0, 0, 0, 0, 0] (exStream (Item.nl :: exTables)) =
      exStream (Item.nl :: exTables) ∧
    ∃ info p s1,
      ReadHeaderAscii exHL (exPrologue (-1)) (exAsciiHeader exKwEvent 3 [1, 2, 10, 22, 7]) =
        HRes.ok (info, p, s1) ∧
      p.m_nument "src1" = 3 ∧ p.m_datent "src1" = [10, 22, 7] :=
  ⟨by rfl, by decide, by rfl, by rfl,
    bannerInfo (exPrologue (-1)),
    headerOf (ReadHeaderAscii exHL (exPrologue (-1))
      (exAsciiHeader exKwEvent 3 [1, 2, 10, 22, 7])),
    exStream [Item.nl], by rfl, by rfl, by rfl⟩

/-! ### C18 -/

/-- The version record throws when its two byte counts differ. -/
theorem binVersionRecord_mismatch (hl : HeaderLocals) (fsize : Int) (s : Stream)
    (size1 size2 : Int) (s1 s3 : Stream)
    (h1 : readInt PtracFormat.BIN_PTRAC 32 hl.size1 s = (size1, s1))
    (h2 : readInt PtracFormat.BIN_PTRAC 32 hl.size2
      (readInt PtracFormat.BIN_PTRAC 32 hl.m_version s1).2 = (size2, s3))
    (hne : size1 ≠ size2) : binVersionRecord hl fsize s = HRes.exn := by
  unfold binVersionRecord
  split
  rename_i a b heq
  rw [h1] at heq
  cases heq
  split
  · rfl
  · split
    rename_i v s2 hv
    rw [hv] at h2
    split
    rename_i c d heq2
    have h2b : readInt PtracFormat.BIN_PTRAC 32 hl.size2 s2 = (size2, s3) := h2
    rw [h2b] at heq2
    cases heq2
    rw [if_pos (Or.inl hne)]

/-- The code record throws when its two byte counts differ. -/
theorem binCodeRecord_mismatch (hl : HeaderLocals) (st : BinState) (size1 size2 : Int)
    (s1 s6 : Stream)
    (h1 : readInt PtracFormat.BIN_PTRAC 32 st.size1 st.s = (size1, s1))
    (h2 : readInt PtracFormat.BIN_PTRAC 32 st.size2
      (readN PtracFormat.BIN_PTRAC 8 hl.byte 19
        (readN PtracFormat.BIN_PTRAC 8 hl.byte 8
          (readN PtracFormat.BIN_PTRAC 8 hl.byte 5
            (readN PtracFormat.BIN_PTRAC 8 hl.byte 8 s1).2).2).2).2 = (size2, s6))
    (hne : size1 ≠ size2) : binCodeRecord hl st = HRes.exn := by
  unfold binCodeRecord
  split
  rename_i a b heq
  rw [h1] at heq
  cases heq
  split
  rename_i code s2 hc
  rw [hc] at h2
  split
  rename_i ver s3 hv
  have hv2 : readN PtracFormat.BIN_PTRAC 8 hl.byte 5 (code, s2).2 = (ver, s3) := hv
  rw [hv2] at h2
  split
  rename_i lod s4 hd
  have hd2 : readN PtracFormat.BIN_PTRAC 8 hl.byte 8 (ver, s3).2 = (lod, s4) := hd
  rw [hd2] at h2
  split
  rename_i idtm s5 hi
  have hi2 : readN PtracFormat.BIN_PTRAC 8 hl.byte 19 (lod, s4).2 = (idtm, s5) := hi
  rw [hi2] at h2
  split
  rename_i c d heq2
  have h2b : readInt PtracFormat.BIN_PTRAC 32 st.size2 s5 = (size2, s6) := h2
  rw [h2b] at heq2
  cases heq2
  rw [if_pos hne]
/-- The comment record throws when its two byte counts differ, provided the
`assert` on the leading count lets the parser go on. -/
theorem binCommentRecord_mismatch (assertOn : Bool) (st : BinState) (size1 size2 : Int)
    (s1 s3 : Stream)
    (h1 : readInt PtracFormat.BIN_PTRAC 32 st.size1 st.s = (size1, s1))
    (h2 : readInt PtracFormat.BIN_PTRAC 32 st.size2
      (readN PtracFormat.BIN_PTRAC 8 0 size1.toNat s1).2 = (size2, s3))
    (hne : size1 ≠ size2) (ha : assertOn = false ∨ size1 = 80 ∨ size1 = 128) :
    binCommentRecord assertOn st = HRes.exn := by
  unfold binCommentRecord
  split
  rename_i a b heq
  rw [h1] at heq
  cases heq
  split
  · rename_i hc
    rcases ha with ha | ha
    · rw [ha] at hc; exact absurd hc.1 (by decide)
    · exact absurd ha hc.2
  · split
    · rfl
    · split
      rename_i com s2 hc
      rw [hc] at h2
      split
      rename_i c d heq2
      have h2b : readInt PtracFormat.BIN_PTRAC 32 st.size2 s2 = (size2, s3) := h2
      rw [h2b] at heq2
      cases heq2
      rw [if_pos hne]

/-- The equation of the loop over the keyword records for one more record. -/
theorem binKeywordRecords_succ (hl : HeaderLocals) (cfuel fuel : Nat) (first : Bool)
    (nkw : Nat) (kwent : List Dbl) (st : BinState) :
    binKeywordRecords hl cfuel (fuel + 1) first nkw kwent st =
    match readInt PtracFormat.BIN_PTRAC 32 st.size1 st.s with
    | (size1, s1) =>
      match readBlock PtracFormat.BIN_PTRAC hl.tmp 10 s1 with
      | (buffer, s2) =>
        match (if first then castUInt (buffer.getD 0 0) else some nkw) with
        | none => HRes.ub
        | some nkw1 =>
          match carveLoop (kwent ++ (if first then buffer.drop 1 else buffer)) cfuel 0 0 with
          | HRes.ok nkwcnt =>
            match readInt PtracFormat.BIN_PTRAC 32 st.size2 s2 with
            | (size2, s3) =>
              if size1 ≠ size2 then HRes.exn
              else if nkw1 ≤ nkwcnt then
                HRes.ok (nkw1, kwent ++ (if first then buffer.drop 1 else buffer),
                         { size1 := size1, size2 := size2, s := s3 })
              else
                binKeywordRecords hl cfuel fuel false nkw1
                  (kwent ++ (if first then buffer.drop 1 else buffer))
                  { size1 := size1, size2 := size2, s := s3 }
          | HRes.exn => HRes.exn
          | HRes.abort => HRes.abort
          | HRes.ub => HRes.ub
          | HRes.oof => HRes.oof := rfl

/-- One pass of the loop over the keyword records: it throws when the two byte
counts differ, and otherwise ends the loop or goes on with the next record. -/
theorem binKeywordRecords_step (hl : HeaderLocals) (cfuel fuel : Nat) (first : Bool)
    (nkw nkw1 nkwcnt : Nat) (kwent buffer : List Dbl) (st : BinState) (size1 size2 : Int)
    (s1 s2 s3 : Stream)
    (h1 : readInt PtracFormat.BIN_PTRAC 32 st.size1 st.s = (size1, s1))
    (hb : readBlock PtracFormat.BIN_PTRAC hl.tmp 10 s1 = (buffer, s2))
    (hn : (if first = true then castUInt (buffer.getD 0 0) else some nkw) = some nkw1)
    (hc : carveLoop (kwent ++ (if first = true then buffer.drop 1 else buffer)) cfuel 0 0 =
      HRes.ok nkwcnt)
    (h2 : readInt PtracFormat.BIN_PTRAC 32 st.size2 s2 = (size2, s3)) :
    binKeywordRecords hl cfuel (fuel + 1) first nkw kwent st =
      if size1 ≠ size2 then HRes.exn
      else if nkw1 ≤ nkwcnt then
        HRes.ok (nkw1, kwent ++ (if first = true then buffer.drop 1 else buffer),
          { size1 := size1, size2 := size2, s := s3 })
      else
        binKeywordRecords hl cfuel fuel false nkw1
          (kwent ++ (if first = true then buffer.drop 1 else buffer))
          { size1 := size1, size2 := size2, s := s3 } := by
  generalize hR : (if size1 ≠ size2 then HRes.exn
      else if nkw1 ≤ nkwcnt then
        HRes.ok (nkw1, kwent ++ (if first = true then buffer.drop 1 else buffer),
          { size1 := size1, size2 := size2, s := s3 })
      else
        binKeywordRecords hl cfuel fuel false nkw1
          (kwent ++ (if first = true then buffer.drop 1 else buffer))
          { size1 := size1, size2 := size2, s := s3 }) = R
  rw [binKeywordRecords_succ]
  split
  rename_i a b heq
  rw [h1] at heq
  cases heq
  split
  rename_i bu sb hbu
  rw [hb] at hbu
  cases hbu
  split
  · rename_i hnone
    rw [hn] at hnone
    exact absurd hnone (by simp)
  · rename_i n1 hsome
    rw [hn] at hsome
    cases hsome
    split
    · rename_i cnt hcnt
      rw [hc] at hcnt
      cases hcnt
      split
      rename_i c d heq2
      rw [h2] at heq2
      cases heq2
      exact hR
    · rename_i hx; rw [hc] at hx; exact absurd hx (by simp)
    · rename_i hx; rw [hc] at hx; exact absurd hx (by simp)
    · rename_i hx; rw [hc] at hx; exact absurd hx (by simp)
    · rename_i hx; rw [hc] at hx; exact absurd hx (by simp)

/-- The numbers record throws when its two byte counts differ. -/
theorem binNumbersRecord_mismatch (hl : HeaderLocals) (st : BinState) (size1 size2 : Int)
    (s1 s3 : Stream)
    (h1 : readInt PtracFormat.BIN_PTRAC 32 st.size1 st.s = (size1, s1))
    (h2 : readInt PtracFormat.BIN_PTRAC 32 st.size2
      (readInts PtracFormat.BIN_PTRAC (numberVars hl) s1).2 = (size2, s3))
    (hne : size1 ≠ size2) : binNumbersRecord hl st = HRes.exn := by
  unfold binNumbersRecord
  split
  rename_i a b heq
  rw [h1] at heq
  cases heq
  split
  rename_i nums s2 hc
  rw [hc] at h2
  split
  rename_i c d heq2
  have h2b : readInt PtracFormat.BIN_PTRAC 32 st.size2 s2 = (size2, s3) := h2
  rw [h2b] at heq2
  cases heq2
  rw [if_pos hne]

/-- The data-types record throws when its two byte counts differ. -/
theorem binTypesRecord_mismatch (hl : HeaderLocals) (nument : String → Int) (st : BinState)
    (size1 size2 : Int) (s1 s2 s3 : Stream) (datent : String → List Int)
    (h1 : readInt PtracFormat.BIN_PTRAC 32 st.size1 st.s = (size1, s1))
    (hd : readDataTypes PtracFormat.BIN_PTRAC hl.dtype nument Ptrac.m_lines (fun _ => []) s1 =
      HRes.ok (datent, s2))
    (h2 : readInt PtracFormat.BIN_PTRAC 32 st.size2 s2 = (size2, s3))
    (hne : size1 ≠ size2) : binTypesRecord hl nument st = HRes.exn := by
  unfold binTypesRecord
  split
  rename_i a b heq
  rw [h1] at heq
  cases heq
  split
  · rename_i dat sd hdd
    rw [hd] at hdd
    simp only [HRes.ok.injEq, Prod.mk.injEq] at hdd
    split
    rename_i c d heq2
    rw [← hdd.2, h2] at heq2
    cases heq2
    rw [if_pos hne]
  · rfl
  · rename_i hx; rw [hd] at hx; exact absurd hx (by simp)
  · rename_i hx; rw [hd] at hx; exact absurd hx (by simp)
  · rename_i hx; rw [hd] at hx; exact absurd hx (by simp)

/-- The NPS record of a binary file throws when its two byte counts differ. -/
theorem ReadHistory_mismatch (fuel : Nat) (p : Ptrac) (u : Locals) (s : Stream)
    (size1 size2 : Int) (s0 s1 s2 : Stream) (nps : PtracNps) (next_event_type : Dbl)
    (hf : p.m_format = PtracFormat.BIN_PTRAC)
    (h1 : readSize p u.size1 s = (size1, s0))
    (hn : npsFields p.m_format (p.m_nument "nps").toNat (p.datent "nps") u.nps
      u.next_event_type s0 = NpsLine.done nps next_event_type s1)
    (h2 : readSize p u.size2 s1 = (size2, s2))
    (hne : size1 ≠ size2) : ReadHistory fuel p u s = Res.exn := by
  unfold ReadHistory
  split
  rename_i a b heq
  rw [h1] at heq
  cases heq
  split
  · rename_i hx; rw [hn] at hx; exact absurd hx (by simp)
  · rename_i sx hx; rw [hn] at hx; exact absurd hx (by simp)
  · rename_i n1 ne1 sx hx
    rw [hn] at hx
    cases hx
    split
    rename_i c d heq2
    rw [h2] at heq2
    cases heq2
    rw [if_pos ⟨hf, hne⟩]

/-- An event record of a binary file throws when its two byte counts differ. -/
theorem eventBody_mismatch (p : Ptrac) (u : Locals) (t b : Int) (st : LoopState)
    (size1 size2 : Int) (s1 s3 : Stream)
    (hf : p.m_format = PtracFormat.BIN_PTRAC)
    (h1 : readSize p st.size1 st.s = (size1, s1))
    (h2 : readSize p st.size2
      (eventFields p.m_format u.tmp (allDataTypes p t)
        { m_type := t, m_bnktype := b, m_data := [] } (t : ℚ) s1).2.2 = (size2, s3))
    (hne : size1 ≠ size2) : eventBody p u t b st = Res.exn := by
  unfold eventBody
  split
  rename_i a c heq
  rw [h1] at heq
  cases heq
  split
  rename_i ev ne s2 he
  rw [he] at h2
  split
  rename_i c d heq2
  have h2b : readSize p st.size2 s2 = (size2, s3) := h2
  rw [h2b] at heq2
  cases heq2
  rw [if_pos ⟨hf, hne⟩]

/-- An exception of an event record ends the event loop with that exception. -/
theorem eventLoop_exn (p : Ptrac) (u : Locals) (fuel : Nat) (st : LoopState)
    (events : List PtracEvent) (t b : Int)
    (hd : decodeNext st.next_event_type = some (some (t, b)))
    (he : eventBody p u t b st = Res.exn) :
    eventLoop p u (fuel + 1) st events = Res.exn := by
  rw [eventLoop, hd]
  dsimp only
  rw [he]
/-- A chain whose first step returns goes on with the next step. -/
theorem HRes.ok_bind {α β : Type} (a : α) (f : α → HRes β) : (HRes.ok a).bind f = f a := rfl

/-- An exception of any record of a binary header is the result of
`ReadHeaderBinary`. -/
theorem ReadHeaderBinary_exn (fuel : Nat) (assertOn : Bool) (hl : HeaderLocals) (fsize : Int)
    (s : Stream) :
    (binVersionRecord hl fsize s = HRes.exn →
      ReadHeaderBinary fuel assertOn hl fsize s = HRes.exn) ∧
    ∀ v st1, binVersionRecord hl fsize s = HRes.ok (v, st1) →
      (binCodeRecord hl st1 = HRes.exn →
        ReadHeaderBinary fuel assertOn hl fsize s = HRes.exn) ∧
      ∀ code st2, binCodeRecord hl st1 = HRes.ok (code, st2) →
        (binCommentRecord assertOn st2 = HRes.exn →
          ReadHeaderBinary fuel assertOn hl fsize s = HRes.exn) ∧
        ∀ com st3, binCommentRecord assertOn st2 = HRes.ok (com, st3) →
          (binKeywordRecords hl fuel fuel true 0 [] st3 = HRes.exn →
            ReadHeaderBinary fuel assertOn hl fsize s = HRes.exn) ∧
          ∀ nkw kwent st4,
            binKeywordRecords hl fuel fuel true 0 [] st3 = HRes.ok (nkw, kwent, st4) →
            (binNumbersRecord hl st4 = HRes.exn →
              ReadHeaderBinary fuel assertOn hl fsize s = HRes.exn) ∧
            ∀ nument st5, binNumbersRecord hl st4 = HRes.ok (nument, st5) →
              binTypesRecord hl nument (binFilterRecord st5) = HRes.exn →
              ReadHeaderBinary fuel assertOn hl fsize s = HRes.exn := by
  unfold ReadHeaderBinary
  refine ⟨fun h => by rw [h]; rfl, fun v st1 h1 => ?_⟩
  rw [h1, HRes.ok_bind]
  dsimp only
  refine ⟨fun h => by rw [h]; rfl, fun code st2 h2 => ?_⟩
  rw [h2, HRes.ok_bind]
  dsimp only
  refine ⟨fun h => by rw [h]; rfl, fun com st3 h3 => ?_⟩
  rw [h3, HRes.ok_bind]
  dsimp only
  refine ⟨fun h => by rw [h]; rfl, fun nkw kwent st4 h4 => ?_⟩
  rw [h4, HRes.ok_bind]
  dsimp only
  refine ⟨fun h => by rw [h]; rfl, fun nument st5 h5 h => ?_⟩
  rw [h5, HRes.ok_bind]
  dsimp only
  rw [h]; rfl

/-- C18: in binary mode every framed record throws when the byte count read
behind its payload differs from the one read in front of it. This holds for
the version, code, comment (when the `assert` on its leading count lets the
parser go on), keyword, numbers and data-types records of `ReadHeader`, whose
exception is the result of `ReadHeader`, and for the NPS record and the event
records of `ReadHistory`. -/
theorem C18_record_counts :
    (∀ (hl : HeaderLocals) (fsize : Int) (s : Stream) (size1 size2 : Int) (s1 s3 : Stream),
      readInt PtracFormat.BIN_PTRAC 32 hl.size1 s = (size1, s1) →
      readInt PtracFormat.BIN_PTRAC 32 hl.size2
        (readInt PtracFormat.BIN_PTRAC 32 hl.m_version s1).2 = (size2, s3) →
      size1 ≠ size2 → binVersionRecord hl fsize s = HRes.exn) ∧
    (∀ (hl : HeaderLocals) (st : BinState) (size1 size2 : Int) (s1 s6 : Stream),
      readInt PtracFormat.BIN_PTRAC 32 st.size1 st.s = (size1, s1) →
      readInt PtracFormat.BIN_PTRAC 32 st.size2
        (readN PtracFormat.BIN_PTRAC 8 hl.byte 19
          (readN PtracFormat.BIN_PTRAC 8 hl.byte 8
            (readN PtracFormat.BIN_PTRAC 8 hl.byte 5
              (readN PtracFormat.BIN_PTRAC 8 hl.byte 8 s1).2).2).2).2 = (size2, s6) →
      size1 ≠ size2 → binCodeRecord hl st = HRes.exn) ∧
    (∀ (assertOn : Bool) (st : BinState) (size1 size2 : Int) (s1 s3 : Stream),
      readInt PtracFormat.BIN_PTRAC 32 st.size1 st.s = (size1, s1) →
      readInt PtracFormat.BIN_PTRAC 32 st.size2
        (readN PtracFormat.BIN_PTRAC 8 0 size1.toNat s1).2 = (size2, s3) →
      size1 ≠ size2 → (assertOn = false ∨ size1 = 80 ∨ size1 = 128) →
      binCommentRecord assertOn st = HRes.exn) ∧
    (∀ (hl : HeaderLocals) (cfuel fuel : Nat) (first : Bool) (nkw nkw1 nkwcnt : Nat)
      (kwent buffer : List Dbl) (st : BinState) (size1 size2 : Int) (s1 s2 s3 : Stream),
      readInt PtracFormat.BIN_PTRAC 32 st.size1 st.s = (size1, s1) →
      readBlock PtracFormat.BIN_PTRAC hl.tmp 10 s1 = (buffer, s2) →
      (if first = true then castUInt (buffer.getD 0 0) else some nkw) = some nkw1 →
      carveLoop (kwent ++ (if first = true then buffer.drop 1 else buffer)) cfuel 0 0 =
        HRes.ok nkwcnt →
      readInt PtracFormat.BIN_PTRAC 32 st.size2 s2 = (size2, s3) →
      binKeywordRecords hl cfuel (fuel + 1) first nkw kwent st =
        if size1 ≠ size2 then HRes.exn
        else if nkw1 ≤ nkwcnt then
          HRes.ok (nkw1, kwent ++ (if first = true then buffer.drop 1 else buffer),
            { size1 := size1, size2 := size2, s := s3 })
        else
          binKeywordRecords hl cfuel fuel false nkw1
            (kwent ++ (if first = true then buffer.drop 1 else buffer))
            { size1 := size1, size2 := size2, s := s3 }) ∧
    (∀ (hl : HeaderLocals) (st : BinState) (size1 size2 : Int) (s1 s3 : Stream),
      readInt PtracFormat.BIN_PTRAC 32 st.size1 st.s = (size1, s1) →
      readInt PtracFormat.BIN_PTRAC 32 st.size2
        (readInts PtracFormat.BIN_PTRAC (numberVars hl) s1).2 = (size2, s3) →
      size1 ≠ size2 → binNumbersRecord hl st = HRes.exn) ∧
    (∀ (hl : HeaderLocals) (nument : String → Int) (st : BinState) (size1 size2 : Int)
      (s1 s2 s3 : Stream) (datent : String → List Int),
      readInt PtracFormat.BIN_PTRAC 32 st.size1 st.s = (size1, s1) →
      readDataTypes PtracFormat.BIN_PTRAC hl.dtype nument Ptrac.m_lines (fun _ => []) s1 =
        HRes.ok (datent, s2) →
      readInt PtracFormat.BIN_PTRAC 32 st.size2 s2 = (size2, s3) →
      size1 ≠ size2 → binTypesRecord hl nument st = HRes.exn) ∧
    (∀ (fuel : Nat) (assertOn : Bool) (hl : HeaderLocals) (fsize : Int) (pro : Prologue)
      (s : Stream),
      ReadHeader fuel assertOn hl PtracFormat.BIN_PTRAC fsize pro s =
        ReadHeaderBinary fuel assertOn hl fsize s ∧
      (binVersionRecord hl fsize s = HRes.exn →
        ReadHeaderBinary fuel assertOn hl fsize s = HRes.exn) ∧
      ∀ v st1, binVersionRecord hl fsize s = HRes.ok (v, st1) →
        (binCodeRecord hl st1 = HRes.exn →
          ReadHeaderBinary fuel assertOn hl fsize s = HRes.exn) ∧
        ∀ code st2, binCodeRecord hl st1 = HRes.ok (code, st2) →
          (binCommentRecord assertOn st2 = HRes.exn →
            ReadHeaderBinary fuel assertOn hl fsize s = HRes.exn) ∧
          ∀ com st3, binCommentRecord assertOn st2 = HRes.ok (com, st3) →
            (binKeywordRecords hl fuel fuel true 0 [] st3 = HRes.exn →
              ReadHeaderBinary fuel assertOn hl fsize s = HRes.exn) ∧
            ∀ nkw kwent st4,
              binKeywordRecords hl fuel fuel true 0 [] st3 = HRes.ok (nkw, kwent, st4) →
              (binNumbersRecord hl st4 = HRes.exn →
                ReadHeaderBinary fuel assertOn hl fsize s = HRes.exn) ∧
              ∀ nument st5, binNumbersRecord hl st4 = HRes.ok (nument, st5) →
                binTypesRecord hl nument (binFilterRecord st5) = HRes.exn →
                ReadHeaderBinary fuel assertOn hl fsize s = HRes.exn) ∧
    (∀ (fuel : Nat) (p : Ptrac) (u : Locals) (s : Stream) (size1 size2 : Int)
      (s0 s1 s2 : Stream) (nps : PtracNps) (next_event_type : Dbl),
      p.m_format = PtracFormat.BIN_PTRAC →
      readSize p u.size1 s = (size1, s0) →
      npsFields p.m_format (p.m_nument "nps").toNat (p.datent "nps") u.nps
        u.next_event_type s0 = NpsLine.done nps next_event_type s1 →
      readSize p u.size2 s1 = (size2, s2) →
      size1 ≠ size2 → ReadHistory fuel p u s = Res.exn) ∧
    (∀ (p : Ptrac) (u : Locals) (t b : Int) (st : LoopState) (size1 size2 : Int)
      (s1 s3 : Stream),
      p.m_format = PtracFormat.BIN_PTRAC →
      readSize p st.size1 st.s = (size1, s1) →
      readSize p st.size2
        (eventFields p.m_format u.tmp (allDataTypes p t)
          { m_type := t, m_bnktype := b, m_data := [] } (t : ℚ) s1).2.2 = (size2, s3) →
      size1 ≠ size2 →
      eventBody p u t b st = Res.exn ∧
      ∀ (fuel : Nat) (events : List PtracEvent),
        decodeNext st.next_event_type = some (some (t, b)) →
        eventLoop p u (fuel + 1) st events = Res.exn) := by
  refine ⟨?_, ?_, ?_, ?_, ?_, ?_, ?_, ?_, ?_⟩
  · intro hl fsize s size1 size2 s1 s3 h1 h2 hne
    exact binVersionRecord_mismatch hl fsize s size1 size2 s1 s3 h1 h2 hne
  · intro hl st size1 size2 s1 s6 h1 h2 hne
    exact binCodeRecord_mismatch hl st size1 size2 s1 s6 h1 h2 hne
  · intro assertOn st size1 size2 s1 s3 h1 h2 hne ha
    exact binCommentRecord_mismatch assertOn st size1 size2 s1 s3 h1 h2 hne ha
  · intro hl cfuel fuel first nkw nkw1 nkwcnt kwent buffer st size1 size2 s1 s2 s3 h1 hb hn
      hc h2
    exact binKeywordRecords_step hl cfuel fuel first nkw nkw1 nkwcnt kwent buffer st size1
      size2 s1 s2 s3 h1 hb hn hc h2
  · intro hl st size1 size2 s1 s3 h1 h2 hne
    exact binNumbersRecord_mismatch hl st size1 size2 s1 s3 h1 h2 hne
  · intro hl nument st size1 size2 s1 s2 s3 datent h1 hd h2 hne
    exact binTypesRecord_mismatch hl nument st size1 size2 s1 s2 s3 datent h1 hd h2 hne
  · intro fuel assertOn hl fsize pro s
    refine ⟨?_, ReadHeaderBinary_exn fuel assertOn hl fsize s⟩
    unfold ReadHeader
    rw [if_pos rfl]
  · intro fuel p u s size1 size2 s0 s1 s2 nps next_event_type hf h1 hn h2 hne
    exact ReadHistory_mismatch fuel p u s size1 size2 s0 s1 s2 nps next_event_type hf h1 hn
      h2 hne
  · intro p u t b st size1 size2 s1 s3 hf h1 h2 hne
    have he := eventBody_mismatch p u t b st size1 size2 s1 s3 hf h1 h2 hne
    exact ⟨he, fun fuel events hd => eventLoop_exn p u fuel st events t b hd he⟩

/-- C18 on a code record whose leading count is 40 and whose trailing count
is 41. -/
theorem C18_record_counts_witness :
    binCodeRecord exHL
      { size1 := 0, size2 := 0, s := wordStream (40 :: (List.replicate 40 65 ++ [41])) } =
      HRes.exn :=
  C18_record_counts.2.1 exHL
    { size1 := 0, size2 := 0, s := wordStream (40 :: (List.replicate 40 65 ++ [41])) }
    40 41 (wordStream (List.replicate 40 65 ++ [41])) (wordStream []) (by rfl) (by rfl)
    (by decide)

/-! ### The skips in front of the numbers line -/

/-- The type test looks at `kw[3]` and `kw[4]` only. -/
theorem has_type_filter_iff (kwent : List Dbl) :
    has_type_filter kwent = true ↔ 0 < kwent.getD 3 0 ∧ 0 < kwent.getD 4 0 := by
  unfold has_type_filter
  simp only [Bool.and_eq_true, decide_eq_true_eq]
  constructor
  · intro h; exact h.2
  · intro h
    refine ⟨?_, h⟩
    by_contra hc
    have : kwent.getD 4 0 = 0 := by
      rw [List.getD_eq_getElem?_getD, List.getElem?_eq_none (by omega)]
      rfl
    rw [this] at h
    exact absurd h.2 (lt_irrefl 0)

/-- A positive entry of the fourth line, read with the default 0, is an entry
that the line holds among its first ten. -/
theorem line4_flag (L : List Dbl) (i : Nat) (hi : i < 10) :
    (decide (i < (L.take 10).length) && decide (0 < (L.take 10).getD i 0)) = true ↔
      0 < L.getD i 0 := by
  simp only [Bool.and_eq_true, decide_eq_true_eq, List.length_take]
  have hget : (L.take 10).getD i 0 = L.getD i 0 := by
    rw [List.getD_eq_getElem?_getD, List.getD_eq_getElem?_getD, List.getElem?_take_of_lt hi]
  rw [hget]
  constructor
  · intro h; exact h.2
  · intro h
    refine ⟨?_, h⟩
    by_contra hc
    have : L.getD i 0 = 0 := by
      rw [List.getD_eq_getElem?_getD, List.getElem?_eq_none (by omega)]
      rfl
    rw [this] at h
    exact absurd h (lt_irrefl 0)

/-- The event flag is `line4[4] > 0`. -/
theorem has_event_filter_iff (pro : Prologue) :
    has_event_filter (line4Values pro) = true ↔ 0 < pro.line4.getD 4 0 :=
  line4_flag pro.line4 4 (by decide)

/-- The filter flag is `line4[7] > 0`. -/
theorem has_filter_keyword_iff (pro : Prologue) :
    has_filter_keyword (line4Values pro) = true ↔ 0 < pro.line4.getD 7 0 :=
  line4_flag pro.line4 7 (by decide)

/-- The two conditional skips in one: with a tally filter only the skip of
MCNP 6.3 can be taken, without one only the skip of the other filters. -/
theorem asciiSkip_eq (m_code : String) (nkw : Nat) (line4_values kwent : List Dbl)
    (s : Stream) :
    asciiSkip m_code nkw line4_values kwent s =
      if has_tally_filter kwent = true then
        (if m_code = "mcnp6" ∧ nkw < 3 then skipDoubles PtracFormat.ASC_PTRAC 10 s else s)
      else if has_event_filter line4_values = true ∨ has_filter_keyword line4_values = true ∨
          has_type_filter kwent = true then
        skipDoubles PtracFormat.ASC_PTRAC 10 s
      else s := by
  unfold asciiSkip has_filter
  cases has_tally_filter kwent <;> cases has_event_filter line4_values <;>
    cases has_filter_keyword line4_values <;> cases has_type_filter kwent <;> simp

/-- A loop of `n` extractions of doubles on a good ASCII stream that holds `n`
well-formed scalars in front of further input consumes exactly these scalars
and yields their values. -/
theorem readDoubles_run :
    ∀ (n : Nat) (items rest : List Item) (toks : List Tok) (cur : Dbl),
      takeToks n items = some (toks, rest) → (∀ t ∈ toks, t.asReal ≠ none) → rest ≠ [] →
      (readDoubles PtracFormat.ASC_PTRAC n cur ⟨items, false, false⟩).1 =
          toks.map (fun t => t.asReal.getD 0) ∧
        (readDoubles PtracFormat.ASC_PTRAC n cur ⟨items, false, false⟩).2.2 =
          ⟨rest, false, false⟩ := by
  intro n
  induction n with
  | zero =>
    intro items rest toks cur h _ _
    simp only [takeToks, Option.some.injEq, Prod.mk.injEq] at h
    rw [← h.1, ← h.2]
    exact ⟨rfl, rfl⟩
  | succ n ih =>
    intro items rest toks cur h hreal hrest
    obtain ⟨t, r, ts, hn, htr, hts⟩ := takeToks_succ n items toks rest h
    subst hts
    have hr : r ≠ [] := takeToks_nonempty n r ts rest htr hrest
    obtain ⟨v, hv⟩ := Option.ne_none_iff_exists'.mp (hreal t (List.mem_cons_self _ _))
    have he := extract_some PtracFormat.ASC_PTRAC Tok.asReal (0 : Dbl) items r t v hn hv
    have hemp : r.isEmpty = false := by
      cases r with
      | nil => exact absurd rfl hr
      | cons a b => rfl
    rw [hemp, Bool.and_false] at he
    obtain ⟨i1, i2⟩ := ih r rest ts v htr (fun x hx => hreal x (List.mem_cons_of_mem _ hx)) hrest
    rw [readDoubles, he]
    simp only [Option.getD_some]
    refine ⟨?_, i2⟩
    rw [i1, List.map_cons, hv]
    rfl

/-- The skip loop on such a stream consumes exactly ten scalars. -/
theorem skipDoubles_run (items rest : List Item) (toks : List Tok)
    (h : takeToks 10 items = some (toks, rest)) (hreal : ∀ t ∈ toks, t.asReal ≠ none)
    (hrest : rest ≠ []) :
    skipDoubles PtracFormat.ASC_PTRAC 10 ⟨items, false, false⟩ = ⟨rest, false, false⟩ :=
  (readDoubles_run 10 items rest toks 0 h hreal hrest).2

/-! ### C29 -/

/-- C29: between the keyword lines and the numbers line the ASCII branch skips
nothing or one run of ten floats. The skip of MCNP 6.3 (code banner `mcnp6`,
tally filter, `nkw < 3`) and the skip of the other filters exclude each other,
and the latter is taken exactly when `line4[4] > 0` or `line4[7] > 0` or
(`kw[3] > 0` and `kw[4] > 0`), and no tally filter is detected. On a good
stream that holds ten floats in front of further input the skip consumes
exactly these ten scalars. -/
theorem C29_skip_zero_or_ten (hl : HeaderLocals) (pro : Prologue) (s s1 : Stream) (nkw : Nat)
    (kwent : List Dbl) (hkw : asciiKeywords hl s = HRes.ok (nkw, kwent, s1)) :
    ¬ (((bannerInfo pro).m_code = "mcnp6" ∧ has_tally_filter kwent = true ∧ nkw < 3) ∧
        ((0 < pro.line4.getD 4 0 ∨ 0 < pro.line4.getD 7 0 ∨
            (0 < kwent.getD 3 0 ∧ 0 < kwent.getD 4 0)) ∧ has_tally_filter kwent = false)) ∧
    asciiSkip (bannerInfo pro).m_code nkw (line4Values pro) kwent s1 =
      (if ((bannerInfo pro).m_code = "mcnp6" ∧ has_tally_filter kwent = true ∧ nkw < 3) ∨
          ((0 < pro.line4.getD 4 0 ∨ 0 < pro.line4.getD 7 0 ∨
            (0 < kwent.getD 3 0 ∧ 0 < kwent.getD 4 0)) ∧ has_tally_filter kwent = false)
        then skipDoubles PtracFormat.ASC_PTRAC 10 s1 else s1) ∧
    ReadHeaderAscii hl pro s =
      (asciiTables hl (asciiSkip (bannerInfo pro).m_code nkw (line4Values pro) kwent s1)).bind
        (fun x => HRes.ok (bannerInfo pro,
          if has_tally_filter kwent = true then tallyInjection x.1 else x.1, x.2)) ∧
    ∀ (items rest : List Item) (toks : List Tok),
      s1 = ⟨items, false, false⟩ → takeToks 10 items = some (toks, rest) →
      (∀ t ∈ toks, t.asReal ≠ none) → rest ≠ [] →
      skipDoubles PtracFormat.ASC_PTRAC 10 s1 = ⟨rest, false, false⟩ := by
  refine ⟨?_, ?_, ReadHeaderAscii_eq hl pro s s1 nkw kwent hkw, ?_⟩
  · rintro ⟨⟨_, h1, _⟩, _, h2⟩
    rw [h1] at h2
    exact absurd h2 (by decide)
  · rw [asciiSkip_eq]
    simp only [has_event_filter_iff, has_filter_keyword_iff, has_type_filter_iff]
    by_cases ht : has_tally_filter kwent = true
    · rw [if_pos ht]
      by_cases hc : (bannerInfo pro).m_code = "mcnp6" ∧ nkw < 3
      · rw [if_pos hc, if_pos (Or.inl ⟨hc.1, ht, hc.2⟩)]
      · rw [if_neg hc, if_neg]
        rintro (⟨a, _, b⟩ | ⟨_, b⟩)
        · exact hc ⟨a, b⟩
        · rw [ht] at b; exact absurd b (by decide)
    · rw [if_neg ht]
      have htf : has_tally_filter kwent = false := Bool.eq_false_iff.mpr ht
      by_cases hf : 0 < pro.line4.getD 4 0 ∨ 0 < pro.line4.getD 7 0 ∨
          (0 < kwent.getD 3 0 ∧ 0 < kwent.getD 4 0)
      · rw [if_pos hf, if_pos (Or.inr ⟨hf, htf⟩)]
      · rw [if_neg hf, if_neg]
        rintro (⟨_, b, _⟩ | ⟨a, _⟩)
        · exact ht b
        · exact hf a
  · intro items rest toks hs h hreal hrest
    rw [hs]
    exact skipDoubles_run items rest toks h hreal hrest

/-- C29 on a header whose fourth line has `line4[4] = 3` and whose keyword
line is `2 1 101 0 0 0 0 0 0 0`. -/
theorem C29_skip_zero_or_ten_witness :
    ¬ (((bannerInfo exPrologueEvent).m_code = "mcnp6" ∧
          has_tally_filter [1, 101, 0, 0, 0, 0, 0, 0, 0] = true ∧ 2 < 3) ∧
        ((0 < exPrologueEvent.line4.getD 4 0 ∨ 0 < exPrologueEvent.line4.getD 7 0 ∨
            (0 < ([1, 101, 0, 0, 0, 0, 0, 0, 0] : List Dbl).getD 3 0 ∧
              0 < ([1, 101, 0, 0, 0, 0, 0, 0, 0] : List Dbl).getD 4 0)) ∧
          has_tally_filter [1, 101, 0, 0, 0, 0, 0, 0, 0] = false)) ∧
    asciiSkip (bannerInfo exPrologueEvent).m_code 2 (line4Values exPrologueEvent)
        [1, 101, 0, 0, 0, 0, 0, 0, 0]
        (exStream (Item.nl :: (intLine [1000, 3000, 5000, 0, 0, 0, 0, 0, 0, 0] ++ exTables))) =
      (if ((bannerInfo exPrologueEvent).m_code = "mcnp6" ∧
            has_tally_filter [1, 101, 0, 0, 0, 0, 0, 0, 0] = true ∧ 2 < 3) ∨
          ((0 < exPrologueEvent.line4.getD 4 0 ∨ 0 < exPrologueEvent.line4.getD 7 0 ∨
            (0 < ([1, 101, 0, 0, 0, 0, 0, 0, 0] : List Dbl).getD 3 0 ∧
              0 < ([1, 101, 0, 0, 0, 0, 0, 0, 0] : List Dbl).getD 4 0)) ∧
            has_tally_filter [1, 101, 0, 0, 0, 0, 0, 0, 0] = false)
        then skipDoubles PtracFormat.ASC_PTRAC 10
          (exStream (Item.nl :: (intLine [1000, 3000, 5000, 0, 0, 0, 0, 0, 0, 0] ++ exTables)))
        else exStream (Item.nl ::
          (intLine [1000, 3000, 5000, 0, 0, 0, 0, 0, 0, 0] ++ exTables))) ∧
    ReadHeaderAscii exHL exPrologueEvent exEventHeader =
      (asciiTables exHL (asciiSkip (bannerInfo exPrologueEvent).m_code 2
        (line4Values exPrologueEvent) [1, 101, 0, 0, 0, 0, 0, 0, 0]
        (exStream (Item.nl ::
          (intLine [1000, 3000, 5000, 0, 0, 0, 0, 0, 0, 0] ++ exTables))))).bind
        (fun x => HRes.ok (bannerInfo exPrologueEvent,
          if has_tally_filter [1, 101, 0, 0, 0, 0, 0, 0, 0] = true then tallyInjection x.1
          else x.1, x.2)) ∧
    ∀ (items rest : List Item) (toks : List Tok),
      exStream (Item.nl :: (intLine [1000, 3000, 5000, 0, 0, 0, 0, 0, 0, 0] ++ exTables)) =
        ⟨items, false, false⟩ →
      takeToks 10 items = some (toks, rest) →
      (∀ t ∈ toks, t.asReal ≠ none) → rest ≠ [] →
      skipDoubles PtracFormat.ASC_PTRAC 10
        (exStream (Item.nl :: (intLine [1000, 3000, 5000, 0, 0, 0, 0, 0, 0, 0] ++ exTables))) =
        ⟨rest, false, false⟩ :=
  C29_skip_zero_or_ten exHL exPrologueEvent exEventHeader
    (exStream (Item.nl :: (intLine [1000, 3000, 5000, 0, 0, 0, 0, 0, 0, 0] ++ exTables))) 2
    [1, 101, 0, 0, 0, 0, 0, 0, 0] (by rfl)

/-! ### C23 -/

/-- C23: for an ASCII header in which a tally filter is detected, with or
without another filter indicator, the parser skips one run of ten floats in
front of the numbers line when the first word of the code banner is `mcnp6`
and `nkw < 3`, and skips nothing otherwise. On a good stream that holds ten
floats in front of further input the skip consumes exactly these ten
scalars. -/
theorem C23_tally_only_skip (hl : HeaderLocals) (pro : Prologue) (s s1 : Stream) (nkw : Nat)
    (kwent : List Dbl) (hkw : asciiKeywords hl s = HRes.ok (nkw, kwent, s1))
    (ht : has_tally_filter kwent = true) :
    asciiSkip (bannerInfo pro).m_code nkw (line4Values pro) kwent s1 =
      (if (bannerInfo pro).m_code = "mcnp6" ∧ nkw < 3
        then skipDoubles PtracFormat.ASC_PTRAC 10 s1 else s1) ∧
    ReadHeaderAscii hl pro s =
      (asciiTables hl
        (if (bannerInfo pro).m_code = "mcnp6" ∧ nkw < 3
          then skipDoubles PtracFormat.ASC_PTRAC 10 s1 else s1)).bind
        (fun x => HRes.ok (bannerInfo pro, tallyInjection x.1, x.2)) ∧
    ∀ (items rest : List Item) (toks : List Tok),
      s1 = ⟨items, false, false⟩ → takeToks 10 items = some (toks, rest) →
      (∀ t ∈ toks, t.asReal ≠ none) → rest ≠ [] →
      skipDoubles PtracFormat.ASC_PTRAC 10 s1 = ⟨rest, false, false⟩ := by
  have hskip : asciiSkip (bannerInfo pro).m_code nkw (line4Values pro) kwent s1 =
      (if (bannerInfo pro).m_code = "mcnp6" ∧ nkw < 3
        then skipDoubles PtracFormat.ASC_PTRAC 10 s1 else s1) := by
    rw [asciiSkip_eq, if_pos ht]
  refine ⟨hskip, ?_, ?_⟩
  · rw [ReadHeaderAscii_eq hl pro s s1 nkw kwent hkw, hskip]
    simp only [ht, if_true]
  · intro items rest toks hs h hreal hrest
    rw [hs]
    exact skipDoubles_run items rest toks h hreal hrest

/-- C23 on a header of MCNP 6.3 with the keyword line `2 1 100 1 -2 0 0 0 0 0`
and a line of ten floats behind it. -/
theorem C23_tally_only_skip_witness :
    asciiSkip (bannerInfo exPrologue63).m_code 2 (line4Values exPrologue63)
        [1, 100, 1, -2, 0, 0, 0, 0, 0] (exStream (Item.nl :: (exFilterLine ++ exTables))) =
      (if (bannerInfo exPrologue63).m_code = "mcnp6" ∧ 2 < 3
        then skipDoubles PtracFormat.ASC_PTRAC 10
          (exStream (Item.nl :: (exFilterLine ++ exTables)))
        else exStream (Item.nl :: (exFilterLine ++ exTables))) ∧
    ReadHeaderAscii exHL exPrologue63 exTally63Header =
      (asciiTables exHL
        (if (bannerInfo exPrologue63).m_code = "mcnp6" ∧ 2 < 3
          then skipDoubles PtracFormat.ASC_PTRAC 10
            (exStream (Item.nl :: (exFilterLine ++ exTables)))
          else exStream (Item.nl :: (exFilterLine ++ exTables)))).bind
        (fun x => HRes.ok (bannerInfo exPrologue63, tallyInjection x.1, x.2)) ∧
    ∀ (items rest : List Item) (toks : List Tok),
      exStream (Item.nl :: (exFilterLine ++ exTables)) = ⟨items, false, false⟩ →
      takeToks 10 items = some (toks, rest) →
      (∀ t ∈ toks, t.asReal ≠ none) → rest ≠ [] →
      skipDoubles PtracFormat.ASC_PTRAC 10
        (exStream (Item.nl :: (exFilterLine ++ exTables))) = ⟨rest, false, false⟩ :=
  C23_tally_only_skip exHL exPrologue63 exTally63Header
    (exStream (Item.nl :: (exFilterLine ++ exTables))) 2 [1, 100, 1, -2, 0, 0, 0, 0, 0]
    (by rfl) (by rfl)

/-! ### C21 -/

/-- C21 (amended): for an ASCII header whose code banner is not `mcnp6` and
whose keyword values have `kw[2] > 0` and `kw[3] < 0`, the parser detects a
tally filter, reads the numbers line right behind the keyword lines, and
applies the injection: when the layout of `nps` read from the file is
`1 :: 2 :: rest` without 5, the returned layout is `1 :: 2 :: 5 :: 6 :: rest`. -/
theorem C21_tally_scenario (hl : HeaderLocals) (pro : Prologue) (s s1 : Stream) (nkw : Nat)
    (kwent : List Dbl) (hkw : asciiKeywords hl s = HRes.ok (nkw, kwent, s1))
    (h2 : 0 < kwent.getD 2 0) (h3 : kwent.getD 3 0 < 0)
    (hcode : (bannerInfo pro).m_code ≠ "mcnp6") :
    has_tally_filter kwent = true ∧
    asciiSkip (bannerInfo pro).m_code nkw (line4Values pro) kwent s1 = s1 ∧
    ReadHeaderAscii hl pro s =
      (asciiTables hl s1).bind (fun x => HRes.ok (bannerInfo pro, tallyInjection x.1, x.2)) ∧
    ∀ (praw : Ptrac) (s2 : Stream) (rest : List Int),
      asciiTables hl s1 = HRes.ok (praw, s2) → praw.m_datent "nps" = 1 :: 2 :: rest →
      (5 : Int) ∉ rest →
      ∃ p, ReadHeaderAscii hl pro s = HRes.ok (bannerInfo pro, p, s2) ∧
        p.m_datent "nps" = 1 :: 2 :: 5 :: 6 :: rest ∧
        p.m_nument "nps" = praw.m_nument "nps" + 2 := by
  have hlen : (nkw < 3 ∧ kwent.length = 9) ∨ (3 ≤ nkw ∧ kwent.length = 19) := by
    rcases asciiKeywords_cases hl s with h | ⟨n, k, s0, h, hc⟩
    · rw [h] at hkw; exact absurd hkw (by simp)
    · rw [h] at hkw
      simp only [HRes.ok.injEq, Prod.mk.injEq] at hkw
      rw [← hkw.1, ← hkw.2.1]
      exact hc
  have ht : has_tally_filter kwent = true := by
    rw [has_tally_filter_iff]
    exact Or.inl ⟨by omega, h2, h3⟩
  have hskip : asciiSkip (bannerInfo pro).m_code nkw (line4Values pro) kwent s1 = s1 := by
    rw [asciiSkip_eq, if_pos ht, if_neg (fun hc => hcode hc.1)]
  have hR : ReadHeaderAscii hl pro s =
      (asciiTables hl s1).bind
        (fun x => HRes.ok (bannerInfo pro, tallyInjection x.1, x.2)) := by
    rw [ReadHeaderAscii_eq hl pro s s1 nkw kwent hkw, hskip]
    simp only [ht, if_true]
  refine ⟨ht, hskip, hR, ?_⟩
  intro praw s2 rest htab hL h5
  have h5L : (5 : Int) ∉ praw.m_datent "nps" := by
    rw [hL]; simp [h5]
  obtain ⟨r1, r2, _, _⟩ := tallyInjection_run praw [1] rest h5L hL (by decide)
  refine ⟨tallyInjection praw, ?_, r1, r2⟩
  rw [hR, htab]
  rfl

/-- C21 on the header with the keyword line `2 1 100 1 -2 0 0 0 0 0` and the
code banner `mcnp`. -/
theorem C21_tally_scenario_witness :
    has_tally_filter [1, 100, 1, -2, 0, 0, 0, 0, 0] = true ∧
    asciiSkip (bannerInfo (exPrologue (-1))).m_code 2 (line4Values (exPrologue (-1)))
        [1, 100, 1, -2, 0, 0, 0, 0, 0] (exStream (Item.nl :: exTables)) =
      exStream (Item.nl :: exTables) ∧
    ReadHeaderAscii exHL (exPrologue (-1)) (exAsciiHeader exKwTally 3 [1, 2, 10, 22, 7]) =
      (asciiTables exHL (exStream (Item.nl :: exTables))).bind
        (fun x => HRes.ok (bannerInfo (exPrologue (-1)), tallyInjection x.1, x.2)) ∧
    ∀ (praw : Ptrac) (s2 : Stream) (rest : List Int),
      asciiTables exHL (exStream (Item.nl :: exTables)) = HRes.ok (praw, s2) →
      praw.m_datent "nps" = 1 :: 2 :: rest → (5 : Int) ∉ rest →
      ∃ p, ReadHeaderAscii exHL (exPrologue (-1))
          (exAsciiHeader exKwTally 3 [1, 2, 10, 22, 7]) =
          HRes.ok (bannerInfo (exPrologue (-1)), p, s2) ∧
        p.m_datent "nps" = 1 :: 2 :: 5 :: 6 :: rest ∧
        p.m_nument "nps" = praw.m_nument "nps" + 2 :=
  C21_tally_scenario exHL (exPrologue (-1)) (exAsciiHeader exKwTally 3 [1, 2, 10, 22, 7])
    (exStream (Item.nl :: exTables)) 2 [1, 100, 1, -2, 0, 0, 0, 0, 0] (by rfl) (by decide)
    (by decide) (by decide)

/-- C21 as stated fails: the keyword line `2 1 50 0 -2 0 0 0 0 0` has
`kw[3] = -2`, `kw[1] ≤ 100` and `kw[4] = 0` and the code banner is `mcnp`,
yet no tally filter is detected (`kw[2]` is not positive) and the layout of
`nps`, read as `[1, 2]`, is returned without 5 and 6. -/
theorem C21_counterexample :
    keywordView (asciiKeywords exHL (exAsciiHeader exKwMinusTwo 3 [1, 2, 10, 22, 7])) =
      some (2, [1, 50, 0, -2, 0, 0, 0, 0, 0]) ∧
    (bannerInfo (exPrologue (-1))).m_code ≠ "mcnp6" ∧
    ([1, 50, 0, -2, 0, 0, 0, 0, 0] : List Dbl).getD 3 0 = -2 ∧
    ([1, 50, 0, -2, 0, 0, 0, 0, 0] : List Dbl).getD 1 0 ≤ 100 ∧
    ([1, 50, 0, -2, 0, 0, 0, 0, 0] : List Dbl).getD 4 0 = 0 ∧
    has_tally_filter [1, 50, 0, -2, 0, 0, 0, 0, 0] = false ∧
    ∃ info praw p s1,
      asciiRaw exHL (exPrologue (-1)) (exAsciiHeader exKwMinusTwo 3 [1, 2, 10, 22, 7]) =
        HRes.ok (false, info, praw, s1) ∧
      praw.m_datent "nps" = [1, 2] ∧
      ReadHeaderAscii exHL (exPrologue (-1)) (exAsciiHeader exKwMinusTwo 3 [1, 2, 10, 22, 7]) =
        HRes.ok (info, p, s1) ∧
      p.m_datent "nps" = [1, 2] ∧ p.m_nument "nps" = 2 :=
  ⟨by rfl, by decide, by rfl, by decide, by rfl, by rfl,
    bannerInfo (exPrologue (-1)),
    rawOf (asciiRaw exHL (exPrologue (-1)) (exAsciiHeader exKwMinusTwo 3 [1, 2, 10, 22, 7])),
    headerOf (ReadHeaderAscii exHL (exPrologue (-1))
      (exAsciiHeader exKwMinusTwo 3 [1, 2, 10, 22, 7])),
    exStream [Item.nl], by rfl, by rfl, by rfl, by rfl, by rfl⟩

/-! ### C22 -/

/-- C22 (amended): for an ASCII header in which a tally filter is detected,
with or without another filter indicator, the parser consumes nothing between
the keyword lines and the numbers line when `nkw ≥ 3` or the code banner is
not `mcnp6`; with the banner `mcnp6` and `nkw < 3` it skips ten floats. -/
theorem C22_combined_no_skip (hl : HeaderLocals) (pro : Prologue) (s s1 : Stream) (nkw : Nat)
    (kwent : List Dbl) (hkw : asciiKeywords hl s = HRes.ok (nkw, kwent, s1))
    (ht : has_tally_filter kwent = true) :
    (3 ≤ nkw ∨ (bannerInfo pro).m_code ≠ "mcnp6" →
      asciiSkip (bannerInfo pro).m_code nkw (line4Values pro) kwent s1 = s1 ∧
      ReadHeaderAscii hl pro s =
        (asciiTables hl s1).bind
          (fun x => HRes.ok (bannerInfo pro, tallyInjection x.1, x.2))) ∧
    (nkw < 3 ∧ (bannerInfo pro).m_code = "mcnp6" →
      asciiSkip (bannerInfo pro).m_code nkw (line4Values pro) kwent s1 =
        skipDoubles PtracFormat.ASC_PTRAC 10 s1) := by
  constructor
  · intro hc
    have hskip : asciiSkip (bannerInfo pro).m_code nkw (line4Values pro) kwent s1 = s1 := by
      rw [asciiSkip_eq, if_pos ht, if_neg]
      rintro ⟨a, b⟩
      rcases hc with hc | hc
      · omega
      · exact hc a
    refine ⟨hskip, ?_⟩
    rw [ReadHeaderAscii_eq hl pro s s1 nkw kwent hkw, hskip]
    simp only [ht, if_true]
  · intro hc
    rw [asciiSkip_eq, if_pos ht, if_pos ⟨hc.2, hc.1⟩]

/-- C22 on a header of MCNP 6.3 with `nkw = 3` and two keyword lines that
show a type filter (`kw[3] = 2`, `kw[4] = 9`) and a tally filter
(`kw[9] = -1`). -/
theorem C22_combined_no_skip_witness :
    (3 ≤ 3 ∨ (bannerInfo exPrologue63).m_code ≠ "mcnp6" →
      asciiSkip (bannerInfo exPrologue63).m_code 3 (line4Values exPrologue63)
          [1, 100, 0, 2, 9, 0, 0, 0, 0, -1, 0, 0, 0, 0, 0, 0, 0, 0, 0]
          (exStream (Item.nl :: exTables)) = exStream (Item.nl :: exTables) ∧
      ReadHeaderAscii exHL exPrologue63 exFilterAllHeader =
        (asciiTables exHL (exStream (Item.nl :: exTables))).bind
          (fun x => HRes.ok (bannerInfo exPrologue63, tallyInjection x.1, x.2))) ∧
    (3 < 3 ∧ (bannerInfo exPrologue63).m_code = "mcnp6" →
      asciiSkip (bannerInfo exPrologue63).m_code 3 (line4Values exPrologue63)
          [1, 100, 0, 2, 9, 0, 0, 0, 0, -1, 0, 0, 0, 0, 0, 0, 0, 0, 0]
          (exStream (Item.nl :: exTables)) =
        skipDoubles PtracFormat.ASC_PTRAC 10 (exStream (Item.nl :: exTables))) :=
  C22_combined_no_skip exHL exPrologue63 exFilterAllHeader (exStream (Item.nl :: exTables)) 3
    [1, 100, 0, 2, 9, 0, 0, 0, 0, -1, 0, 0, 0, 0, 0, 0, 0, 0, 0] (by rfl) (by rfl)

/-- C22 as stated fails: with the code banner `mcnp6`, `nkw = 2`, a tally
filter (`kw[2] = 1`, `kw[3] = -2`) and an event filter (`line4[4] = 3`) the
parser consumes ten floats between the keyword line and the numbers line. -/
theorem C22_counterexample :
    keywordView (asciiKeywords exHL exTally63Header) =
      some (2, [1, 100, 1, -2, 0, 0, 0, 0, 0]) ∧
    has_tally_filter [1, 100, 1, -2, 0, 0, 0, 0, 0] = true ∧
    has_event_filter (line4Values exPrologue63Event) = true ∧
    asciiSkip (bannerInfo exPrologue63Event).m_code 2 (line4Values exPrologue63Event)
        [1, 100, 1, -2, 0, 0, 0, 0, 0] (exStream (Item.nl :: (exFilterLine ++ exTables))) =
      exStream (Item.nl :: exTables) ∧
    ∃ info p s1,
      ReadHeaderAscii exHL exPrologue63Event exTally63Header = HRes.ok (info, p, s1) ∧
      p.m_datent "nps" = [1, 2, 5, 6] ∧ p.m_datent "src1" = [10, 22, 7] :=
  ⟨by rfl, by rfl, by rfl, by rfl,
    bannerInfo exPrologue63Event,
    headerOf (ReadHeaderAscii exHL exPrologue63Event exTally63Header),
    exStream [Item.nl], by rfl, by rfl, by rfl⟩

/-! ### C30 -/

/-- An inserted element occurs in the vector. -/
theorem vecInsert_mem_self (i : Nat) (x : Int) (L : List Int) : x ∈ vecInsert i x L := by
  unfold vecInsert
  simp

/-- An insertion keeps the elements of the vector. -/
theorem vecInsert_mem_of_mem (i : Nat) (x y : Int) (L : List Int) (h : y ∈ L) :
    y ∈ vecInsert i x L := by
  unfold vecInsert
  rw [← List.take_append_drop i L] at h
  rw [List.mem_append] at h ⊢
  rcases h with h | h
  · exact Or.inl h
  · exact Or.inr (List.mem_cons_of_mem _ h)

/-- After the injection either nothing changed or 5 occurs in the layout. -/
theorem tallyInjection_has_tally (p : Ptrac) :
    tallyInjection p = p ∨ (5 : Int) ∈ (tallyInjection p).m_datent "nps" := by
  unfold tallyInjection
  by_cases h5 : (5 : Int) ∈ p.m_datent "nps"
  · left; rw [if_pos h5]
  · rw [if_neg h5]
    cases hf : firstIndex 2 (p.m_datent "nps") with
    | none => left; rfl
    | some pos =>
      right
      simp only [if_true]
      exact vecInsert_mem_of_mem _ _ _ _ (vecInsert_mem_self _ _ _)

/-- C30: the injection step changes nothing, neither a layout nor a count,
when 5 occurs in the layout of `nps` or 2 does not occur in it, and applying
the step twice gives what applying it once gives. -/
theorem C30_injection_idempotent (p : Ptrac) :
    ((5 : Int) ∈ p.m_datent "nps" ∨ (2 : Int) ∉ p.m_datent "nps" → tallyInjection p = p) ∧
    tallyInjection (tallyInjection p) = tallyInjection p := by
  refine ⟨tallyInjection_skip p, ?_⟩
  rcases tallyInjection_has_tally p with h | h
  · rw [h, h]
  · exact tallyInjection_skip (tallyInjection p) (Or.inl h)

/-- C30 on the header with the layout `[1, 2]` of `nps`: one step gives
`[1, 2, 5, 6]` and the count 4, and so do two steps. -/
theorem C30_injection_idempotent_witness :
    (tallyInjection exSrcHeader).m_datent "nps" = [1, 2, 5, 6] ∧
    (tallyInjection exSrcHeader).m_nument "nps" = exSrcHeader.m_nument "nps" + 2 ∧
    (tallyInjection (tallyInjection exSrcHeader)).m_datent "nps" = [1, 2, 5, 6] ∧
    (tallyInjection (tallyInjection exSrcHeader)).m_nument "nps" =
      exSrcHeader.m_nument "nps" + 2 :=
  ⟨by rfl, by rfl,
    by rw [(C30_injection_idempotent exSrcHeader).2]; rfl,
    by rw [(C30_injection_idempotent exSrcHeader).2]; rfl⟩

/-! ### C24 -/

/-- The filter-parameters record is never skipped: the detection is disabled. -/
theorem binFilterRecord_eq (st : BinState) : binFilterRecord st = st := by
  unfold binFilterRecord is_filtered_bin
  rw [if_neg (by decide)]

/-- The numbers record and the data-types record behind a header that the
binary branch returns: the second is read right behind the first. -/
theorem ReadHeaderBinary_records (fuel : Nat) (assertOn : Bool) (hl : HeaderLocals)
    (fsize : Int) (s s1 : Stream) (info : HeaderInfo) (p : Ptrac)
    (h : ReadHeaderBinary fuel assertOn hl fsize s = HRes.ok (info, p, s1)) :
    p.m_format = PtracFormat.BIN_PTRAC ∧
    ∃ st4 st5 st6, binNumbersRecord hl st4 = HRes.ok (p.m_nument, st5) ∧
      binTypesRecord hl p.m_nument st5 = HRes.ok (p.m_datent, st6) ∧ s1 = st6.s := by
  unfold ReadHeaderBinary at h
  obtain ⟨⟨v, st1⟩, _, h⟩ := HRes.bind_ok _ _ _ h
  obtain ⟨⟨code, st2⟩, _, h⟩ := HRes.bind_ok _ _ _ h
  obtain ⟨⟨com, st3⟩, _, h⟩ := HRes.bind_ok _ _ _ h
  obtain ⟨⟨nkw, kwent, st4⟩, _, h⟩ := HRes.bind_ok _ _ _ h
  obtain ⟨⟨nument, st5⟩, hn, h⟩ := HRes.bind_ok _ _ _ h
  obtain ⟨⟨datent, st6⟩, hd, h⟩ := HRes.bind_ok _ _ _ h
  simp only [HRes.ok.injEq, Prod.mk.injEq] at h
  rw [binFilterRecord_eq] at hd
  rw [← h.2.1, ← h.2.2]
  exact ⟨rfl, st4, st5, st6, hn, hd, rfl⟩

/-- The layout of `nps` that the data-types record yields is made of the
first `m_nument["nps"]` words behind its leading byte count. -/
theorem binTypesRecord_nps (hl : HeaderLocals) (nument : String → Int) (st st6 : BinState)
    (datent : String → List Int)
    (h : binTypesRecord hl nument st = HRes.ok (datent, st6)) :
    datent "nps" =
      (readN PtracFormat.BIN_PTRAC 64 hl.dtype (nument "nps").toNat
        (readInt PtracFormat.BIN_PTRAC 32 st.size1 st.s).2).1 := by
  unfold binTypesRecord at h
  split at h
  rename_i size1 sd heq
  rw [heq]
  split at h
  · rename_i dat se hdt
    split at h
    rename_i size2 sf hf
    split at h
    · exact absurd h (by simp)
    · simp only [HRes.ok.injEq, Prod.mk.injEq] at h
      rw [← h.1]
      exact tables_nps _ _ _ _ _ hdt
  · exact absurd h (by simp)
  · exact absurd h (by simp)
  · exact absurd h (by simp)
  · exact absurd h (by simp)

/-- C24: the binary branch never skips a filter-parameters record, whatever
the numbers record holds: in a header that it returns the data-types record
is the one read right behind the numbers record, the counts are the numbers
read, and the layout of `nps` is the first `m_nument["nps"]` words of the
data-types record, with nothing inserted. -/
theorem C24_binary_unfiltered (fuel : Nat) (assertOn : Bool) (hl : HeaderLocals)
    (fsize : Int) (s s1 : Stream) (info : HeaderInfo) (p : Ptrac)
    (h : ReadHeaderBinary fuel assertOn hl fsize s = HRes.ok (info, p, s1)) :
    (∀ st, binFilterRecord st = st) ∧
    ∃ st4 st5 st6, binNumbersRecord hl st4 = HRes.ok (p.m_nument, st5) ∧
      binTypesRecord hl p.m_nument st5 = HRes.ok (p.m_datent, st6) ∧ s1 = st6.s ∧
      p.m_datent "nps" =
        (readN PtracFormat.BIN_PTRAC 64 hl.dtype (p.m_nument "nps").toNat
          (readInt PtracFormat.BIN_PTRAC 32 st5.size1 st5.s).2).1 ∧
      (p.m_datent "nps").length = (p.m_nument "nps").toNat := by
  refine ⟨binFilterRecord_eq, ?_⟩
  obtain ⟨_, st4, st5, st6, hn, hd, hs⟩ :=
    ReadHeaderBinary_records fuel assertOn hl fsize s s1 info p h
  have hnps := binTypesRecord_nps hl p.m_nument st5 st6 p.m_datent hd
  refine ⟨st4, st5, st6, hn, hd, hs, hnps, ?_⟩
  rw [hnps, readN_length]

/-- C24 on a binary header whose numbers record has `nbnk2 = 1`, `nter1 = 0`
and `unused[2] = 7`. -/
theorem C24_binary_unfiltered_witness :
    (∀ st, binFilterRecord st = st) ∧
    ∃ st4 st5 st6,
      binNumbersRecord exHL st4 =
        HRes.ok ((headerOf (ReadHeaderBinary 20 true exHL 1000 exBinHeader)).m_nument, st5) ∧
      binTypesRecord exHL (headerOf (ReadHeaderBinary 20 true exHL 1000 exBinHeader)).m_nument
          st5 =
        HRes.ok ((headerOf (ReadHeaderBinary 20 true exHL 1000 exBinHeader)).m_datent, st6) ∧
      wordStream [] = st6.s ∧
      (headerOf (ReadHeaderBinary 20 true exHL 1000 exBinHeader)).m_datent "nps" =
        (readN PtracFormat.BIN_PTRAC 64 exHL.dtype
          ((headerOf (ReadHeaderBinary 20 true exHL 1000 exBinHeader)).m_nument "nps").toNat
          (readInt PtracFormat.BIN_PTRAC 32 st5.size1 st5.s).2).1 ∧
      ((headerOf (ReadHeaderBinary 20 true exHL 1000 exBinHeader)).m_datent "nps").length =
        ((headerOf (ReadHeaderBinary 20 true exHL 1000 exBinHeader)).m_nument "nps").toNat :=
  C24_binary_unfiltered 20 true exHL 1000 exBinHeader (wordStream [])
    (infoOf (ReadHeaderBinary 20 true exHL 1000 exBinHeader))
    (headerOf (ReadHeaderBinary 20 true exHL 1000 exBinHeader)) (by rfl)

/-! ### C27 -/

/-- A string made of bytes has as many characters as there are bytes. -/
theorem bytesToString_length (bs : List Int) : (bytesToString bs).length = bs.length := by
  unfold bytesToString
  rw [String.length, List.length_map]

/-- The comment record, case by case on the leading byte count. -/
theorem binCommentRecord_eq (assertOn : Bool) (st : BinState) (size1 size2 : Int)
    (s1 s3 : Stream)
    (h1 : readInt PtracFormat.BIN_PTRAC 32 st.size1 st.s = (size1, s1))
    (h2 : readInt PtracFormat.BIN_PTRAC 32 st.size2
      (readN PtracFormat.BIN_PTRAC 8 0 size1.toNat s1).2 = (size2, s3)) :
    binCommentRecord assertOn st =
      if assertOn = true ∧ ¬ (size1 = 80 ∨ size1 = 128) then HRes.abort
      else if size1 < 0 then HRes.exn
      else if size1 ≠ size2 then HRes.exn
      else HRes.ok (bytesToString (readN PtracFormat.BIN_PTRAC 8 0 size1.toNat s1).1,
        { size1 := size1, size2 := size2, s := s3 }) := by
  unfold binCommentRecord
  split
  rename_i a b heq
  rw [h1] at heq
  cases heq
  by_cases ha : assertOn = true ∧ ¬ (size1 = 80 ∨ size1 = 128)
  · rw [if_pos ha, if_pos ha]
  · rw [if_neg ha, if_neg ha]
    by_cases hneg : size1 < 0
    · rw [if_pos hneg, if_pos hneg]
    · rw [if_neg hneg, if_neg hneg]
      split
      rename_i com s2 hc
      rw [hc] at h2 ⊢
      split
      rename_i c d heq2
      have h2b : readInt PtracFormat.BIN_PTRAC 32 st.size2 s2 = (size2, s3) := h2
      rw [h2b] at heq2
      cases heq2
      rfl

/-- An abort of the comment record is the result of `ReadHeaderBinary`. -/
theorem ReadHeaderBinary_abort (fuel : Nat) (assertOn : Bool) (hl : HeaderLocals)
    (fsize : Int) (s : Stream) (v : Int) (st1 st2 : BinState)
    (code : String × String × String × String)
    (h1 : binVersionRecord hl fsize s = HRes.ok (v, st1))
    (h2 : binCodeRecord hl st1 = HRes.ok (code, st2))
    (h3 : binCommentRecord assertOn st2 = HRes.abort) :
    ReadHeaderBinary fuel assertOn hl fsize s = HRes.abort := by
  unfold ReadHeaderBinary
  rw [h1, HRes.ok_bind]
  dsimp only
  rw [h2, HRes.ok_bind]
  dsimp only
  rw [h3]
  rfl

/-- C27 fails on the code: the leading byte count `n` of the comment record is
checked by an `assert` only, where the version record throws. When assertions
are compiled out, a count other than 80 and 128 does not make the parser
fail: a negative count throws, and any other count is taken, so that the
record throws only when its trailing count differs from `n` and otherwise
the comment is the `n` payload bytes. When assertions are compiled in, a
count other than 80 and 128 aborts the run. For 80 and 128 the comment is
exactly the `n` payload bytes. -/
theorem C27_comment_record (assertOn : Bool) (st : BinState) (size1 size2 : Int)
    (s1 s3 : Stream)
    (h1 : readInt PtracFormat.BIN_PTRAC 32 st.size1 st.s = (size1, s1))
    (h2 : readInt PtracFormat.BIN_PTRAC 32 st.size2
      (readN PtracFormat.BIN_PTRAC 8 0 size1.toNat s1).2 = (size2, s3)) :
    (assertOn = true → ¬ (size1 = 80 ∨ size1 = 128) →
      binCommentRecord assertOn st = HRes.abort ∧
      ∀ (fuel : Nat) (hl : HeaderLocals) (fsize : Int) (s : Stream) (v : Int)
        (st1 : BinState) (code : String × String × String × String),
        binVersionRecord hl fsize s = HRes.ok (v, st1) →
        binCodeRecord hl st1 = HRes.ok (code, st) →
        ReadHeaderBinary fuel assertOn hl fsize s = HRes.abort) ∧
    (assertOn = false → size1 < 0 → binCommentRecord assertOn st = HRes.exn) ∧
    ((assertOn = false ∧ 0 ≤ size1) ∨ size1 = 80 ∨ size1 = 128 →
      (size1 ≠ size2 → binCommentRecord assertOn st = HRes.exn) ∧
      (size1 = size2 →
        binCommentRecord assertOn st =
          HRes.ok (bytesToString (readN PtracFormat.BIN_PTRAC 8 0 size1.toNat s1).1,
            { size1 := size1, size2 := size2, s := s3 }) ∧
        ((bytesToString (readN PtracFormat.BIN_PTRAC 8 0 size1.toNat s1).1).length : Int) =
          size1)) := by
  have hE := binCommentRecord_eq assertOn st size1 size2 s1 s3 h1 h2
  refine ⟨?_, ?_, ?_⟩
  · intro ha hn
    have hab : binCommentRecord assertOn st = HRes.abort := by
      rw [hE, if_pos ⟨ha, hn⟩]
    refine ⟨hab, ?_⟩
    intro fuel hl fsize s v st1 code hv hc
    exact ReadHeaderBinary_abort fuel assertOn hl fsize s v st1 st code hv hc hab
  · intro ha hneg
    rw [hE, if_neg (fun hc => by rw [ha] at hc; exact absurd hc.1 (by decide)), if_pos hneg]
  · intro hc
    have hna : ¬ (assertOn = true ∧ ¬ (size1 = 80 ∨ size1 = 128)) := by
      rintro ⟨a, b⟩
      rcases hc with ⟨c, _⟩ | c
      · rw [c] at a; exact absurd a (by decide)
      · exact b c
    have hpos : ¬ size1 < 0 := by
      rcases hc with ⟨_, c⟩ | c | c <;> omega
    constructor
    · intro hne
      rw [hE, if_neg hna, if_neg hpos, if_pos hne]
    · intro heq
      refine ⟨?_, ?_⟩
      · rw [hE, if_neg hna, if_neg hpos, if_neg (by simpa using heq)]
      · rw [bytesToString_length, readN_length]
        exact Int.toNat_of_nonneg (by omega)

/-- C27 on the failing input: a header whose comment record has the byte
counts 4 and 4 and the payload `ABCD`: with assertions compiled out the header is parsed and its
comment is `ABCD`; with assertions compiled in the run aborts. -/
theorem C27_comment_record_witness :
    ((false = true → ¬ ((4 : Int) = 80 ∨ (4 : Int) = 128) →
      binCommentRecord false
          { size1 := 0, size2 := 0, s := wordStream [4, 65, 66, 67, 68, 4] } = HRes.abort ∧
      ∀ (fuel : Nat) (hl : HeaderLocals) (fsize : Int) (s : Stream) (v : Int)
        (st1 : BinState) (code : String × String × String × String),
        binVersionRecord hl fsize s = HRes.ok (v, st1) →
        binCodeRecord hl st1 = HRes.ok (code,
          { size1 := 0, size2 := 0, s := wordStream [4, 65, 66, 67, 68, 4] }) →
        ReadHeaderBinary fuel false hl fsize s = HRes.abort) ∧
    (false = false → (4 : Int) < 0 →
      binCommentRecord false
          { size1 := 0, size2 := 0, s := wordStream [4, 65, 66, 67, 68, 4] } = HRes.exn) ∧
    ((false = false ∧ (0 : Int) ≤ 4) ∨ (4 : Int) = 80 ∨ (4 : Int) = 128 →
      ((4 : Int) ≠ 4 →
        binCommentRecord false
            { size1 := 0, size2 := 0, s := wordStream [4, 65, 66, 67, 68, 4] } = HRes.exn) ∧
      ((4 : Int) = 4 →
        binCommentRecord false
            { size1 := 0, size2 := 0, s := wordStream [4, 65, 66, 67, 68, 4] } =
          HRes.ok (bytesToString (readN PtracFormat.BIN_PTRAC 8 0 (4 : Int).toNat
              (wordStream [65, 66, 67, 68, 4])).1,
            { size1 := 4, size2 := 4, s := wordStream [] }) ∧
        ((bytesToString (readN PtracFormat.BIN_PTRAC 8 0 (4 : Int).toNat
            (wordStream [65, 66, 67, 68, 4])).1).length : Int) = 4))) ∧
    binCommentRecord false
        { size1 := 0, size2 := 0, s := wordStream [4, 65, 66, 67, 68, 4] } =
      HRes.ok ("ABCD", { size1 := 4, size2 := 4, s := wordStream [] }) ∧
    headerView (ReadHeader 20 false exHL PtracFormat.BIN_PTRAC 1000 (exPrologue (-1))
        (exBinRecords [4, 65, 66, 67, 68, 4])) =
      some (-1, [(2, [1, 2]), (3, [10, 22, 7]), (0, []), (0, []), (1, [7]), (0, []), (0, []),
        (0, []), (0, []), (0, []), (0, [])]) ∧
    (infoOf (ReadHeader 20 false exHL PtracFormat.BIN_PTRAC 1000 (exPrologue (-1))
        (exBinRecords [4, 65, 66, 67, 68, 4]))).m_comment = "ABCD" ∧
    binCommentRecord true
        { size1 := 0, size2 := 0, s := wordStream [4, 65, 66, 67, 68, 4] } = HRes.abort ∧
    headerView (ReadHeader 20 true exHL PtracFormat.BIN_PTRAC 1000 (exPrologue (-1))
        (exBinRecords [4, 65, 66, 67, 68, 4])) = none :=
  ⟨C27_comment_record false
      { size1 := 0, size2 := 0, s := wordStream [4, 65, 66, 67, 68, 4] } 4 4
      (wordStream [65, 66, 67, 68, 4]) (wordStream []) (by rfl) (by rfl),
    by rfl, by rfl, by rfl, by rfl, by rfl⟩

/-! ### C28 -/

/-- The five primary codes are multiples of 1000 below `2^31` other than LST. -/
theorem primaryTypes_facts (T : Int) (hT : T ∈ primaryTypes) :
    0 ≤ T ∧ T < 2 ^ 31 ∧ (1000 : Int) ∣ T ∧ T ≠ Ptrac.LST := by
  simp only [primaryTypes, Ptrac.SRC, Ptrac.BNK, Ptrac.SUR, Ptrac.COL, Ptrac.TER,
    List.mem_cons, List.mem_singleton, List.mem_nil_iff, or_false] at hT
  rcases hT with h | h | h | h | h <;> subst h <;> decide

/-- The passes of the event loop from a state whose code is a primary code `T`
with a layout without `NEXT_EVENT_TYPE`: after `k` passes, `k` events of type
`T` are appended and the code is `T` again, unless a pass has thrown. -/
theorem eventLoop_passes (p : Ptrac) (u : Locals) (T : Int) (hT : T ∈ primaryTypes)
    (h7 : Ptrac.NEXT_EVENT_TYPE ∉ allDataTypes p T) :
    ∀ (k : Nat) (st : LoopState) (events : List PtracEvent),
      st.next_event_type = (T : ℚ) →
      (∃ evs st1, evs.length = k ∧ (∀ e ∈ evs, e.m_type = T ∧ e.m_bnktype = 0) ∧
        st1.next_event_type = (T : ℚ) ∧
        ∀ fuel, eventLoop p u (k + fuel) st events = eventLoop p u fuel st1 (events ++ evs)) ∨
      (p.m_format = PtracFormat.BIN_PTRAC ∧
        ∀ fuel, k ≤ fuel → eventLoop p u fuel st events = Res.exn) := by
  obtain ⟨h0, h1, hd, hl⟩ := primaryTypes_facts T hT
  intro k
  induction k with
  | zero =>
    intro st events hst
    left
    refine ⟨[], st, rfl, by simp, hst, fun fuel => ?_⟩
    rw [Nat.zero_add, List.append_nil]
  | succ k ih =>
    intro st events hst
    have hdec := decodeNext_multiple T h0 h1 hd hl
    rw [← hst] at hdec
    rcases eventBody_cases p u T 0 st with ⟨ev, st1, hb, ht, hbk⟩ | ⟨hf, hb⟩
    · have hnx := eventBody_next_absent p u T 0 st h7 ev st1 hb
      rcases ih st1 (events ++ [ev]) hnx with ⟨evs, st2, hlen, hall, hn2, hrun⟩ | ⟨hf, hrun⟩
      · left
        refine ⟨ev :: evs, st2, by rw [List.length_cons, hlen], ?_, hn2, fun fuel => ?_⟩
        · intro e he
          rcases List.mem_cons.mp he with h | h
          · rw [h]; exact ⟨ht, hbk⟩
          · exact hall e h
        · have e1 : k + 1 + fuel = (k + fuel) + 1 := by omega
          rw [e1, eventLoop_step p u (k + fuel) st st1 events T 0 ev hdec hb, hrun fuel,
            List.append_assoc]
          rfl
      · right
        refine ⟨hf, fun fuel hk => ?_⟩
        obtain ⟨f, rfl⟩ : ∃ f, fuel = f + 1 := ⟨fuel - 1, by omega⟩
        rw [eventLoop_step p u f st st1 events T 0 ev hdec hb]
        exact hrun f (by omega)
    · right
      refine ⟨hf, fun fuel hk => ?_⟩
      obtain ⟨f, rfl⟩ : ∃ f, fuel = f + 1 := ⟨fuel - 1, by omega⟩
      exact eventLoop_exn p u f st events T 0 hdec hb

/-- C28: when the layout of an event kind with primary code `T` holds no
`NEXT_EVENT_TYPE`, decoding an event of that kind leaves the next-event code
equal to `T`, and from such a state the event loop never reaches the LST
sentinel: it returns for no amount of fuel, and every further pass appends
one more event of type `T`, unless, in binary format, a pass throws on
differing byte counts. In ASCII format the loop runs out of every fuel. -/
theorem C28_no_next_event_type (p : Ptrac) (u : Locals) (T : Int) (hT : T ∈ primaryTypes)
    (h7 : Ptrac.NEXT_EVENT_TYPE ∉ allDataTypes p T) :
    (∀ (b : Int) (st : LoopState) (ev : PtracEvent) (st1 : LoopState),
      eventBody p u T b st = Res.ok (ev, st1) →
      ev.m_type = T ∧ st1.next_event_type = (T : ℚ)) ∧
    ∀ (st : LoopState) (events : List PtracEvent), st.next_event_type = (T : ℚ) →
      (∀ fuel r, eventLoop p u fuel st events ≠ Res.ok r) ∧
      (∀ k : Nat,
        (∃ evs st1, evs.length = k ∧ (∀ e ∈ evs, e.m_type = T ∧ e.m_bnktype = 0) ∧
          st1.next_event_type = (T : ℚ) ∧
          ∀ fuel,
            eventLoop p u (k + fuel) st events = eventLoop p u fuel st1 (events ++ evs)) ∨
        (p.m_format = PtracFormat.BIN_PTRAC ∧
          ∀ fuel, k ≤ fuel → eventLoop p u fuel st events = Res.exn)) ∧
      (p.m_format = PtracFormat.ASC_PTRAC →
        ∀ fuel, eventLoop p u fuel st events = Res.oof) := by
  obtain ⟨h0, h1, hd, hl⟩ := primaryTypes_facts T hT
  refine ⟨?_, ?_⟩
  · intro b st ev st1 hb
    refine ⟨?_, eventBody_next_absent p u T b st h7 ev st1 hb⟩
    rcases eventBody_cases p u T b st with ⟨ev2, st2, hb2, ht, _⟩ | ⟨_, hb2⟩
    · rw [hb] at hb2
      simp only [Res.ok.injEq, Prod.mk.injEq] at hb2
      rw [hb2.1]; exact ht
    · rw [hb] at hb2; exact absurd hb2 (by simp)
  · intro st events hst
    refine ⟨fun fuel r => eventLoop_no_next p u T h0 h1 hd hl h7 fuel st events hst r,
      fun k => eventLoop_passes p u T hT h7 k st events hst, ?_⟩
    intro hfmt fuel
    rcases eventLoop_passes p u T hT h7 fuel st events hst with
      ⟨evs, st1, _, _, _, hrun⟩ | ⟨hf, _⟩
    · have := hrun 0
      rw [Nat.add_zero] at this
      rw [this]
      rfl
    · rw [hfmt] at hf; exact absurd hf (by decide)

/-- C28 on the header whose layout of `src1` is `[NODE, X, Y]`. -/
theorem C28_no_next_event_type_witness :
    (∀ (b : Int) (st : LoopState) (ev : PtracEvent) (st1 : LoopState),
      eventBody exSrcHeaderY exLocals 1000 b st = Res.ok (ev, st1) →
      ev.m_type = 1000 ∧ st1.next_event_type = ((1000 : Int) : ℚ)) ∧
    ∀ (st : LoopState) (events : List PtracEvent),
      st.next_event_type = ((1000 : Int) : ℚ) →
      (∀ fuel r, eventLoop exSrcHeaderY exLocals fuel st events ≠ Res.ok r) ∧
      (∀ k : Nat,
        (∃ evs st1, evs.length = k ∧ (∀ e ∈ evs, e.m_type = 1000 ∧ e.m_bnktype = 0) ∧
          st1.next_event_type = ((1000 : Int) : ℚ) ∧
          ∀ fuel,
            eventLoop exSrcHeaderY exLocals (k + fuel) st events =
              eventLoop exSrcHeaderY exLocals fuel st1 (events ++ evs)) ∨
        (exSrcHeaderY.m_format = PtracFormat.BIN_PTRAC ∧
          ∀ fuel, k ≤ fuel → eventLoop exSrcHeaderY exLocals fuel st events = Res.exn)) ∧
      (exSrcHeaderY.m_format = PtracFormat.ASC_PTRAC →
        ∀ fuel, eventLoop exSrcHeaderY exLocals fuel st events = Res.oof) :=
  C28_no_next_event_type exSrcHeaderY exLocals 1000 (by decide) (by decide)

/-! ### The keyword records of a binary header -/

/-- The equation of the group count for one more test of its condition. -/
theorem carveLoop_succ (kwent : List Dbl) (fuel i nkwcnt : Nat) :
    carveLoop kwent (fuel + 1) i nkwcnt =
      if i < kwent.length then
        match castUInt (kwent.getD i 0) with
        | none => HRes.ub
        | some num_ent =>
          carveLoop kwent fuel ((i + (num_ent + 1) % 2 ^ 32) % 2 ^ 32) (nkwcnt + 1)
      else HRes.ok nkwcnt := rfl

/-- The conversion to `unsigned int` of a double that holds a natural number
below `2^32`. -/
theorem castUInt_natCast (n : Nat) (h : n < 2 ^ 32) : castUInt ((n : Int) : ℚ) = some n := by
  unfold castUInt
  have hnum : (((n : Int) : ℚ)).num = (n : Int) := Rat.num_intCast _
  have hden : (((n : Int) : ℚ)).den = 1 := Rat.den_intCast _
  simp only [hnum, hden, Nat.cast_one, Int.tdiv_one]
  rw [if_pos ⟨by omega, by omega⟩, Int.toNat_ofNat]

/-- The bound on the number of groups does not matter once it reaches the
number of slots. -/
theorem startedFrom_fuel :
    ∀ (f g : Nat) (L : List Nat), L.length ≤ f → L.length ≤ g →
      startedFrom f L = startedFrom g L := by
  intro f
  induction f with
  | zero =>
    intro g L hf _
    have : L = [] := List.eq_nil_of_length_eq_zero (by omega)
    subst this
    cases g <;> rfl
  | succ f ih =>
    intro g L hf hg
    cases L with
    | nil => cases g <;> rfl
    | cons a L =>
      cases g with
      | zero => simp at hg
      | succ g =>
        simp only [startedFrom]
        rw [ih g (L.drop a) (by simp at hf ⊢; omega) (by simp at hg ⊢; omega)]

/-- The groups that begin in a list begin with its first slot. -/
theorem groupsStarted_cons (a : Nat) (L : List Nat) :
    groupsStarted (a :: L) = 1 + groupsStarted (L.drop a) := by
  unfold groupsStarted
  simp only [List.length_cons, startedFrom]
  rw [startedFrom_fuel L.length (L.drop a).length (L.drop a) (by simp) (le_refl _)]

/-- The loop that counts the keyword groups counts the groups that have begun:
on slots that are natural numbers below `2^31`, fewer than `2^31` of them, the
count from index `i` on adds the groups that begin in the slots from `i` on. -/
theorem carveLoop_started (L : List Nat) (hlen : L.length < 2 ^ 31)
    (hsmall : ∀ n ∈ L, n < 2 ^ 31) :
    ∀ (fuel i cnt : Nat), L.length - i < fuel →
      carveLoop (natSlots L) fuel i cnt = HRes.ok (cnt + groupsStarted (L.drop i)) := by
  intro fuel
  induction fuel with
  | zero => intro i cnt h; omega
  | succ fuel ih =>
    intro i cnt hf
    rw [carveLoop_succ]
    have hl : (natSlots L).length = L.length := by
      unfold natSlots; rw [List.length_map]
    rw [hl]
    by_cases hi : i < L.length
    · rw [if_pos hi]
      have hget : (natSlots L).getD i 0 = ((L[i] : Int) : ℚ) := by
        unfold natSlots
        rw [List.getD_eq_getElem?_getD, List.getElem?_map, List.getElem?_eq_getElem hi]
        rfl
      have hn : L[i] < 2 ^ 31 := hsmall _ (List.getElem_mem hi)
      rw [hget, castUInt_natCast _ (by omega)]
      simp only
      have hi2 : (i + (L[i] + 1) % 2 ^ 32) % 2 ^ 32 = i + L[i] + 1 := by omega
      rw [hi2, ih (i + L[i] + 1) (cnt + 1) (by omega)]
      have hdrop : L.drop i = L[i] :: L.drop (i + 1) := List.drop_eq_getElem_cons hi
      rw [hdrop, groupsStarted_cons, List.drop_drop]
      have e : i + 1 + L[i] = i + L[i] + 1 := by omega
      rw [e]
      congr 1
      omega
    · rw [if_neg hi, List.drop_eq_nil_of_le (by omega)]
      rfl

/-- A complete group has begun: the slots hold at least as many groups that
have begun as complete groups. -/
theorem completeFrom_le_startedFrom :
    ∀ (f : Nat) (L : List Nat), completeFrom f L ≤ startedFrom f L := by
  intro f
  induction f with
  | zero => intro L; simp [completeFrom, startedFrom]
  | succ f ih =>
    intro L
    cases L with
    | nil => simp [completeFrom, startedFrom]
    | cons a L =>
      simp only [completeFrom, startedFrom]
      split
      · have := ih (L.drop a); omega
      · omega

/-- A binary read of an integer word that fits the variable. -/
theorem readInt_word (w : Nat) (cur v : Int) (rest : List Int) (h : inRange w v = true) :
    readInt PtracFormat.BIN_PTRAC w cur (wordStream (v :: rest)) = (v, wordStream rest) := by
  have hp : pickInt w (Tok.int v) = some v := by
    unfold pickInt Tok.int
    simp only [h, if_true]
  have he := extract_some PtracFormat.BIN_PTRAC (pickInt w) (0 : Int)
    ((v :: rest).map (fun v => Item.tok (Tok.int v)))
    (rest.map (fun v => Item.tok (Tok.int v))) (Tok.int v) v rfl hp
  unfold readInt wordStream exStream
  rw [he]
  simp

/-- A binary read of a block of doubles from integer words. -/
theorem readBlock_words (junk : Dbl) :
    ∀ (vs rest : List Int),
      readBlock PtracFormat.BIN_PTRAC junk vs.length (wordStream (vs ++ rest)) =
        (vs.map (fun (v : Int) => (v : ℚ)), wordStream rest) := by
  intro vs
  induction vs with
  | nil => intro rest; rfl
  | cons v vs ih =>
    intro rest
    have he := extract_some PtracFormat.BIN_PTRAC Tok.asReal (0 : Dbl)
      ((v :: (vs ++ rest)).map (fun v => Item.tok (Tok.int v)))
      ((vs ++ rest).map (fun v => Item.tok (Tok.int v))) (Tok.int v) (v : ℚ) rfl rfl
    have hs : extract PtracFormat.BIN_PTRAC Tok.asReal (0 : Dbl) (wordStream (v :: vs ++ rest)) =
        (some (v : ℚ), wordStream (vs ++ rest)) := by
      unfold wordStream exStream
      rw [List.cons_append, he]
      simp
    rw [List.length_cons, readBlock, hs]
    simp only [Option.getD_some]
    rw [ih rest]
    rfl

/-- The doubles of a list of natural numbers, read through the integer words. -/
theorem natSlots_words (L : List Nat) :
    (L.map (fun (n : Nat) => (n : Int))).map (fun (v : Int) => (v : ℚ)) = natSlots L := by
  unfold natSlots
  rw [List.map_map]
  rfl

/-- The count of the groups of a list of slots. -/
theorem carveLoop_slots (L : List Nat) (cfuel : Nat) (hc : L.length < cfuel)
    (hlen : L.length < 2 ^ 31) (hsmall : ∀ n ∈ L, n < 2 ^ 31) :
    carveLoop (natSlots L) cfuel 0 0 = HRes.ok (groupsStarted L) := by
  rw [carveLoop_started L hlen hsmall cfuel 0 0 (by omega), Nat.zero_add, List.drop_zero]

/-- The loop over the keyword records behind the first record: on `q + 1`
well-framed records it stops behind the last one when that is the first at
which the groups that have begun reach `nkw`. -/
theorem binKeywordRecords_rest (hl : HeaderLocals) (cfuel : Nat) (size : Int) (nkw : Nat)
    (hsize : inRange 32 size = true) :
    ∀ (q : Nat) (acc rem : List Nat) (fuel : Nat) (a b : Int) (rest : List Int),
      rem.length = 10 * (q + 1) → q + 1 ≤ fuel → (acc ++ rem).length < cfuel →
      (acc ++ rem).length < 2 ^ 31 → (∀ n ∈ acc ++ rem, n < 2 ^ 31) →
      nkw ≤ groupsStarted (acc ++ rem) →
      (∀ q0, 1 ≤ q0 → q0 ≤ q → groupsStarted (acc ++ rem.take (10 * q0)) < nkw) →
      binKeywordRecords hl cfuel fuel false nkw (natSlots acc)
          { size1 := a, size2 := b, s := wordStream (records size (q + 1) rem ++ rest) } =
        HRes.ok (nkw, natSlots (acc ++ rem),
          { size1 := size, size2 := size, s := wordStream rest }) := by
  intro q
  induction q with
  | zero =>
    intro acc rem fuel a b rest hrem hfuel hcf h31 hsmall hstop _
    obtain ⟨f, rfl⟩ : ∃ f, fuel = f + 1 := ⟨fuel - 1, by omega⟩
    have htake : rem.take 10 = rem := List.take_of_length_le (by omega)
    have hstream : records size (0 + 1) rem ++ rest =
        size :: (rem.map (fun (n : Nat) => (n : Int)) ++ (size :: rest)) := by
      simp only [records, frame, htake, List.append_nil, List.cons_append, List.append_assoc,
        List.nil_append, Nat.zero_add]
    rw [hstream]
    have h1 := readInt_word 32 a size
      (rem.map (fun (n : Nat) => (n : Int)) ++ (size :: rest)) hsize
    have hb := readBlock_words hl.tmp (rem.map (fun (n : Nat) => (n : Int))) (size :: rest)
    rw [List.length_map, hrem, natSlots_words] at hb
    have h2 := readInt_word 32 b size rest hsize
    have hc : carveLoop (natSlots acc ++ natSlots rem) cfuel 0 0 =
        HRes.ok (groupsStarted (acc ++ rem)) := by
      have := carveLoop_slots (acc ++ rem) cfuel hcf h31 hsmall
      unfold natSlots at this ⊢
      rw [List.map_append] at this
      exact this
    have hstep := binKeywordRecords_step hl cfuel f false nkw nkw (groupsStarted (acc ++ rem))
      (natSlots acc) (natSlots rem)
      { size1 := a, size2 := b,
        s := wordStream (size :: (rem.map (fun (n : Nat) => (n : Int)) ++ (size :: rest))) }
      size size _ _ _ h1 hb rfl hc h2
    rw [hstep, if_neg (by simp), if_pos hstop]
    have e : natSlots acc ++ natSlots rem = natSlots (acc ++ rem) := by
      unfold natSlots; rw [List.map_append]
    simp only [Bool.false_eq_true, if_false, e]
  | succ q ih =>
    intro acc rem fuel a b rest hrem hfuel hcf h31 hsmall hstop hmin
    obtain ⟨f, rfl⟩ : ∃ f, fuel = f + 1 := ⟨fuel - 1, by omega⟩
    have htl : (rem.take 10).length = 10 := by
      rw [List.length_take]; omega
    have hsplit : rem.take 10 ++ rem.drop 10 = rem := List.take_append_drop 10 rem
    have hstream : records size (q + 1 + 1) rem ++ rest =
        size :: ((rem.take 10).map (fun (n : Nat) => (n : Int)) ++
          (size :: (records size (q + 1) (rem.drop 10) ++ rest))) := by
      rw [records]
      simp only [frame, List.cons_append, List.append_assoc, List.nil_append]
    rw [hstream]
    have h1 := readInt_word 32 a size
      ((rem.take 10).map (fun (n : Nat) => (n : Int)) ++
        (size :: (records size (q + 1) (rem.drop 10) ++ rest))) hsize
    have hb := readBlock_words hl.tmp ((rem.take 10).map (fun (n : Nat) => (n : Int)))
      (size :: (records size (q + 1) (rem.drop 10) ++ rest))
    rw [List.length_map, htl, natSlots_words] at hb
    have h2 := readInt_word 32 b size (records size (q + 1) (rem.drop 10) ++ rest) hsize
    have hsub : ∀ n ∈ acc ++ rem.take 10, n < 2 ^ 31 := by
      intro n hn
      apply hsmall
      rw [List.mem_append] at hn ⊢
      rcases hn with h | h
      · exact Or.inl h
      · exact Or.inr (List.mem_of_mem_take h)
    have hlen2 : (acc ++ rem.take 10).length ≤ (acc ++ rem).length := by
      rw [List.length_append, List.length_append, htl]; omega
    have hc : carveLoop (natSlots acc ++ natSlots (rem.take 10)) cfuel 0 0 =
        HRes.ok (groupsStarted (acc ++ rem.take 10)) := by
      have := carveLoop_slots (acc ++ rem.take 10) cfuel (by omega) (by omega) hsub
      unfold natSlots at this ⊢
      rw [List.map_append] at this
      exact this
    have hstep := binKeywordRecords_step hl cfuel f false nkw nkw
      (groupsStarted (acc ++ rem.take 10)) (natSlots acc) (natSlots (rem.take 10))
      { size1 := a, size2 := b,
        s := wordStream (size :: ((rem.take 10).map (fun (n : Nat) => (n : Int)) ++
          (size :: (records size (q + 1) (rem.drop 10) ++ rest)))) }
      size size _ _ _ h1 hb rfl hc h2
    have hlt : groupsStarted (acc ++ rem.take 10) < nkw := by
      have := hmin 1 (le_refl 1) (by omega)
      rwa [Nat.mul_one] at this
    rw [hstep, if_neg (by simp), if_neg (by omega)]
    have e : natSlots acc ++ natSlots (rem.take 10) = natSlots (acc ++ rem.take 10) := by
      unfold natSlots; rw [List.map_append]
    simp only [Bool.false_eq_true, if_false, e]
    have hassoc : (acc ++ rem.take 10) ++ rem.drop 10 = acc ++ rem := by
      rw [List.append_assoc, hsplit]
    have := ih (acc ++ rem.take 10) (rem.drop 10) f size size rest
      (by rw [List.length_drop]; omega) (by omega) (by rw [hassoc]; exact hcf)
      (by rw [hassoc]; exact h31) (by rw [hassoc]; exact hsmall)
      (by rw [hassoc]; exact hstop)
      (by
        intro q0 h1q h2q
        have := hmin (q0 + 1) (by omega) (by omega)
        have et : rem.take (10 * (q0 + 1)) = rem.take 10 ++ (rem.drop 10).take (10 * q0) := by
          have e10 : 10 * (q0 + 1) = 10 + 10 * q0 := by omega
          rw [e10, List.take_add]
        rw [et, ← List.append_assoc] at this
        exact this)
    rw [hassoc] at this
    exact this

/-- The loop over the keyword records of a binary header: on `r + 1`
well-framed records that hold `nkw` and the slots, it returns behind the last
one when that is the first at which the groups that have begun reach `nkw`. -/
theorem binKeywordRecords_run (hl : HeaderLocals) (cfuel fuel : Nat) (a b size : Int)
    (nkw : Nat) (slots : List Nat) (r : Nat) (rest : List Int)
    (hsize : inRange 32 size = true) (hlen : slots.length + 1 = 10 * (r + 1))
    (hfuel : r + 1 ≤ fuel) (hcf : slots.length < cfuel) (h31 : slots.length < 2 ^ 31)
    (hnkw : nkw < 2 ^ 31) (hsmall : ∀ n ∈ slots, n < 2 ^ 31)
    (hstop : nkw ≤ groupsStarted slots)
    (hmin : ∀ r0, 1 ≤ r0 → r0 ≤ r → groupsStarted (slots.take (10 * r0 - 1)) < nkw) :
    binKeywordRecords hl cfuel fuel true 0 []
        { size1 := a, size2 := b,
          s := wordStream (records size (r + 1) (nkw :: slots) ++ rest) } =
      HRes.ok (nkw, natSlots slots, { size1 := size, size2 := size, s := wordStream rest }) := by
  obtain ⟨f, rfl⟩ : ∃ f, fuel = f + 1 := ⟨fuel - 1, by omega⟩
  have htl : (slots.take 9).length = 9 := by
    rw [List.length_take]; omega
  have hstream : records size (r + 1) (nkw :: slots) ++ rest =
      size :: ((nkw :: slots.take 9).map (fun (n : Nat) => (n : Int)) ++
        (size :: (records size r (slots.drop 9) ++ rest))) := by
    rw [records]
    simp only [frame, List.cons_append, List.append_assoc, List.nil_append, List.take_succ_cons,
      List.drop_succ_cons]
  rw [hstream]
  have h1 := readInt_word 32 a size
    ((nkw :: slots.take 9).map (fun (n : Nat) => (n : Int)) ++
      (size :: (records size r (slots.drop 9) ++ rest))) hsize
  have hb := readBlock_words hl.tmp ((nkw :: slots.take 9).map (fun (n : Nat) => (n : Int)))
    (size :: (records size r (slots.drop 9) ++ rest))
  rw [List.length_map, List.length_cons, htl, natSlots_words] at hb
  have h2 := readInt_word 32 b size (records size r (slots.drop 9) ++ rest) hsize
  have hsub : ∀ n ∈ slots.take 9, n < 2 ^ 31 := fun n hn => hsmall n (List.mem_of_mem_take hn)
  have hdrop : (natSlots (nkw :: slots.take 9)).drop 1 = natSlots (slots.take 9) := rfl
  have hc : carveLoop ([] ++ (if true = true then (natSlots (nkw :: slots.take 9)).drop 1
      else natSlots (nkw :: slots.take 9))) cfuel 0 0 =
      HRes.ok (groupsStarted (slots.take 9)) := by
    rw [if_pos rfl, List.nil_append, hdrop]
    exact carveLoop_slots (slots.take 9) cfuel (by omega) (by omega) hsub
  have hn : (if true = true then castUInt ((natSlots (nkw :: slots.take 9)).getD 0 0)
      else some 0) = some nkw := by
    rw [if_pos rfl]
    exact castUInt_natCast nkw (by omega)
  have hstep := binKeywordRecords_step hl cfuel f true 0 nkw (groupsStarted (slots.take 9))
    [] (natSlots (nkw :: slots.take 9))
    { size1 := a, size2 := b,
      s := wordStream (size :: ((nkw :: slots.take 9).map (fun (n : Nat) => (n : Int)) ++
        (size :: (records size r (slots.drop 9) ++ rest)))) }
    size size _ _ _ h1 hb hn hc h2
  rw [hstep, if_neg (by simp)]
  simp only [if_true, hdrop, List.nil_append]
  cases r with
  | zero =>
    have htake : slots.take 9 = slots := List.take_of_length_le (by omega)
    have hrec : records size 0 (slots.drop 9) ++ rest = rest := rfl
    rw [htake, if_pos hstop, hrec]
  | succ q =>
    have hlt : groupsStarted (slots.take 9) < nkw := by
      have := hmin 1 (le_refl 1) (by omega)
      exact this
    rw [if_neg (by omega)]
    have hsplit : slots.take 9 ++ slots.drop 9 = slots := List.take_append_drop 9 slots
    have := binKeywordRecords_rest hl cfuel size nkw hsize q (slots.take 9) (slots.drop 9) f
      size size rest (by rw [List.length_drop]; omega) (by omega)
      (by rw [hsplit]; exact hcf) (by rw [hsplit]; exact h31) (by rw [hsplit]; exact hsmall)
      (by rw [hsplit]; exact hstop)
      (by
        intro q0 h1q h2q
        have := hmin (q0 + 1) (by omega) (by omega)
        have et : slots.take (10 * (q0 + 1) - 1) =
            slots.take 9 ++ (slots.drop 9).take (10 * q0) := by
          have e10 : 10 * (q0 + 1) - 1 = 9 + 10 * q0 := by omega
          rw [e10, List.take_add]
        rw [et] at this
        exact this)
    rw [hsplit] at this
    exact this

/-- The slots that hold `nkw` complete groups hold `nkw` groups that have
begun. -/
theorem groupsComplete_le_groupsStarted (L : List Nat) : groupsComplete L ≤ groupsStarted L :=
  completeFrom_le_startedFrom L.length L

/-! ### C25 -/

/-- C25 fails on the code: the loop over the keyword records of a binary header
stops behind the first record at which the groups that have begun, not the
complete groups, reach `nkw`. On `r + 1` well-framed records whose slots are
natural numbers below `2^31`, with enough fuel, it returns behind record
`r + 1` when the slots read so far hold the size slot of the `nkw`-th group
and those of fewer records do not; this is never behind the record that
completes the `nkw`-th group, and it is in front of it when that group runs
over the record boundary. -/
theorem C25_keyword_records (hl : HeaderLocals) (cfuel fuel : Nat) (a b size : Int)
    (nkw : Nat) (slots : List Nat) (r : Nat) (rest : List Int)
    (hsize : inRange 32 size = true) (hlen : slots.length + 1 = 10 * (r + 1))
    (hfuel : r + 1 ≤ fuel) (hcf : slots.length < cfuel) (h31 : slots.length < 2 ^ 31)
    (hnkw : nkw < 2 ^ 31) (hsmall : ∀ n ∈ slots, n < 2 ^ 31)
    (hstop : nkw ≤ groupsStarted slots)
    (hmin : ∀ r0, 1 ≤ r0 → r0 ≤ r → groupsStarted (slots.take (10 * r0 - 1)) < nkw) :
    binKeywordRecords hl cfuel fuel true 0 []
        { size1 := a, size2 := b,
          s := wordStream (records size (r + 1) (nkw :: slots) ++ rest) } =
      HRes.ok (nkw, natSlots slots,
        { size1 := size, size2 := size, s := wordStream rest }) ∧
    ∀ r0, 1 ≤ r0 → nkw ≤ groupsComplete (slots.take (10 * r0 - 1)) → r + 1 ≤ r0 := by
  refine ⟨binKeywordRecords_run hl cfuel fuel a b size nkw slots r rest hsize hlen hfuel hcf
    h31 hnkw hsmall hstop hmin, ?_⟩
  intro r0 h1 hc
  by_contra hlt
  have h2 := hmin r0 h1 (by omega)
  have h3 := groupsComplete_le_groupsStarted (slots.take (10 * r0 - 1))
  omega

/-- C25 on the failing input: `nkw = 1` and a group of size 12, whose entries
run into the second record. The loop returns behind the first record, with
the second record unread, although the nine slots read hold no complete
group; the nineteen slots of both records hold one. -/
theorem C25_keyword_records_witness :
    (binKeywordRecords exHL 20 5 true 0 []
        { size1 := 0, size2 := 0,
          s := wordStream (records 80 (0 + 1) (1 :: [12, 1, 2, 3, 4, 5, 6, 7, 8]) ++
            frame 80 [9, 10, 11, 12, 0, 0, 0, 0, 0, 0]) } =
      HRes.ok (1, natSlots [12, 1, 2, 3, 4, 5, 6, 7, 8],
        { size1 := 80, size2 := 80,
          s := wordStream (frame 80 [9, 10, 11, 12, 0, 0, 0, 0, 0, 0]) }) ∧
      ∀ r0, 1 ≤ r0 →
        1 ≤ groupsComplete (([12, 1, 2, 3, 4, 5, 6, 7, 8] : List Nat).take (10 * r0 - 1)) →
        0 + 1 ≤ r0) ∧
    groupsComplete [12, 1, 2, 3, 4, 5, 6, 7, 8] = 0 ∧
    groupsStarted [12, 1, 2, 3, 4, 5, 6, 7, 8] = 1 ∧
    groupsComplete [12, 1, 2, 3, 4, 5, 6, 7, 8, 9, 10, 11, 12, 0, 0, 0, 0, 0, 0] = 7 :=
  ⟨C25_keyword_records exHL 20 5 0 0 80 1 [12, 1, 2, 3, 4, 5, 6, 7, 8] 0
      (frame 80 [9, 10, 11, 12, 0, 0, 0, 0, 0, 0]) (by decide) (by decide) (by decide)
      (by decide) (by decide) (by decide) (by decide) (by decide)
      (fun r0 h1 h2 => absurd h1 (by omega)),
    by decide, by decide, by decide⟩

/-! ### C26 -/

/-- C26 (amended): the ASCII parser reads one keyword line when `nkw < 3` and
two when `nkw ≥ 3`, whatever the keyword values are, so that it holds the
first 9 or the first 19 of them. Group carving calls for `r + 1` records,
the least number such that the first `10 (r + 1) - 1` values hold `nkw`
complete groups. The number of lines equals that number of records exactly
when `nkw < 3` and the first nine values hold `nkw` complete groups, or
`nkw ≥ 3` and the first nine values do not but the first nineteen do. -/
theorem C26_line_rule (hl : HeaderLocals) (s s1 : Stream) (kwent : List Dbl)
    (nkw : Nat) (slots : List Nat) (r : Nat)
    (hA : asciiKeywords hl s = HRes.ok (nkw, kwent, s1))
    (hsame : kwent = natSlots (slots.take kwent.length))
    (hstop : nkw ≤ groupsComplete (slots.take (10 * (r + 1) - 1)))
    (hmin : ∀ r0, 1 ≤ r0 → r0 ≤ r → groupsComplete (slots.take (10 * r0 - 1)) < nkw) :
    kwent.length + 1 = 10 * (if nkw < 3 then 1 else 2) ∧
    kwent = natSlots (slots.take (10 * (if nkw < 3 then 1 else 2) - 1)) ∧
    ((if nkw < 3 then 1 else 2) = r + 1 ↔
      (nkw < 3 ∧ nkw ≤ groupsComplete (slots.take 9)) ∨
        (3 ≤ nkw ∧ groupsComplete (slots.take 9) < nkw ∧
          nkw ≤ groupsComplete (slots.take 19))) := by
  have hlines : kwent.length + 1 = 10 * (if nkw < 3 then 1 else 2) := by
    rcases asciiKeywords_cases hl s with h | ⟨n, k, s0, h, hc⟩
    · rw [h] at hA; exact absurd hA (by simp)
    · rw [h] at hA
      simp only [HRes.ok.injEq, Prod.mk.injEq] at hA
      rw [← hA.1, ← hA.2.1]
      rcases hc with ⟨h1, h2⟩ | ⟨h1, h2⟩
      · rw [if_pos h1, h2]
      · rw [if_neg (by omega), h2]
  have hk : 10 * (if nkw < 3 then 1 else 2) - 1 = kwent.length := by omega
  refine ⟨hlines, ?_, ?_⟩
  · rw [hk]
    exact hsame
  · cases r with
    | zero =>
      have h9 : nkw ≤ groupsComplete (slots.take 9) := hstop
      by_cases h3 : nkw < 3
      · rw [if_pos h3]
        exact ⟨fun _ => Or.inl ⟨h3, h9⟩, fun _ => rfl⟩
      · rw [if_neg h3]
        constructor
        · intro h; omega
        · rintro (⟨h, _⟩ | ⟨_, h, _⟩) <;> omega
    | succ q =>
      have h9 : groupsComplete (slots.take 9) < nkw := hmin 1 (le_refl 1) (by omega)
      cases q with
      | zero =>
        have h19 : nkw ≤ groupsComplete (slots.take 19) := hstop
        by_cases h3 : nkw < 3
        · rw [if_pos h3]
          constructor
          · intro h; omega
          · rintro (⟨_, h⟩ | ⟨h, _⟩) <;> omega
        · rw [if_neg h3]
          exact ⟨fun _ => Or.inr ⟨by omega, h9, h19⟩, fun _ => rfl⟩
      | succ q =>
        have h19 : groupsComplete (slots.take 19) < nkw := hmin 2 (by omega) (by omega)
        constructor
        · intro h
          split at h <;> omega
        · rintro (⟨_, h⟩ | ⟨_, _, h⟩) <;> omega

/-- C26 on `nkw = 2` and the keyword values `1 100 0 0 0 0 0 0 0`: one line,
and the first nine values hold two complete groups, so carving calls for one
record. -/
theorem C26_line_rule_witness :
    ([1, 100, 0, 0, 0, 0, 0, 0, 0] : List Dbl).length + 1 = 10 * (if 2 < 3 then 1 else 2) ∧
    ([1, 100, 0, 0, 0, 0, 0, 0, 0] : List Dbl) =
      natSlots (([1, 100, 0, 0, 0, 0, 0, 0, 0] : List Nat).take
        (10 * (if 2 < 3 then 1 else 2) - 1)) ∧
    ((if 2 < 3 then 1 else 2) = 0 + 1 ↔
      (2 < 3 ∧ 2 ≤ groupsComplete (([1, 100, 0, 0, 0, 0, 0, 0, 0] : List Nat).take 9)) ∨
        (3 ≤ 2 ∧ groupsComplete (([1, 100, 0, 0, 0, 0, 0, 0, 0] : List Nat).take 9) < 2 ∧
          2 ≤ groupsComplete (([1, 100, 0, 0, 0, 0, 0, 0, 0] : List Nat).take 19))) :=
  C26_line_rule exHL (exAsciiHeader exKwPlain 3 [1, 2, 10, 22, 7])
    (exStream (Item.nl :: exTables)) [1, 100, 0, 0, 0, 0, 0, 0, 0] 2
    [1, 100, 0, 0, 0, 0, 0, 0, 0] 0 (by rfl) (by rfl) (by decide)
    (fun r0 h1 h2 => absurd h1 (by omega))

/-- C26 as stated fails: on `nkw = 3` and keyword values that are all zero the
ASCII parser reads two lines, nineteen values, while the first nine values
hold nine complete groups: carving calls for one record, and the binary
loop reads one record and leaves the second unread. On `nkw = 2` and a first
group of size 8 the ASCII parser reads one line, while the first nine values
hold one complete group and the first nineteen hold eleven: carving calls
for two records, and the binary loop reads two. -/
theorem C26_counterexample :
    keywordView (asciiKeywords exHL exZeroHeader) =
      some (3, [0, 0, 0, 0, 0, 0, 0, 0, 0, 0, 0, 0, 0, 0, 0, 0, 0, 0, 0]) ∧
    groupsComplete
      (([0, 0, 0, 0, 0, 0, 0, 0, 0, 0, 0, 0, 0, 0, 0, 0, 0, 0, 0] : List Nat).take
        (10 * 1 - 1)) = 9 ∧
    binKeywordRecords exHL 20 5 true 0 []
        { size1 := 0, size2 := 0,
          s := wordStream (records 80 1 [3, 0, 0, 0, 0, 0, 0, 0, 0, 0] ++
            frame 80 [0, 0, 0, 0, 0, 0, 0, 0, 0, 0]) } =
      HRes.ok (3, natSlots [0, 0, 0, 0, 0, 0, 0, 0, 0],
        { size1 := 80, size2 := 80,
          s := wordStream (frame 80 [0, 0, 0, 0, 0, 0, 0, 0, 0, 0]) }) ∧
    keywordView (asciiKeywords exHL
        (exAsciiHeader [8, 1, 2, 3, 4, 5, 6, 7, 8] 3 [1, 2, 10, 22, 7])) =
      some (2, [8, 1, 2, 3, 4, 5, 6, 7, 8]) ∧
    groupsComplete
      (([8, 1, 2, 3, 4, 5, 6, 7, 8, 0, 0, 0, 0, 0, 0, 0, 0, 0, 0] : List Nat).take
        (10 * 1 - 1)) = 1 ∧
    groupsComplete
      (([8, 1, 2, 3, 4, 5, 6, 7, 8, 0, 0, 0, 0, 0, 0, 0, 0, 0, 0] : List Nat).take
        (10 * 2 - 1)) = 11 ∧
    binKeywordRecords exHL 30 5 true 0 []
        { size1 := 0, size2 := 0,
          s := wordStream (records 80 2
            [2, 8, 1, 2, 3, 4, 5, 6, 7, 8, 0, 0, 0, 0, 0, 0, 0, 0, 0, 0]) } =
      HRes.ok (2, natSlots [8, 1, 2, 3, 4, 5, 6, 7, 8, 0, 0, 0, 0, 0, 0, 0, 0, 0, 0],
        { size1 := 80, size2 := 80, s := wordStream [] }) :=
  ⟨by rfl, by decide, by rfl, by rfl, by decide, by decide, by rfl⟩

/-! ## Properties of batch reads in a row -/

/-- The vector built so far is carried through the batch loop unchanged. -/
theorem legacyLoop_acc (fuel : Nat) (p : Ptrac) (u : Locals) :
    ∀ (n : Nat) (acc : List PtracHistory) (s : Stream),
      legacyLoop fuel p u n acc s =
        match legacyLoop fuel p u n [] s with
        | Res.ok (l, s1) => Res.ok (acc ++ l, s1)
        | Res.exn => Res.exn
        | Res.ub => Res.ub
        | Res.oof => Res.oof := by
  intro n
  induction n with
  | zero =>
    intro acc s
    simp only [legacyLoop, List.append_nil]
  | succ n ih =>
    intro acc s
    simp only [legacyLoop]
    by_cases heof : (peek s).eof = true
    · simp only [heof, Bool.not_true, Bool.false_eq_true, if_false, List.append_nil]
    · have hf : (peek s).eof = false := Bool.eq_false_iff.mpr heof
      simp only [hf, Bool.not_false, if_true]
      cases hr : ReadHistory fuel p u (peek s) with
      | ok x =>
        obtain ⟨hist, s2⟩ := x
        simp only
        rw [ih (acc ++ [hist]) s2, ih ([] ++ [hist]) s2]
        cases legacyLoop fuel p u n [] s2 with
        | ok y =>
          obtain ⟨l, s3⟩ := y
          simp only [List.nil_append, List.append_assoc]
        | exn => rfl
        | ub => rfl
        | oof => rfl
      | exn => rfl
      | ub => rfl
      | oof => rfl

/-- A batch loop of `a + b` passes is a loop of `a` passes followed, unless it
stopped at the end of the file, by a loop of `b` passes. -/
theorem legacyLoop_add (fuel : Nat) (p : Ptrac) (u : Locals) (b : Nat) :
    ∀ (a : Nat) (acc : List PtracHistory) (s : Stream),
      legacyLoop fuel p u (a + b) acc s =
        match legacyLoop fuel p u a acc s with
        | Res.ok (l1, s1) =>
          if l1.length < acc.length + a then Res.ok (l1, s1) else legacyLoop fuel p u b l1 s1
        | Res.exn => Res.exn
        | Res.ub => Res.ub
        | Res.oof => Res.oof := by
  intro a
  induction a with
  | zero =>
    intro acc s
    simp only [legacyLoop, Nat.zero_add, Nat.add_zero, lt_irrefl, if_false]
  | succ a ih =>
    intro acc s
    have e : a + 1 + b = (a + b) + 1 := by omega
    rw [e]
    simp only [legacyLoop]
    by_cases heof : (peek s).eof = true
    · simp only [heof, Bool.not_true, Bool.false_eq_true, if_false]
      rw [if_pos (by omega)]
    · have hf : (peek s).eof = false := Bool.eq_false_iff.mpr heof
      simp only [hf, Bool.not_false, if_true]
      cases hr : ReadHistory fuel p u (peek s) with
      | ok x =>
        obtain ⟨hist, s2⟩ := x
        simp only
        rw [ih (acc ++ [hist]) s2]
        have el : (acc ++ [hist]).length + a = acc.length + (a + 1) := by
          rw [List.length_append, List.length_singleton]; omega
        rw [el]
      | exn => rfl
      | ub => rfl
      | oof => rfl

/-- A batch loop that returns fewer histories than asked for leaves `eofbit`
set; one that does not returns exactly as many as asked for. -/
theorem legacyLoop_count (fuel : Nat) (p : Ptrac) (u : Locals) (n : Nat)
    (s s1 : Stream) (l : List PtracHistory)
    (h : legacyLoop fuel p u n [] s = Res.ok (l, s1)) :
    l.length ≤ n ∧ (l.length < n → s1.eofbit = true) := by
  rw [legacyLoop_spec] at h
  obtain ⟨hs, s3, hres, _, hcase⟩ := h
  rw [List.nil_append] at hres
  subst hres
  rcases hcase with ⟨hlen, _⟩ | ⟨hlen, he, hs1⟩
  · exact ⟨by omega, fun hc => by omega⟩
  · refine ⟨by omega, fun _ => ?_⟩
    rw [hs1]
    exact he

/-- On a stream with `eofbit` set the call `peek` only sets `failbit`. -/
theorem peek_of_eofbit (s : Stream) (h : s.eofbit = true) :
    peek s = { s with failbit := true } ∧ (peek s).eof = true := by
  unfold peek Stream.good Stream.eof
  simp [h]

/-- On a stream with `eofbit` set the batch loop returns at once, after one
more `peek` when at least one history is asked for. -/
theorem legacyLoop_at_eof (fuel : Nat) (p : Ptrac) (u : Locals) (n : Nat)
    (acc : List PtracHistory) (s : Stream) (h : s.eofbit = true) :
    legacyLoop fuel p u n acc s = Res.ok (acc, if n = 0 then s else peek s) := by
  cases n with
  | zero => simp [legacyLoop]
  | succ n =>
    simp only [legacyLoop, (peek_of_eofbit s h).2, Bool.not_true, Bool.false_eq_true, if_false]
    simp

/-! ### C31 -/

/-- C31 (amended): for the ASCII and binary formats, when `ReadHistories(a)`
returns the list `l1`: if it holds `a` histories, `ReadHistories(a + b)` on
the first stream does what `ReadHistories(b)` does on the stream left, with
`l1` in front of its list and the same final stream; if it holds fewer, the
end of the file was met, `ReadHistories(a + b)` returns `l1` and the stream
left, and `ReadHistories(b)` returns the empty list, but for `b ≥ 1` its
`peek` also sets `failbit` on the stream, which the single call does not.
The counts are natural numbers here; below `2^32` they are the arguments of
the code. -/
theorem C31_batch_compose (hdf5 : Nat → Stream → Res (List PtracHistory × Stream))
    (fuel : Nat) (p : Ptrac) (u : Locals) (a b : Nat) (s s1 : Stream)
    (l1 : List PtracHistory) (hfmt : p.m_format ≠ PtracFormat.HDF5_PTRAC)
    (h1 : ReadHistories hdf5 fuel p u a s = Res.ok (l1, s1)) :
    l1.length ≤ a ∧
    (l1.length = a →
      ReadHistories hdf5 fuel p u (a + b) s =
        match ReadHistories hdf5 fuel p u b s1 with
        | Res.ok (l2, s2) => Res.ok (l1 ++ l2, s2)
        | Res.exn => Res.exn
        | Res.ub => Res.ub
        | Res.oof => Res.oof) ∧
    (l1.length < a →
      ReadHistories hdf5 fuel p u (a + b) s = Res.ok (l1, s1) ∧
      ReadHistories hdf5 fuel p u b s1 = Res.ok ([], if b = 0 then s1 else peek s1) ∧
      s1.eofbit = true ∧ peek s1 = { s1 with failbit := true }) := by
  simp only [ReadHistories, if_neg hfmt, ReadHistoriesLegacy] at h1 ⊢
  obtain ⟨hle, hearly⟩ := legacyLoop_count fuel p u a s s1 l1 h1
  refine ⟨hle, ?_, ?_⟩
  · intro hlen
    rw [legacyLoop_add fuel p u b a [] s, h1]
    simp only [List.length_nil, Nat.zero_add]
    rw [if_neg (by omega)]
    exact legacyLoop_acc fuel p u b l1 s1
  · intro hlt
    have he := hearly hlt
    refine ⟨?_, legacyLoop_at_eof fuel p u b [] s1 he, he, (peek_of_eofbit s1 he).1⟩
    rw [legacyLoop_add fuel p u b a [] s, h1]
    simp only [List.length_nil, Nat.zero_add]
    rw [if_pos hlt]

/-- C31 at `ReadHistories(1)` followed by `ReadHistories(1)` on the body of
scenario 1. -/
theorem C31_batch_compose_witness :
    ([({ m_nps := ⟨1, 0, 0, 0, 0⟩,
         m_events := [⟨1000, 0, [(10, 1.23), (22, 4.56)]⟩] } : PtracHistory)].length ≤ 1) ∧
    ([({ m_nps := ⟨1, 0, 0, 0, 0⟩,
         m_events := [⟨1000, 0, [(10, 1.23), (22, 4.56)]⟩] } : PtracHistory)].length = 1 →
      ReadHistories (fun _ _ => Res.exn) 5 exSrcHeader exLocals (1 + 1) exBody =
        match ReadHistories (fun _ _ => Res.exn) 5 exSrcHeader exLocals 1 (exStream []) with
        | Res.ok (l2, s2) =>
          Res.ok ([({ m_nps := ⟨1, 0, 0, 0, 0⟩,
                      m_events := [⟨1000, 0, [(10, 1.23), (22, 4.56)]⟩] } : PtracHistory)] ++ l2,
            s2)
        | Res.exn => Res.exn
        | Res.ub => Res.ub
        | Res.oof => Res.oof) ∧
    ([({ m_nps := ⟨1, 0, 0, 0, 0⟩,
         m_events := [⟨1000, 0, [(10, 1.23), (22, 4.56)]⟩] } : PtracHistory)].length < 1 →
      ReadHistories (fun _ _ => Res.exn) 5 exSrcHeader exLocals (1 + 1) exBody =
        Res.ok ([{ m_nps := ⟨1, 0, 0, 0, 0⟩,
                   m_events := [⟨1000, 0, [(10, 1.23), (22, 4.56)]⟩] }], exStream []) ∧
      ReadHistories (fun _ _ => Res.exn) 5 exSrcHeader exLocals 1 (exStream []) =
        Res.ok ([], if 1 = 0 then exStream [] else peek (exStream [])) ∧
      (exStream []).eofbit = true ∧ peek (exStream []) = { exStream [] with failbit := true }) :=
  C31_batch_compose (fun _ _ => Res.exn) 5 exSrcHeader exLocals 1 1 exBody (exStream [])
    [{ m_nps := ⟨1, 0, 0, 0, 0⟩, m_events := [⟨1000, 0, [(10, 1.23), (22, 4.56)]⟩] }]
    (by decide) (by rfl)

/-- C31 as stated fails on the final stream: on the body of scenario 1,
`ReadHistories(2)` returns one history and leaves `eofbit` set;
`ReadHistories(1)` after it returns no history and its `peek` sets `failbit`;
`ReadHistories(3)` alone returns the same history and leaves `failbit`
unset. -/
theorem C31_counterexample :
    ReadHistories (fun _ _ => Res.exn) 5 exSrcHeader exLocals 2 exBody =
      Res.ok ([{ m_nps := ⟨1, 0, 0, 0, 0⟩,
                 m_events := [⟨1000, 0, [(10, 1.23), (22, 4.56)]⟩] }], ⟨[], true, false⟩) ∧
    ReadHistories (fun _ _ => Res.exn) 5 exSrcHeader exLocals 1 ⟨[], true, false⟩ =
      Res.ok ([], ⟨[], true, true⟩) ∧
    ReadHistories (fun _ _ => Res.exn) 5 exSrcHeader exLocals (2 + 1) exBody =
      Res.ok ([{ m_nps := ⟨1, 0, 0, 0, 0⟩,
                 m_events := [⟨1000, 0, [(10, 1.23), (22, 4.56)]⟩] }], ⟨[], true, false⟩) ∧
    (2 : Nat) + 1 < 2 ^ 32 ∧
    (⟨[], true, true⟩ : Stream) ≠ ⟨[], true, false⟩ :=
  ⟨by rfl, by rfl, by rfl, by decide, by decide⟩

end mcnptools
